import Mathlib

/-!
# CPU encoding materialization: tile catalogs and tile selection

A shallow embedding of `CPUMaterializeEncodings.cpp`
(`compiler/src/iree/compiler/Codegen/Common/CPU`): the per-architecture tile
enumerators, `chooseMatmulTile`, and `materializeEncodingForTarget`.

Conventions of the embedding.

* `int64_t` values are `Int`; 64-bit arithmetic that can leave the range is
  wrapped explicitly (`wrapInt64`, `toUInt64`).
* A C++ `assert` is active only when the build enables assertions; the flag
  `ae` ("assertions enabled") stands for `!defined(NDEBUG)`.  A failed
  assertion and an out-of-range element access are reported as a `Fault`.
* `FailureOr<T>` is `Option T`.
* `TileMxNxK` is declared outside these sources; the value of a
  default-constructed tile is the argument `dflt` wherever the code
  default-constructs one (`RatedTileMxNxK bestRatedTile;`, line 403).
-/

set_option autoImplicit false

namespace CPUMaterializeEncodings

/-! ## Machine integers -/

/-- Reinterpretation of an integer as a signed 64-bit value (two's complement). -/
def wrapInt64 (x : Int) : Int :=
  (x + ((2 ^ 63 : Nat) : Int)) % ((2 ^ 64 : Nat) : Int) - ((2 ^ 63 : Nat) : Int)

/-- Conversion of an integer to `uint64_t` (reduction modulo `2^64`). -/
def toUInt64 (x : Int) : Nat :=
  (x % ((2 ^ 64 : Nat) : Int)).toNat

/-- The constant `INT64_MAX`. -/
def INT64_MAX : Int := ((2 ^ 63 - 1 : Nat) : Int)

/-- MLIR's `ShapedType::kDynamic`, the minimum `int64_t`. -/
def kDynamic : Int := -((2 ^ 63 : Nat) : Int)

/-- MLIR's `ShapedType::isDynamic`. -/
def isDynamic (x : Int) : Bool := x == kDynamic

/-- Doubling loop behind `PowerOf2Ceil`: the first of `p, 2p, 4p, ...` that is
at least `a`, looking at no more than `fuel` doublings. -/
def pow2CeilLoop : Nat → Nat → Nat → Nat
  | 0, p, _ => p
  | fuel + 1, p, a => if a ≤ p then p else pow2CeilLoop fuel (2 * p) a

/-- LLVM's `llvm::PowerOf2Ceil` on `uint64_t` (MathExtras.h): `0` when the
argument is `0` or exceeds `UINT64_MAX / 2`, otherwise `1 << ceil(log2 A)`. -/
def PowerOf2Ceil (A : Nat) : Nat :=
  if A = 0 ∨ A > (2 ^ 64 - 1) / 2 then 0 else pow2CeilLoop 64 1 A

/-! ## Data model -/

/-- A matmul tile shape; `kDynamic` in a component marks it dynamic. -/
structure TileMxNxK where
  M : Int
  N : Int
  K : Int
  deriving DecidableEq, Repr

/-- The member `MatmulNarrowDim::Dim`. -/
inductive Dim where
  | None
  | M
  | N
  deriving DecidableEq, Repr

/-- Modelled from the spec: `IREE::Encoding::MatmulNarrowDim`, declared in the
Encoding dialect. "NarrowDim: optional; identifies whether M or N is known to be
small at compile time, and its bound. Absent means no narrowing hint." -/
structure MatmulNarrowDim where
  dim : Dim
  size : Int
  deriving DecidableEq, Repr

/-- The member `MatmulNarrowDim::isN()`. -/
def MatmulNarrowDim.isN (d : MatmulNarrowDim) : Bool := d.dim == Dim.N

/-- The member `MatmulNarrowDim::isM()`. -/
def MatmulNarrowDim.isM (d : MatmulNarrowDim) : Bool := d.dim == Dim.M

/-- The conversion `explicit operator bool()` of `MatmulNarrowDim`: a hint is present. -/
def MatmulNarrowDim.toBool (d : MatmulNarrowDim) : Bool := d.dim != Dim.None

/-- What stops a run: a failed `assert` (assertion builds only) or an element
access outside a container. The range check of `operator[]` is itself an `assert`: it
stops an assertion build at every such access. A build without assertions is stopped
where the run goes on to use the value read, which the program does not determine,
and carries on where it does not (the exchange of line 326 on empty bounds). The
number is the source line. -/
inductive Fault where
  | assertion (line : Nat)
  | outOfBounds (line : Nat)
  deriving DecidableEq, Repr

/-- The local record `RatedTileMxNxK` of `chooseMatmulTile`. -/
structure RatedTileMxNxK where
  tile : TileMxNxK
  paddingPenalty : Int
  productMxNxK : Int
  deriving DecidableEq, Repr

/-! ## chooseMatmulTile -/

/-- The `int64_t` product `a * b`. -/
def mulInt64 (a b : Int) : Int := wrapInt64 (a * b)

/-- The expression `std::max<int64_t>(tile.M - llvm::PowerOf2Ceil(narrowDim.size), 0)`:
the subtraction is carried out in `uint64_t`, its result converted to `int64_t`. -/
def narrowPenalty (tileM size : Int) : Int :=
  max (wrapInt64 (((toUInt64 tileM : Nat) : Int) - ((PowerOf2Ceil (toUInt64 size) : Nat) : Int))) 0

/-- The value of `ratedTile.paddingPenalty` for a candidate (lines 381-393). -/
def paddingPenalty (narrowDim : MatmulNarrowDim) (tile : TileMxNxK) : Int :=
  if narrowDim.toBool then narrowPenalty tile.M narrowDim.size else 0

/-- The value of `ratedTile.productMxNxK` for a candidate (line 394). -/
def productMxNxK (tile : TileMxNxK) : Int :=
  mulInt64 (mulInt64 tile.M tile.N) tile.K

/-- The test of line 369, negated: the candidate is kept. -/
def withinBounds (mUB nUB kUB : Int) (tile : TileMxNxK) : Bool :=
  !(decide (tile.M > mUB) || decide (tile.N > nUB) || decide (tile.K > kUB))

/-- The record `ratedTile` that lines 380-394 build for a candidate. -/
def rate (narrowDim : MatmulNarrowDim) (tile : TileMxNxK) : RatedTileMxNxK :=
  { tile := tile
    paddingPenalty := paddingPenalty narrowDim tile
    productMxNxK := productMxNxK tile }

/-- The loop of lines 339-347: the first tile with a dynamic component is
returned, after the two assertions on it. -/
def dynamicScan (ae : Bool) (size : Nat) : List TileMxNxK → Except Fault (Option TileMxNxK)
  | [] => .ok none
  | tile :: rest =>
    if isDynamic tile.M || isDynamic tile.N || isDynamic tile.K then
      if ae && !(size == 1) then .error (.assertion 342)
      else if ae && !(isDynamic tile.M && isDynamic tile.N && isDynamic tile.K) then
        .error (.assertion 343)
      else .ok (some tile)
    else dynamicScan ae size rest

/-- One iteration of the rating loop (lines 368-402) on the state
`(ratedTiles, bestPaddingPenalty)`. -/
def rateStep (narrowDim : MatmulNarrowDim) (mUB nUB kUB : Int)
    (st : List RatedTileMxNxK × Int) (tile : TileMxNxK) : List RatedTileMxNxK × Int :=
  if withinBounds mUB nUB kUB tile then
    let ratedTile := rate narrowDim tile
    (st.1 ++ [ratedTile], min st.2 ratedTile.paddingPenalty)
  else st

/-- One iteration of the selection loop (lines 404-411). -/
def selectStep (bestPaddingPenalty : Int) (bestRatedTile ratedTile : RatedTileMxNxK) :
    RatedTileMxNxK :=
  if ratedTile.paddingPenalty == bestPaddingPenalty &&
      decide (bestRatedTile.productMxNxK < ratedTile.productMxNxK) then ratedTile
  else bestRatedTile

/-- Lines 363-367: the three upper bounds, `INT64_MAX` each when no bound is given. -/
def readUpperBounds : List Int → Except Fault (Int × Int × Int)
  | [] => .ok (INT64_MAX, INT64_MAX, INT64_MAX)
  | [_] => .error (.outOfBounds 365)
  | [_, _] => .error (.outOfBounds 366)
  | m :: n :: k :: _ => .ok (m, n, k)

/-- Lines 325-326: the copy of the bounds with elements 0 and 1 exchanged. On a copy
with fewer than two elements the accesses `[0]` and `[1]` fail the range check of
`SmallVector::operator[]`, an `assert`. Without assertions the exchange acts on the
inline storage of the copy: for empty bounds it exchanges two slots that hold no
element, and the copy is empty as before; for a single bound, element 0 would receive
the content of a slot that was never written. -/
def swapFirstTwo (ae : Bool) : List Int → Except Fault (List Int)
  | m :: n :: rest => .ok (n :: m :: rest)
  | [_] => .error (.outOfBounds 326)
  | [] => if ae then .error (.outOfBounds 326) else .ok []

/-- Lines 348-415 of `chooseMatmulTile`: rating and selection. `dflt` is the
value of a default-constructed `TileMxNxK`, whose declaration is outside these
sources. -/
def rateAndSelect (ae : Bool) (dflt : TileMxNxK) (enumeratedTiles : List TileMxNxK)
    (narrowDim : MatmulNarrowDim) (hostDefinedUpperBound : List Int) :
    Except Fault TileMxNxK :=
  match readUpperBounds hostDefinedUpperBound with
  | .error f => .error f
  | .ok (mUB, nUB, kUB) =>
    let rated := enumeratedTiles.foldl (rateStep narrowDim mUB nUB kUB) ([], INT64_MAX)
    let bestRatedTile := rated.1.foldl (selectStep rated.2)
      { tile := dflt, paddingPenalty := 0, productMxNxK := 0 }
    if ae && !(bestRatedTile.paddingPenalty == rated.2) then .error (.assertion 414)
    else .ok bestRatedTile.tile

/-- The function `chooseMatmulTile` (lines 315-416). -/
def chooseMatmulTile (ae : Bool) (dflt : TileMxNxK) (enumeratedTiles : List TileMxNxK)
    (narrowDim : MatmulNarrowDim) (hostDefinedUpperBound : List Int) :
    Except Fault TileMxNxK :=
  if ae && !(hostDefinedUpperBound.isEmpty || decide (hostDefinedUpperBound.length ≥ 3)) then
    .error (.assertion 319)
  else if narrowDim.dim = Dim.N then
    match swapFirstTwo ae hostDefinedUpperBound with
    | .error f => .error f
    | .ok newHostDefinedUpperBound =>
      match chooseMatmulTile ae dflt enumeratedTiles { narrowDim with dim := Dim.M }
          newHostDefinedUpperBound with
      | .error f => .error f
      | .ok tile => .ok { tile with M := tile.N, N := tile.M }
  else
    match dynamicScan ae enumeratedTiles.length enumeratedTiles with
    | .error f => .error f
    | .ok (some tile) => .ok tile
    | .ok none => rateAndSelect ae dflt enumeratedTiles narrowDim hostDefinedUpperBound
termination_by (if narrowDim.dim = Dim.N then 1 else 0)
decreasing_by simp_all

/-! ## Targets, element types, encodings -/

/-- The signedness semantics of an MLIR integer type. -/
inductive Signedness where
  | Signless
  | Signed
  | Unsigned
  deriving DecidableEq, Repr

/-- The part of an MLIR element `Type` that the enumerators inspect. -/
inductive MlirType where
  | F16
  | BF16
  | F32
  | OtherFloat
  | Integer (width : Nat) (signedness : Signedness)
  | Other
  deriving DecidableEq, Repr

/-- MLIR's `Type::isF32`. -/
def MlirType.isF32 (t : MlirType) : Bool := t == MlirType.F32

/-- MLIR's `Type::isF16`. -/
def MlirType.isF16 (t : MlirType) : Bool := t == MlirType.F16

/-- MLIR's `Type::isBF16`. -/
def MlirType.isBF16 (t : MlirType) : Bool := t == MlirType.BF16

/-- The test `isa<FloatType>(t)`. -/
def MlirType.isFloat : MlirType → Bool
  | .F16 | .BF16 | .F32 | .OtherFloat => true
  | _ => false

/-- MLIR's `Type::isSignlessInteger(width)`. -/
def MlirType.isSignlessInteger (t : MlirType) (width : Nat) : Bool :=
  t == MlirType.Integer width Signedness.Signless

/-- MLIR's `Type::isUnsignedInteger(width)`. -/
def MlirType.isUnsignedInteger (t : MlirType) (width : Nat) : Bool :=
  t == MlirType.Integer width Signedness.Unsigned

/-- Modelled from the spec: `IREE::HAL::ExecutableTargetAttr` as seen through the
helpers `isVMVXBackend`, `isAArch64`, `isX86_64`, `isRISCV32`, `isRISCV64`,
`hasUkernel` and `hasFeature`, all declared outside these sources.
"TargetDescriptor: architecture family, feature-flag set (strings), has native
microkernel backend flag." Each helper is a field, so nothing is assumed about
how they relate. -/
structure ExecutableTargetAttr where
  isVMVXBackend : Bool
  isAArch64 : Bool
  isX86_64 : Bool
  isRISCV32 : Bool
  isRISCV64 : Bool
  hasUkernel : Bool
  hasFeature : String → Bool

/-- The fields of `linalg::ContractionDimensions` that are read: the dimension
indices classified as batch, M, N and K. -/
structure ContractionDimensions where
  batch : List Nat
  m : List Nat
  n : List Nat
  k : List Nat
  deriving DecidableEq, Repr

/-- Modelled from the spec: `IREE::Encoding::EncodingAttr` as seen through its
accessors, declared in the Encoding dialect. "EncodingAttr: ElementTypeTriple,
ContractionShape, NarrowDim?, RoundDimsTo?". `contractionDims` is the result of
`getEncodingContractionDims` (`none` when it fails), `elementTypes` of
`getElementTypesArray`, `narrowDim` of `getMatmulNarrowDim`, `roundDimsTo` of
`getRoundDimsToArray` (empty when the attribute is absent). -/
structure EncodingAttr where
  contractionDims : Option ContractionDimensions
  elementTypes : List MlirType
  narrowDim : MatmulNarrowDim
  roundDimsTo : List Int

/-- A `RankedTensorType` as far as `materializeEncodingForTarget` reads it:
`encoding` is `none` when the type has no encoding or one that is not an
`EncodingAttr`. -/
structure RankedTensorType where
  encoding : Option EncodingAttr

/-! ## Tile catalog enumerators -/

/-- The function `enumerateMatmulTilesVMVX` (lines 44-69). -/
def enumerateMatmulTilesVMVX (cDims : ContractionDimensions) (encoding : EncodingAttr)
    (target : ExecutableTargetAttr) : List TileMxNxK :=
  let hasUkernelSupport :=
    if !cDims.batch.isEmpty || encoding.narrowDim.toBool then false else target.hasUkernel
  if hasUkernelSupport then [⟨kDynamic, kDynamic, kDynamic⟩]
  else [⟨8, 8, 4⟩, ⟨4, 8, 4⟩, ⟨2, 8, 4⟩, ⟨1, 8, 4⟩]

/-- The function `enumerateMatmulTileRiscv32` (lines 74-86). -/
def enumerateMatmulTileRiscv32 (target : ExecutableTargetAttr) : List TileMxNxK :=
  if target.hasUkernel then [⟨8, 8, 4⟩, ⟨4, 8, 4⟩, ⟨2, 8, 4⟩, ⟨1, 8, 4⟩]
  else []

/-- The function `enumerateMatmulTileRiscv64` (lines 91-102): the first `return`
is unconditional. -/
def enumerateMatmulTileRiscv64 (_target : ExecutableTargetAttr) : List TileMxNxK :=
  [⟨7, 32, 1⟩, ⟨4, 32, 1⟩, ⟨2, 32, 1⟩, ⟨1, 32, 1⟩]

/-- The statements `assert(elementTypes.size() == 3)` and
`lhs = elementTypes[0]; rhs = elementTypes[1]; out = elementTypes[2]`;
`line` is the line of the assertion. -/
def readElementTypes (ae : Bool) (line : Nat) (elementTypes : List MlirType) :
    Except Fault (MlirType × MlirType × MlirType) :=
  if ae && !(elementTypes.length == 3) then .error (.assertion line)
  else
    match elementTypes with
    | [] => .error (.outOfBounds (line + 1))
    | [_] => .error (.outOfBounds (line + 2))
    | [_, _] => .error (.outOfBounds (line + 3))
    | lhs :: rhs :: out :: _ => .ok (lhs, rhs, out)

/-- Lines 120-193 of `enumerateMatmulTileArm64`: the decision on the three
element types, one branch per `return`. -/
def arm64Tiles (lhs rhs out : MlirType) (target : ExecutableTargetAttr) : List TileMxNxK :=
  if (out.isF32 || out.isF16 || out.isBF16) &&
      (lhs.isBF16 && rhs.isBF16 && (out.isBF16 || out.isF32) && target.hasFeature "+bf16") then
    [⟨8, 8, 4⟩, ⟨4, 8, 4⟩, ⟨2, 8, 4⟩, ⟨1, 8, 4⟩]
  else if (out.isF32 || out.isF16 || out.isBF16) && (lhs.isFloat && rhs.isFloat) then
    [⟨8, 8, 1⟩, ⟨4, 8, 1⟩, ⟨2, 8, 1⟩, ⟨1, 8, 1⟩]
  else if (lhs.isSignlessInteger 8 && rhs.isSignlessInteger 8 && out.isSignlessInteger 32) &&
      target.hasFeature "+i8mm" then
    [⟨8, 8, 8⟩, ⟨4, 8, 8⟩, ⟨2, 8, 8⟩, ⟨1, 8, 8⟩]
  else if (lhs.isSignlessInteger 8 && rhs.isSignlessInteger 8 && out.isSignlessInteger 32) &&
      target.hasFeature "+dotprod" then
    [⟨8, 8, 4⟩, ⟨4, 8, 4⟩, ⟨2, 8, 4⟩, ⟨1, 8, 4⟩]
  else if lhs.isSignlessInteger 8 && rhs.isSignlessInteger 4 && out.isSignlessInteger 32 then
    if target.hasFeature "+i8mm" then [⟨4, 8, 16⟩, ⟨2, 8, 16⟩, ⟨1, 8, 16⟩]
    else if target.hasFeature "+dotprod" then [⟨8, 8, 8⟩, ⟨4, 8, 8⟩, ⟨2, 8, 8⟩, ⟨1, 8, 8⟩]
    else [⟨4, 16, 2⟩, ⟨2, 16, 2⟩, ⟨1, 16, 2⟩]
  else []

/-- The function `enumerateMatmulTileArm64` (lines 107-194). -/
def enumerateMatmulTileArm64 (ae : Bool) (elementTypes : List MlirType)
    (target : ExecutableTargetAttr) : Except Fault (List TileMxNxK) :=
  if target.hasFeature "+sve" || target.hasFeature "+sve2" then .ok []
  else
    match readElementTypes ae 115 elementTypes with
    | .error f => .error f
    | .ok (lhs, rhs, out) => .ok (arm64Tiles lhs rhs out target)

/-- Lines 206-307 of `enumerateMatmulTileX86_64`: the decision on the three
element types, one branch per `return`. -/
def x86_64Tiles (lhs rhs out : MlirType) (target : ExecutableTargetAttr) : List TileMxNxK :=
  if (out.isF32 || out.isF16 || out.isBF16) &&
      (lhs.isBF16 && rhs.isBF16 && (out.isBF16 || out.isF32)) &&
      target.hasFeature "+avx512bf16" then
    [⟨16, 16, 2⟩, ⟨8, 16, 2⟩, ⟨4, 16, 2⟩, ⟨2, 16, 2⟩, ⟨1, 16, 2⟩]
  else if (out.isF32 || out.isF16 || out.isBF16) && (lhs.isFloat && rhs.isFloat) then
    if target.hasFeature "+avx512f" then
      [⟨16, 16, 1⟩, ⟨8, 16, 1⟩, ⟨4, 16, 1⟩, ⟨2, 16, 1⟩, ⟨1, 16, 1⟩]
    else if target.hasFeature "+avx" then [⟨8, 8, 1⟩, ⟨4, 8, 1⟩, ⟨2, 8, 1⟩, ⟨1, 8, 1⟩]
    else [⟨8, 4, 1⟩, ⟨4, 4, 1⟩, ⟨2, 4, 1⟩, ⟨1, 4, 1⟩]
  else if out.isSignlessInteger 32 &&
      ((lhs.isSignlessInteger 8 && rhs.isSignlessInteger 8) ||
        (lhs.isSignlessInteger 16 && rhs.isSignlessInteger 16)) then
    if target.hasFeature "+avx512vnni" then
      [⟨16, 16, 2⟩, ⟨8, 16, 2⟩, ⟨4, 16, 2⟩, ⟨2, 16, 2⟩, ⟨1, 16, 2⟩]
    else if target.hasFeature "+avx512bw" then
      [⟨16, 16, 2⟩, ⟨8, 16, 2⟩, ⟨4, 16, 2⟩, ⟨2, 16, 2⟩, ⟨1, 16, 2⟩]
    else if target.hasFeature "+avx2" then [⟨8, 8, 2⟩, ⟨4, 8, 2⟩, ⟨2, 8, 2⟩, ⟨1, 8, 2⟩]
    else [⟨8, 4, 2⟩, ⟨4, 4, 2⟩, ⟨2, 4, 2⟩, ⟨1, 4, 2⟩]
  else if (out.isSignlessInteger 32 && lhs.isSignlessInteger 16 && rhs.isUnsignedInteger 4) &&
      target.hasFeature "+avx512vnni" then
    [⟨1, 32, 8⟩]
  else []

/-- The function `enumerateMatmulTileX86_64` (lines 198-308). -/
def enumerateMatmulTileX86_64 (ae : Bool) (elementTypes : List MlirType)
    (target : ExecutableTargetAttr) : Except Fault (List TileMxNxK) :=
  match readElementTypes ae 201 elementTypes with
  | .error f => .error f
  | .ok (lhs, rhs, out) => .ok (x86_64Tiles lhs rhs out target)

/-- The function `enumerateMatmulTileMxNxK` (lines 418-445). -/
def enumerateMatmulTileMxNxK (ae : Bool) (encoding : EncodingAttr)
    (target : ExecutableTargetAttr) : Except Fault (List TileMxNxK) :=
  match encoding.contractionDims with
  | none => .ok []
  | some cDims =>
    if decide (cDims.batch.length > 1) || decide (cDims.m.length > 1) ||
        decide (cDims.n.length > 1) || decide (cDims.k.length > 1) then .ok []
    else if target.isVMVXBackend then .ok (enumerateMatmulTilesVMVX cDims encoding target)
    else if target.isAArch64 then enumerateMatmulTileArm64 ae encoding.elementTypes target
    else if target.isX86_64 then enumerateMatmulTileX86_64 ae encoding.elementTypes target
    else if target.isRISCV32 then .ok (enumerateMatmulTileRiscv32 target)
    else if target.isRISCV64 then .ok (enumerateMatmulTileRiscv64 target)
    else .ok []

/-! ## materializeEncodingForTarget -/

/-- The function `materializeEncodingForTarget` (lines 447-471) with the callee
of line 465 as the argument `choose`. `getEncodingInfoForMatmul` is declared
outside these sources and is the argument of that name. The result `.ok none`
is `failure()`. -/
def materializeEncodingForTargetWith {Info : Type}
    (choose : List TileMxNxK → MatmulNarrowDim → List Int → Except Fault TileMxNxK)
    (getEncodingInfoForMatmul : EncodingAttr → TileMxNxK → Option Info)
    (ae : Bool) (tensorType : RankedTensorType) (targetAttr : ExecutableTargetAttr) :
    Except Fault (Option Info) :=
  match tensorType.encoding with
  | none => .ok none
  | some encoding =>
    match enumerateMatmulTileMxNxK ae encoding targetAttr with
    | .error f => .error f
    | .ok enumeratedTileMxNxK =>
      if enumeratedTileMxNxK.isEmpty then .ok none
      else
        match choose enumeratedTileMxNxK encoding.narrowDim encoding.roundDimsTo with
        | .error f => .error f
        | .ok chosenTileMxNxK => .ok (getEncodingInfoForMatmul encoding chosenTileMxNxK)

/-- The function `materializeEncodingForTarget` (lines 447-471). -/
def materializeEncodingForTarget {Info : Type}
    (getEncodingInfoForMatmul : EncodingAttr → TileMxNxK → Option Info)
    (ae : Bool) (dflt : TileMxNxK) (tensorType : RankedTensorType)
    (targetAttr : ExecutableTargetAttr) : Except Fault (Option Info) :=
  materializeEncodingForTargetWith (chooseMatmulTile ae dflt) getEncodingInfoForMatmul ae
    tensorType targetAttr

/-! ## getMaterializeEncodingValueFn -/

/-- The functions a `MaterializeEncodingValueFn` can hold in this file: the only one
is `chooseDynamicEncodingInfoVMVXMicrokernels` (lines 473-482), which creates the
query-tile-sizes operation. -/
inductive MaterializeEncodingValueFn where
  | chooseDynamicEncodingInfoVMVXMicrokernels
  deriving DecidableEq, Repr

/-- The function `getMaterializeEncodingValueFn` (lines 484-490); `none` is the
null function `{}`. -/
def getMaterializeEncodingValueFn (targetAttr : ExecutableTargetAttr) :
    Option MaterializeEncodingValueFn :=
  if targetAttr.isVMVXBackend && targetAttr.hasUkernel then
    some MaterializeEncodingValueFn.chooseDynamicEncodingInfoVMVXMicrokernels
  else none

/-! ## The host materialization pass

`CPUMaterializeHostEncodingPass` (lines 566-620) and the functions it calls. A function of the module is a value
of an arbitrary type `Func`; the module is the list of its functions in order. -/

/-- The messages of the `emitOpError` calls of lines 517, 529, 594-595 and 608-609. -/
inductive OpError where
  | materializationFailed
  | foldingPatternsFailed
  | couldNotDetermineExecutableTargets
  | hasMultipleExecutableTargets
  deriving DecidableEq, Repr

/-- A diagnostic emitted on a function; the function is named by its value at the
call of `emitOpError`. -/
structure Diagnostic (Func : Type) where
  funcOp : Func
  message : OpError

/-- The function `materializeFuncOpEncodings` (lines 492-535). MLIR's two rewrite
drivers are arguments: `applyPartialConversion` with the patterns built from the
target and from its value function, and `applyPatternsAndFoldGreedily`; each returns
whether it succeeded and the function after it. The result is the `LogicalResult`
(`true` is success), the function after the call and the diagnostics emitted. -/
def materializeFuncOpEncodings {Func : Type}
    (applyPartialConversion :
      Func → ExecutableTargetAttr → Option MaterializeEncodingValueFn → Bool × Func)
    (applyPatternsAndFoldGreedily : Func → Bool × Func)
    (funcOp : Func) (targetAttr : ExecutableTargetAttr) :
    Bool × Func × List (Diagnostic Func) :=
  let materializeEncodingValueFn := getMaterializeEncodingValueFn targetAttr
  let converted := applyPartialConversion funcOp targetAttr materializeEncodingValueFn
  if !converted.1 then (false, converted.2, [⟨converted.2, OpError.materializationFailed⟩])
  else
    let folded := applyPatternsAndFoldGreedily converted.2
    if !folded.1 then (false, folded.2, [⟨folded.2, OpError.foldingPatternsFailed⟩])
    else (true, folded.2, [])

/-- The function `getFuncExecutableTargetAttrs` (lines 542-564). The two analyses are
arguments: `uniqueAffinityAttrs funcOp` is the set that the walk of lines 549-555
collects, and `gatherRequiredExecutableTargets` inserts the targets of one affinity
into the set `executableTargetAttrs`, a list without repetition in insertion order.
The function returns a value on every path. -/
def getFuncExecutableTargetAttrs {Func Affinity : Type}
    (uniqueAffinityAttrs : Func → List Affinity)
    (gatherRequiredExecutableTargets :
      Affinity → Func → List ExecutableTargetAttr → List ExecutableTargetAttr)
    (funcOp : Func) : Option (List ExecutableTargetAttr) :=
  some ((uniqueAffinityAttrs funcOp).foldl
    (fun executableTargetAttrs affinityAttr =>
      gatherRequiredExecutableTargets affinityAttr funcOp executableTargetAttrs) [])

/-- What a run of the pass leaves: the functions of the module in order, the
diagnostics in the order of emission, and whether `signalPassFailure` was called. -/
structure PassResult (Func : Type) where
  funcs : List Func
  diagnostics : List (Diagnostic Func)
  failed : Bool

/-- The loop of lines 587-618 over the functions of the module. `materialize` is the
callee of line 615. A `return signalPassFailure()` leaves the loop: the functions that
follow are not visited. -/
def runOnFunctions {Func : Type}
    (getTargets : Func → Option (List ExecutableTargetAttr))
    (materialize : Func → ExecutableTargetAttr → Bool × Func × List (Diagnostic Func)) :
    List Func → PassResult Func
  | [] => { funcs := [], diagnostics := [], failed := false }
  | funcOp :: rest =>
    match getTargets funcOp with
    | none =>
      { funcs := funcOp :: rest
        diagnostics := [⟨funcOp, OpError.couldNotDetermineExecutableTargets⟩]
        failed := true }
    | some [] =>
      let r := runOnFunctions getTargets materialize rest
      { funcs := funcOp :: r.funcs, diagnostics := r.diagnostics, failed := r.failed }
    | some [front] =>
      let m := materialize funcOp front
      if !m.1 then { funcs := m.2.1 :: rest, diagnostics := m.2.2, failed := true }
      else
        let r := runOnFunctions getTargets materialize rest
        { funcs := m.2.1 :: r.funcs, diagnostics := m.2.2 ++ r.diagnostics, failed := r.failed }
    | some (_ :: _ :: _) =>
      { funcs := funcOp :: rest
        diagnostics := [⟨funcOp, OpError.hasMultipleExecutableTargets⟩]
        failed := true }

/-- The method `CPUMaterializeHostEncodingPass::runOnOperation` (lines 574-619).
`affinityAnalysisRun` and `deviceAnalysisRun` tell whether the `run` of the two
analyses succeeded (lines 579 and 583). -/
def runOnOperation {Func Affinity : Type}
    (affinityAnalysisRun deviceAnalysisRun : Bool)
    (uniqueAffinityAttrs : Func → List Affinity)
    (gatherRequiredExecutableTargets :
      Affinity → Func → List ExecutableTargetAttr → List ExecutableTargetAttr)
    (applyPartialConversion :
      Func → ExecutableTargetAttr → Option MaterializeEncodingValueFn → Bool × Func)
    (applyPatternsAndFoldGreedily : Func → Bool × Func)
    (moduleOp : List Func) : PassResult Func :=
  if !affinityAnalysisRun then { funcs := moduleOp, diagnostics := [], failed := true }
  else if !deviceAnalysisRun then { funcs := moduleOp, diagnostics := [], failed := true }
  else
    runOnFunctions
      (getFuncExecutableTargetAttrs uniqueAffinityAttrs gatherRequiredExecutableTargets)
      (materializeFuncOpEncodings applyPartialConversion applyPatternsAndFoldGreedily)
      moduleOp

/-- What the loop of the pass does to a function that it visits without failing: a
function with exactly one target is replaced by the result of the callee, any other
function is left as it is. -/
def visitedFunc {Func : Type} (getTargets : Func → Option (List ExecutableTargetAttr))
    (materialize : Func → ExecutableTargetAttr → Bool × Func × List (Diagnostic Func))
    (funcOp : Func) : Func :=
  match getTargets funcOp with
  | some [front] => (materialize funcOp front).2.1
  | _ => funcOp

/-! ## The riscv64 f32 mmt4d tile function

`mmt4d_riscv_64_base.c`. Buffers and vector registers are maps from an element or lane
index to a value of an arbitrary type `F` that stands for `float`; the three pointer
arguments are `IREE_UK_RESTRICT`, so the three buffers are separate. The RISC-V vector
intrinsics follow the vector extension: an operation with length `vl` acts on the lanes
below `vl` (at most `vlmax`), and the lanes above are tail-agnostic, that is
unspecified (`unspec`). -/

/-- The f32 arithmetic used by the tile function, left uninterpreted: the constant
`0.0` and the multiply-add that `vfmacc.vf` applies to one lane,
`fmacc acc s v = acc + s * v`. -/
structure F32Ops (F : Type) where
  zero : F
  fmacc : F → F → F → F

/-- The intrinsic `__riscv_vle32_v_f32m1(base, vl)`: unit-stride load. -/
def __riscv_vle32_v_f32m1 {F : Type} (vlmax : Nat) (unspec : Nat → F) (mem : Nat → F)
    (base vl : Nat) : Nat → F :=
  fun i => if i < min vl vlmax then mem (base + i) else unspec i

/-- The intrinsic `__riscv_vfmv_v_f_f32m1(src, vl)`: broadcast of a scalar. -/
def __riscv_vfmv_v_f_f32m1 {F : Type} (vlmax : Nat) (unspec : Nat → F) (src : F)
    (vl : Nat) : Nat → F :=
  fun i => if i < min vl vlmax then src else unspec i

/-- The intrinsic `__riscv_vfmacc_vf_f32m1(vd, rs1, vs2, vl)`: `vd[i] + rs1 * vs2[i]`. -/
def __riscv_vfmacc_vf_f32m1 {F : Type} (ops : F32Ops F) (vlmax : Nat) (unspec : Nat → F)
    (vd : Nat → F) (rs1 : F) (vs2 : Nat → F) (vl : Nat) : Nat → F :=
  fun i => if i < min vl vlmax then ops.fmacc (vd i) rs1 (vs2 i) else unspec i

/-- The intrinsic `__riscv_vse32_v_f32m1(base, value, vl)`: unit-stride store; the
result is the memory after the store. -/
def __riscv_vse32_v_f32m1 {F : Type} (vlmax : Nat) (mem : Nat → F) (base : Nat)
    (value : Nat → F) (vl : Nat) : Nat → F :=
  fun j => if base ≤ j ∧ j < base + min vl vlmax then value (j - base) else mem j

/-- The intrinsic `__riscv_vslidedown_vx_f32m1(src, offset, vl)`: lane `i` receives
lane `i + offset` of the source, or zero when that is past `vlmax`. -/
def __riscv_vslidedown_vx_f32m1 {F : Type} (ops : F32Ops F) (vlmax : Nat)
    (unspec : Nat → F) (src : Nat → F) (offset vl : Nat) : Nat → F :=
  fun i =>
    if i < min vl vlmax then (if i + offset < vlmax then src (i + offset) else ops.zero)
    else unspec i

/-- The intrinsic `__riscv_vfmv_f_s_f32m1_f32(src)`: lane 0 of the source. -/
def __riscv_vfmv_f_s_f32m1_f32 {F : Type} (src : Nat → F) : F := src 0

/-- The function `extract_element_from_vfloat32m1_t` (lines 11-15). -/
def extract_element_from_vfloat32m1_t {F : Type} (ops : F32Ops F) (vlmax : Nat)
    (unspec : Nat → F) (lhs : Nat → F) (pos vl : Nat) : F :=
  let lhs_slided := __riscv_vslidedown_vx_f32m1 ops vlmax unspec lhs pos vl
  __riscv_vfmv_f_s_f32m1_f32 lhs_slided

/-- Modelled from the spec: the helper `iree_uk_is_po2_u32` of the microkernel common
header, which is not among these sources; the spec speaks of the supported
M0 in 1, 2, 4, 8, the powers of two. It tells whether its argument is a power of
two (zero passes, as for the bit test `n & (n - 1)`). -/
def iree_uk_is_po2_u32 (n : Nat) : Bool := (n &&& (n - 1)) == 0

/-- The variables of a `k` loop of the tile function: the two moving pointers, as
element offsets into their panels, and the registers `acc0 .. acc7` (`acc m` is
`acc`m). -/
structure TileLoopState (F : Type) where
  lhs_ptr : Nat
  rhs_ptr : Nat
  acc : Nat → Nat → F

/-- The initialisation of `acc0 .. acc`(M0-1) at the head of a block (lines 31-35,
47-53, 70-80, 105-124): loaded from the rows of the out tile under the accumulate
flag, zero otherwise. The other registers stay uninitialised. -/
def initAccumulators {F : Type} (ops : F32Ops F) (vlmax : Nat) (unspec : Nat → F)
    (M0 : Nat) (accumulate : Bool) (out_ptr : Nat → F) : Nat → Nat → F :=
  fun m =>
    if m < M0 then
      if accumulate then __riscv_vle32_v_f32m1 vlmax unspec out_ptr (8 * m) vlmax
      else __riscv_vfmv_v_f_f32m1 vlmax unspec ops.zero vlmax
    else unspec

/-- The body of the `k` loop of the block `M0 == 1` (lines 37-40): the lhs element is
read as a scalar. -/
def loopBodyScalar {F : Type} (ops : F32Ops F) (vlmax : Nat) (unspec : Nat → F)
    (lhs_panel rhs_panel : Nat → F) (s : TileLoopState F) : TileLoopState F :=
  let rhs := __riscv_vle32_v_f32m1 vlmax unspec rhs_panel s.rhs_ptr vlmax
  let lhs := lhs_panel s.lhs_ptr
  { lhs_ptr := s.lhs_ptr + 1
    rhs_ptr := s.rhs_ptr + 8
    acc := fun m =>
      if m = 0 then __riscv_vfmacc_vf_f32m1 ops vlmax unspec (s.acc 0) lhs rhs vlmax
      else s.acc m }

/-- The body of the `k` loop of the blocks `M0 == 2`, `M0 == 4` and `M0 == 8` (lines
55-64, 82-97, 126-155), which differ only in the number of rows: `M0` lhs elements are
loaded as a vector of length `M0`, element `m` is extracted for row `m`, and each
`acc`m receives one multiply-add. -/
def loopBodyVector {F : Type} (ops : F32Ops F) (vlmax : Nat) (unspec : Nat → F) (M0 : Nat)
    (lhs_panel rhs_panel : Nat → F) (s : TileLoopState F) : TileLoopState F :=
  let rhs := __riscv_vle32_v_f32m1 vlmax unspec rhs_panel s.rhs_ptr vlmax
  let lhs := __riscv_vle32_v_f32m1 vlmax unspec lhs_panel s.lhs_ptr M0
  { lhs_ptr := s.lhs_ptr + M0
    rhs_ptr := s.rhs_ptr + 8
    acc := fun m =>
      if m < M0 then
        __riscv_vfmacc_vf_f32m1 ops vlmax unspec (s.acc m)
          (extract_element_from_vfloat32m1_t ops vlmax unspec lhs m vlmax) rhs vlmax
      else s.acc m }

/-- The stores at the end of a block (lines 43, 66-67, 99-102, 157-164): `acc`m goes to
`out_ptr + 8 * m`, for `m` from 0 to `M0 - 1` in this order. -/
def storeAccumulators {F : Type} (vlmax : Nat) (M0 : Nat) (acc : Nat → Nat → F)
    (out_ptr : Nat → F) : Nat → F :=
  (List.range M0).foldl (fun o m => __riscv_vse32_v_f32m1 vlmax o (8 * m) (acc m) vlmax)
    out_ptr

/-- One block `if (M0 == ..)` of the tile function: initialisation, `K` iterations of
the loop body, stores. The result is the out tile after the block. -/
def tileBlock {F : Type} (ops : F32Ops F) (vlmax : Nat) (unspec : Nat → F) (M0 : Nat)
    (body : TileLoopState F → TileLoopState F) (accumulate : Bool) (K : Nat)
    (out_ptr : Nat → F) : Nat → F :=
  let s0 : TileLoopState F :=
    { lhs_ptr := 0, rhs_ptr := 0, acc := initAccumulators ops vlmax unspec M0 accumulate out_ptr }
  storeAccumulators vlmax M0 (Nat.iterate body K s0).acc out_ptr

/-- The function `iree_uk_mmt4d_tile_f32f32f32_1x8x1_to_8x8x1_riscv_64` (lines 17-166).
`vlmax` is the value of `__riscv_vsetvlmax_e32m1()`, `accumulate` the test
`params->flags & IREE_UK_FLAG_MMT4D_ACCUMULATE`, `K` the loop bound `params->K`
(the declaration of `params` is outside these sources), and `IREE_UK_ASSERT` is an
assertion. The result is the out tile after the call. -/
def iree_uk_mmt4d_tile_f32f32f32_1x8x1_to_8x8x1_riscv_64 {F : Type} (ops : F32Ops F)
    (ae : Bool) (vlmax : Nat) (unspec : Nat → F) (out_tile lhs_panel rhs_panel : Nat → F)
    (accumulate : Bool) (K : Nat) (M0 : Nat) : Except Fault (Nat → F) :=
  if ae && !(decide (M0 ≥ 1) && decide (M0 ≤ 8) && iree_uk_is_po2_u32 M0) then
    .error (.assertion 22)
  else
    let out1 :=
      if M0 = 1 then
        tileBlock ops vlmax unspec 1 (loopBodyScalar ops vlmax unspec lhs_panel rhs_panel)
          accumulate K out_tile
      else out_tile
    let out2 :=
      if M0 = 2 then
        tileBlock ops vlmax unspec 2 (loopBodyVector ops vlmax unspec 2 lhs_panel rhs_panel)
          accumulate K out1
      else out1
    let out4 :=
      if M0 = 4 then
        tileBlock ops vlmax unspec 4 (loopBodyVector ops vlmax unspec 4 lhs_panel rhs_panel)
          accumulate K out2
      else out2
    let out8 :=
      if M0 = 8 then
        tileBlock ops vlmax unspec 8 (loopBodyVector ops vlmax unspec 8 lhs_panel rhs_panel)
          accumulate K out4
      else out4
    .ok out8

/-! ### The tile function on one memory

The same function with its three pointer arguments as addresses (element indices)
into one memory `mem`, so that the elements a call writes can be told apart from
those it leaves. In every block the loads (accumulators, lhs and rhs elements) come
before the stores, so the loads see the memory as it is at the head of the block. -/

/-- The initialisation of `acc0 .. acc`(M0-1) at the head of a block (lines 31-35,
47-53, 70-80, 105-124), `out_ptr` being an address. -/
def initAccumulatorsAt {F : Type} (ops : F32Ops F) (vlmax : Nat) (unspec : Nat → F)
    (M0 : Nat) (accumulate : Bool) (mem : Nat → F) (out_ptr : Nat) : Nat → Nat → F :=
  fun m =>
    if m < M0 then
      if accumulate then __riscv_vle32_v_f32m1 vlmax unspec mem (out_ptr + 8 * m) vlmax
      else __riscv_vfmv_v_f_f32m1 vlmax unspec ops.zero vlmax
    else unspec

/-- The stores at the end of a block (lines 43, 66-67, 99-102, 157-164), `out_ptr`
being an address: the result is the memory after the stores. -/
def storeAccumulatorsAt {F : Type} (vlmax : Nat) (M0 : Nat) (acc : Nat → Nat → F)
    (mem : Nat → F) (out_ptr : Nat) : Nat → F :=
  (List.range M0).foldl
    (fun o m => __riscv_vse32_v_f32m1 vlmax o (out_ptr + 8 * m) (acc m) vlmax) mem

/-- One block `if (M0 == ..)` of the tile function on the memory `mem`: `lhs_ptr` and
`rhs_ptr` start at the addresses of the panels. The result is the memory after the
block. -/
def tileBlockAt {F : Type} (ops : F32Ops F) (vlmax : Nat) (unspec : Nat → F) (M0 : Nat)
    (body : TileLoopState F → TileLoopState F) (accumulate : Bool) (K : Nat)
    (mem : Nat → F) (out_tile lhs_panel rhs_panel : Nat) : Nat → F :=
  let s0 : TileLoopState F :=
    { lhs_ptr := lhs_panel, rhs_ptr := rhs_panel,
      acc := initAccumulatorsAt ops vlmax unspec M0 accumulate mem out_tile }
  storeAccumulatorsAt vlmax M0 (Nat.iterate body K s0).acc mem out_tile

/-- The function `iree_uk_mmt4d_tile_f32f32f32_1x8x1_to_8x8x1_riscv_64` (lines 17-166)
on one memory: `out_tile`, `lhs_panel` and `rhs_panel` are addresses into `mem`, and
the result is the memory after the call. The other arguments are as above. -/
def iree_uk_mmt4d_tile_f32f32f32_1x8x1_to_8x8x1_riscv_64_at {F : Type} (ops : F32Ops F)
    (ae : Bool) (vlmax : Nat) (unspec : Nat → F) (mem : Nat → F)
    (out_tile lhs_panel rhs_panel : Nat) (accumulate : Bool) (K : Nat) (M0 : Nat) :
    Except Fault (Nat → F) :=
  if ae && !(decide (M0 ≥ 1) && decide (M0 ≤ 8) && iree_uk_is_po2_u32 M0) then
    .error (.assertion 22)
  else
    let mem1 :=
      if M0 = 1 then
        tileBlockAt ops vlmax unspec 1 (loopBodyScalar ops vlmax unspec mem mem)
          accumulate K mem out_tile lhs_panel rhs_panel
      else mem
    let mem2 :=
      if M0 = 2 then
        tileBlockAt ops vlmax unspec 2 (loopBodyVector ops vlmax unspec 2 mem1 mem1)
          accumulate K mem1 out_tile lhs_panel rhs_panel
      else mem1
    let mem4 :=
      if M0 = 4 then
        tileBlockAt ops vlmax unspec 4 (loopBodyVector ops vlmax unspec 4 mem2 mem2)
          accumulate K mem2 out_tile lhs_panel rhs_panel
      else mem2
    let mem8 :=
      if M0 = 8 then
        tileBlockAt ops vlmax unspec 8 (loopBodyVector ops vlmax unspec 8 mem4 mem4)
          accumulate K mem4 out_tile lhs_panel rhs_panel
      else mem4
    .ok mem8

/-- The instantiations of `IREE_UK_MMT4D_TILE_FUNC_IMPL_FOR_M0` (lines 168-179): the
name of each tile function and the `M0` it passes to the function above. -/
def tileFuncInstantiations : List (String × Nat) :=
  [("iree_uk_mmt4d_tile_f32f32f32_1x8x1_riscv_64", 1),
   ("iree_uk_mmt4d_tile_f32f32f32_2x8x1_riscv_64", 2),
   ("iree_uk_mmt4d_tile_f32f32f32_4x8x1_riscv_64", 4),
   ("iree_uk_mmt4d_tile_f32f32f32_8x8x1_riscv_64", 8)]

/-- The tile shapes the instantiated tile functions implement: `M0` rows, `N0 = 8`
(the out rows and the rhs step are 8 elements) and `K0 = 1` (one lhs element a row and
one rhs row an iteration). -/
def implementedTileShapes : List TileMxNxK :=
  tileFuncInstantiations.map (fun p => ⟨(p.2 : Int), 8, 1⟩)

/-- The integer arithmetic used for the examples: `fmacc acc s v = acc + s * v`. -/
def intOps : F32Ops Int := { zero := 0, fmacc := fun acc s v => acc + s * v }

/-! ## Inputs used in the examples -/

/-- The catalog `(8,8,4),(4,8,4),(2,8,4),(1,8,4)`. -/
def tiles8x8x4 : List TileMxNxK := [⟨8, 8, 4⟩, ⟨4, 8, 4⟩, ⟨2, 8, 4⟩, ⟨1, 8, 4⟩]

/-- The catalog whose single entry is the all-dynamic tile. -/
def dynamicTiles : List TileMxNxK := [⟨kDynamic, kDynamic, kDynamic⟩]

/-- No narrow-dimension hint. -/
def noNarrowDim : MatmulNarrowDim := { dim := Dim.None, size := 0 }

/-- A generic-portable (VMVX) target, without microkernels or with them. -/
def vmvxTarget (hasUkernel : Bool) : ExecutableTargetAttr :=
  { isVMVXBackend := true, isAArch64 := false, isX86_64 := false, isRISCV32 := false,
    isRISCV64 := false, hasUkernel := hasUkernel, hasFeature := fun _ => false }

/-- An arm64 target with the given feature flags. -/
def arm64Target (features : List String) : ExecutableTargetAttr :=
  { isVMVXBackend := false, isAArch64 := true, isX86_64 := false, isRISCV32 := false,
    isRISCV64 := false, hasUkernel := false, hasFeature := fun f => features.contains f }

/-- An x86-64 target with the given feature flags. -/
def x86_64Target (features : List String) : ExecutableTargetAttr :=
  { isVMVXBackend := false, isAArch64 := false, isX86_64 := true, isRISCV32 := false,
    isRISCV64 := false, hasUkernel := false, hasFeature := fun f => features.contains f }

/-- A riscv32 target with the given feature flags, without microkernels or with them. -/
def riscv32Target (hasUkernel : Bool) (features : List String) : ExecutableTargetAttr :=
  { isVMVXBackend := false, isAArch64 := false, isX86_64 := false, isRISCV32 := true,
    isRISCV64 := false, hasUkernel := hasUkernel, hasFeature := fun f => features.contains f }

/-- A riscv64 target, without microkernels or with them. -/
def riscv64Target (hasUkernel : Bool) : ExecutableTargetAttr :=
  { isVMVXBackend := false, isAArch64 := false, isX86_64 := false, isRISCV32 := false,
    isRISCV64 := true, hasUkernel := hasUkernel, hasFeature := fun _ => false }

/-- A matmul encoding with the given element types, one M, one N and one K dimension,
no batch dimension, no narrow dimension and no bounds. -/
def typedEncoding (lhs rhs out : MlirType) : EncodingAttr :=
  { contractionDims := some { batch := [], m := [0], n := [1], k := [2] }
    elementTypes := [lhs, rhs, out]
    narrowDim := noNarrowDim
    roundDimsTo := [] }

/-- An f32 matmul encoding with one M, one N and one K dimension and no batch dimension. -/
def matmulEncoding (narrowDim : MatmulNarrowDim) (roundDimsTo : List Int) : EncodingAttr :=
  { contractionDims := some { batch := [], m := [0], n := [1], k := [2] }
    elementTypes := [MlirType.F32, MlirType.F32, MlirType.F32]
    narrowDim := narrowDim
    roundDimsTo := roundDimsTo }

/-- Example analysis: the functions of a module are numbered, and function `f` uses the
affinities `0 .. f % 3 - 1`. -/
def exampleAffinities (funcOp : Nat) : List Nat := List.range (funcOp % 3)

/-- Example analysis: affinity 0 requires a VMVX target, every other affinity a riscv64
target. -/
def exampleGather (affinityAttr : Nat) (_funcOp : Nat)
    (executableTargetAttrs : List ExecutableTargetAttr) : List ExecutableTargetAttr :=
  executableTargetAttrs ++ [if affinityAttr = 0 then vmvxTarget false else riscv64Target false]

/-- Example conversion: succeeds and turns function `f` into `f + 100`. -/
def exampleConversion (funcOp : Nat) (_targetAttr : ExecutableTargetAttr)
    (_valueFn : Option MaterializeEncodingValueFn) : Bool × Nat := (true, funcOp + 100)

/-- Example folding: succeeds and turns function `f` into `f + 1000`. -/
def exampleFolding (funcOp : Nat) : Bool × Nat := (true, funcOp + 1000)

/-! ## The range of the enumerators -/

/-- Every tile list that some `return` of an enumerator produces. -/
def knownCatalogs : List (List TileMxNxK) :=
  [ [],
    [⟨kDynamic, kDynamic, kDynamic⟩],
    [⟨8, 8, 4⟩, ⟨4, 8, 4⟩, ⟨2, 8, 4⟩, ⟨1, 8, 4⟩],
    [⟨7, 32, 1⟩, ⟨4, 32, 1⟩, ⟨2, 32, 1⟩, ⟨1, 32, 1⟩],
    [⟨8, 8, 1⟩, ⟨4, 8, 1⟩, ⟨2, 8, 1⟩, ⟨1, 8, 1⟩],
    [⟨8, 8, 8⟩, ⟨4, 8, 8⟩, ⟨2, 8, 8⟩, ⟨1, 8, 8⟩],
    [⟨4, 8, 16⟩, ⟨2, 8, 16⟩, ⟨1, 8, 16⟩],
    [⟨4, 16, 2⟩, ⟨2, 16, 2⟩, ⟨1, 16, 2⟩],
    [⟨16, 16, 2⟩, ⟨8, 16, 2⟩, ⟨4, 16, 2⟩, ⟨2, 16, 2⟩, ⟨1, 16, 2⟩],
    [⟨16, 16, 1⟩, ⟨8, 16, 1⟩, ⟨4, 16, 1⟩, ⟨2, 16, 1⟩, ⟨1, 16, 1⟩],
    [⟨8, 4, 1⟩, ⟨4, 4, 1⟩, ⟨2, 4, 1⟩, ⟨1, 4, 1⟩],
    [⟨8, 8, 2⟩, ⟨4, 8, 2⟩, ⟨2, 8, 2⟩, ⟨1, 8, 2⟩],
    [⟨8, 4, 2⟩, ⟨4, 4, 2⟩, ⟨2, 4, 2⟩, ⟨1, 4, 2⟩],
    [⟨1, 32, 8⟩] ]

/-! ## Lemmas -/

theorem wrapInt64_of_range (x : Int) (h1 : -(2 ^ 63 : Int) ≤ x) (h2 : x < (2 ^ 63 : Int)) :
    wrapInt64 x = x := by
  unfold wrapInt64
  norm_num at h1 h2 ⊢
  omega

/-- The body of `chooseMatmulTile` when the hint is not N-narrow. -/
theorem chooseMatmulTile_of_not_N (ae : Bool) (dflt : TileMxNxK) (tiles : List TileMxNxK)
    (nd : MatmulNarrowDim) (ub : List Int) (h : nd.dim ≠ Dim.N) :
    chooseMatmulTile ae dflt tiles nd ub =
      if ae && !(ub.isEmpty || decide (ub.length ≥ 3)) then .error (.assertion 319)
      else
        match dynamicScan ae tiles.length tiles with
        | .error f => .error f
        | .ok (some tile) => .ok tile
        | .ok none => rateAndSelect ae dflt tiles nd ub := by
  rw [chooseMatmulTile]; simp [h]

/-- The body of `chooseMatmulTile` when the hint is N-narrow. -/
theorem chooseMatmulTile_of_N (ae : Bool) (dflt : TileMxNxK) (tiles : List TileMxNxK)
    (nd : MatmulNarrowDim) (ub : List Int) (h : nd.dim = Dim.N) :
    chooseMatmulTile ae dflt tiles nd ub =
      if ae && !(ub.isEmpty || decide (ub.length ≥ 3)) then .error (.assertion 319)
      else
        match swapFirstTwo ae ub with
        | .error f => .error f
        | .ok newUb =>
          match chooseMatmulTile ae dflt tiles { nd with dim := Dim.M } newUb with
          | .error f => .error f
          | .ok tile => .ok { tile with M := tile.N, N := tile.M } := by
  rw [chooseMatmulTile]; simp [h]

/-- The rating loop keeps the tiles that pass the filter, in order, and takes the minimum of
their penalties. -/
theorem foldl_rateStep (nd : MatmulNarrowDim) (m n k : Int) (tiles : List TileMxNxK)
    (acc : List RatedTileMxNxK) (b : Int) :
    tiles.foldl (rateStep nd m n k) (acc, b) =
      (acc ++ (tiles.filter (withinBounds m n k)).map (rate nd),
        ((tiles.filter (withinBounds m n k)).map (paddingPenalty nd)).foldl min b) := by
  induction tiles generalizing acc b with
  | nil => simp
  | cons t ts ih =>
    by_cases hw : withinBounds m n k t = true
    · simp [List.foldl_cons, rateStep, hw, ih, rate, List.filter_cons]
    · simp [List.foldl_cons, rateStep, hw, ih, List.filter_cons]

/-- A running minimum never exceeds its start value. -/
theorem foldl_min_le_init (l : List Int) (b : Int) : l.foldl min b ≤ b := by
  induction l generalizing b with
  | nil => simp
  | cons x xs ih => exact le_trans (ih _) (min_le_left _ _)

/-- A running minimum never exceeds an element it has seen. -/
theorem foldl_min_le_mem (l : List Int) (b x : Int) (hx : x ∈ l) : l.foldl min b ≤ x := by
  induction l generalizing b with
  | nil => simp at hx
  | cons y ys ih =>
    rw [List.foldl_cons]
    rcases List.mem_cons.mp hx with h | h
    · subst h; exact le_trans (foldl_min_le_init _ _) (min_le_right _ _)
    · exact ih _ h

/-- A running minimum is its start value or an element of the list. -/
theorem foldl_min_attained (l : List Int) (b : Int) : l.foldl min b = b ∨ l.foldl min b ∈ l := by
  induction l generalizing b with
  | nil => simp
  | cons y ys ih =>
    rw [List.foldl_cons]
    rcases ih (min b y) with h | h
    · rcases min_choice b y with h' | h'
      · left; rw [h, h']
      · right; rw [h, h']; exact List.mem_cons_self _ _
    · right; exact List.mem_cons_of_mem _ h


/-- The selection loop: either nothing is selected and every candidate of penalty `B` has a
product no larger than the start record, or the result is the first candidate of penalty `B`
with the largest product. -/
theorem foldl_selectStep_spec (nd : MatmulNarrowDim) (wb : TileMxNxK → Bool) (B : Int)
    (tiles : List TileMxNxK) (b : RatedTileMxNxK) :
    (((tiles.filter wb).map (rate nd)).foldl (selectStep B) b = b ∧
        ∀ t ∈ tiles, wb t = true → paddingPenalty nd t = B →
          productMxNxK t ≤ b.productMxNxK) ∨
      (∃ pre t post, tiles = pre ++ t :: post ∧
        ((tiles.filter wb).map (rate nd)).foldl (selectStep B) b = rate nd t ∧
        wb t = true ∧ paddingPenalty nd t = B ∧ b.productMxNxK < productMxNxK t ∧
        (∀ u ∈ pre, wb u = true → paddingPenalty nd u = B →
          productMxNxK u < productMxNxK t) ∧
        (∀ u ∈ post, wb u = true → paddingPenalty nd u = B →
          productMxNxK u ≤ productMxNxK t)) := by
  induction tiles generalizing b with
  | nil => left; simp
  | cons t0 ts ih =>
    by_cases hsel : wb t0 = true ∧ paddingPenalty nd t0 = B ∧ b.productMxNxK < productMxNxK t0
    · obtain ⟨hw, hp, hlt⟩ := hsel
      have hstep : selectStep B b (rate nd t0) = rate nd t0 := by
        simp [selectStep, rate, hp, hlt]
      have hfold : ((List.filter wb (t0 :: ts)).map (rate nd)).foldl (selectStep B) b =
          ((ts.filter wb).map (rate nd)).foldl (selectStep B) (rate nd t0) := by
        simp [List.filter_cons, hw, hstep]
      rw [hfold]
      right
      rcases ih (rate nd t0) with ⟨hres, hall⟩ | ⟨pre, t, post, hsplit, hres, hwt, hpt, hlt', hpre, hpost⟩
      · exact ⟨[], t0, ts, rfl, hres, hw, hp, hlt, by simp, hall⟩
      · refine ⟨t0 :: pre, t, post, by simp [hsplit], hres, hwt, hpt, ?_, ?_, hpost⟩
        · exact lt_trans hlt hlt'
        · intro u hu hwu hpu
          rcases List.mem_cons.mp hu with h | h
          · subst h; exact hlt'
          · exact hpre u h hwu hpu
    · have hfold : ((List.filter wb (t0 :: ts)).map (rate nd)).foldl (selectStep B) b =
          ((ts.filter wb).map (rate nd)).foldl (selectStep B) b := by
        by_cases hw : wb t0 = true
        · have hstep : selectStep B b (rate nd t0) = b := by
            by_cases hp : paddingPenalty nd t0 = B
            · have : ¬ b.productMxNxK < productMxNxK t0 := fun h => hsel ⟨hw, hp, h⟩
              simp [selectStep, rate, this]
            · simp [selectStep, rate, hp]
          simp [List.filter_cons, hw, hstep]
        · simp [List.filter_cons, hw]
      rw [hfold]
      have h0 : wb t0 = true → paddingPenalty nd t0 = B →
          productMxNxK t0 ≤ b.productMxNxK := by
        intro hw hp
        exact not_lt.mp (fun h => hsel ⟨hw, hp, h⟩)
      rcases ih b with ⟨hres, hall⟩ | ⟨pre, t, post, hsplit, hres, hwt, hpt, hlt', hpre, hpost⟩
      · left
        refine ⟨hres, ?_⟩
        intro u hu hwu hpu
        rcases List.mem_cons.mp hu with h | h
        · subst h; exact h0 hwu hpu
        · exact hall u h hwu hpu
      · right
        refine ⟨t0 :: pre, t, post, by simp [hsplit], hres, hwt, hpt, hlt', ?_, hpost⟩
        intro u hu hwu hpu
        rcases List.mem_cons.mp hu with h | h
        · subst h; exact lt_of_le_of_lt (h0 hwu hpu) hlt'
        · exact hpre u h hwu hpu


/-- For a positive tile whose product is below 2^63 the 64-bit product is exact. -/
theorem productMxNxK_of_pos (t : TileMxNxK)
    (h : 0 < t.M ∧ 0 < t.N ∧ 0 < t.K ∧ t.M * t.N * t.K < 2 ^ 63) :
    productMxNxK t = t.M * t.N * t.K := by
  obtain ⟨hM, hN, hK, hlt⟩ := h
  have hMN : 0 < t.M * t.N := mul_pos hM hN
  have hle : t.M * t.N ≤ t.M * t.N * t.K := le_mul_of_one_le_right hMN.le hK
  have hpos : 0 < t.M * t.N * t.K := mul_pos hMN hK
  unfold productMxNxK mulInt64
  rw [wrapInt64_of_range (t.M * t.N) (by linarith) (by linarith)]
  exact wrapInt64_of_range _ (by linarith) hlt

/-- The dimensions of a positive tile with product below 2^63 are below 2^63. -/
theorem dims_le_of_pos (t : TileMxNxK)
    (h : 0 < t.M ∧ 0 < t.N ∧ 0 < t.K ∧ t.M * t.N * t.K < 2 ^ 63) :
    t.M < 2 ^ 63 ∧ t.N < 2 ^ 63 ∧ t.K < 2 ^ 63 := by
  obtain ⟨hM, hN, hK, hlt⟩ := h
  have hMN : 0 < t.M * t.N := mul_pos hM hN
  have h1 : t.M * t.N ≤ t.M * t.N * t.K := le_mul_of_one_le_right hMN.le hK
  have h2 : t.M ≤ t.M * t.N := le_mul_of_one_le_right hM.le hN
  have h3 : t.N ≤ t.M * t.N := le_mul_of_one_le_left hN.le hM
  have h4 : t.K ≤ t.M * t.N * t.K := le_mul_of_one_le_left hK.le hMN
  refine ⟨by linarith, by linarith, by linarith⟩

/-- A wrapped value is below 2^63. -/
theorem wrapInt64_lt (x : Int) : wrapInt64 x < 2 ^ 63 := by
  unfold wrapInt64
  norm_num
  omega

/-- A padding penalty is never negative. -/
theorem paddingPenalty_nonneg (nd : MatmulNarrowDim) (t : TileMxNxK) :
    0 ≤ paddingPenalty nd t := by
  unfold paddingPenalty narrowPenalty
  split
  · exact le_max_right _ _
  · exact le_refl _

/-- A padding penalty never exceeds `INT64_MAX`. -/
theorem paddingPenalty_le_max (nd : MatmulNarrowDim) (t : TileMxNxK) :
    paddingPenalty nd t ≤ INT64_MAX := by
  unfold paddingPenalty narrowPenalty
  have hI : INT64_MAX = 2 ^ 63 - 1 := by unfold INT64_MAX; norm_num
  split
  · have := wrapInt64_lt (((toUInt64 t.M : Nat) : Int) -
      ((PowerOf2Ceil (toUInt64 nd.size) : Nat) : Int))
    rw [hI]
    apply max_le <;> omega
  · rw [hI]; norm_num

/-- The dynamic-tile loop finds nothing in a catalog without dynamic components. -/
theorem dynamicScan_of_static (ae : Bool) (n : Nat) (tiles : List TileMxNxK)
    (h : ∀ t ∈ tiles, isDynamic t.M = false ∧ isDynamic t.N = false ∧ isDynamic t.K = false) :
    dynamicScan ae n tiles = .ok none := by
  induction tiles with
  | nil => rfl
  | cons t ts ih =>
    have ht := h t (List.mem_cons_self _ _)
    simp only [dynamicScan, ht.1, ht.2.1, ht.2.2, Bool.or_self, Bool.false_eq_true, if_false]
    exact ih (fun u hu => h u (List.mem_cons_of_mem _ hu))

/-- A positive size is not the dynamic marker. -/
theorem isDynamic_of_pos (x : Int) (h : 0 < x) : isDynamic x = false := by
  unfold isDynamic kDynamic
  simp
  omega

/-- Bounds that can be read (none, or at least three) satisfy the entry assertion. -/
theorem assert319_of_readUpperBounds (ae : Bool) (ub : List Int) (b : Int × Int × Int)
    (h : readUpperBounds ub = .ok b) :
    (ae && !(ub.isEmpty || decide (ub.length ≥ 3))) = false := by
  match ub, h with
  | [], _ => simp
  | [_], h => simp [readUpperBounds] at h
  | [_, _], h => simp [readUpperBounds] at h
  | _ :: _ :: _ :: _, _ => simp


/-- Rating and selection on a positive catalog with exact products and at least one survivor:
the result splits the catalog at the first best tile. -/
theorem rateAndSelect_spec (ae : Bool) (dflt : TileMxNxK) (tiles : List TileMxNxK)
    (nd : MatmulNarrowDim) (ub : List Int) (mUB nUB kUB : Int)
    (hub : readUpperBounds ub = .ok (mUB, nUB, kUB))
    (hpos : ∀ t ∈ tiles, 0 < t.M ∧ 0 < t.N ∧ 0 < t.K ∧ t.M * t.N * t.K < 2 ^ 63)
    (hsurv : ∃ t ∈ tiles, withinBounds mUB nUB kUB t = true) :
    ∃ pre t post, tiles = pre ++ t :: post ∧
      rateAndSelect ae dflt tiles nd ub = .ok t ∧
      withinBounds mUB nUB kUB t = true ∧
      (∀ u ∈ tiles, withinBounds mUB nUB kUB u = true →
        paddingPenalty nd t ≤ paddingPenalty nd u) ∧
      (∀ u ∈ tiles, withinBounds mUB nUB kUB u = true →
        paddingPenalty nd u = paddingPenalty nd t →
        u.M * u.N * u.K ≤ t.M * t.N * t.K) ∧
      (∀ u ∈ pre, withinBounds mUB nUB kUB u = true →
        paddingPenalty nd u = paddingPenalty nd t →
        u.M * u.N * u.K < t.M * t.N * t.K) := by
  -- the state after the rating loop
  set pens := (tiles.filter (withinBounds mUB nUB kUB)).map (paddingPenalty nd) with hpens
  set B := pens.foldl min INT64_MAX with hB
  have hrated : tiles.foldl (rateStep nd mUB nUB kUB) ([], INT64_MAX) =
      ((tiles.filter (withinBounds mUB nUB kUB)).map (rate nd), B) := by
    rw [foldl_rateStep]; simp [hB, hpens]
  -- the best penalty is a lower bound, and it is attained
  have hBle : ∀ u ∈ tiles, withinBounds mUB nUB kUB u = true → B ≤ paddingPenalty nd u := by
    intro u hu hw
    apply foldl_min_le_mem
    exact List.mem_map.mpr ⟨u, List.mem_filter.mpr ⟨hu, hw⟩, rfl⟩
  have hBmem : ∃ u ∈ tiles, withinBounds mUB nUB kUB u = true ∧ paddingPenalty nd u = B := by
    rcases foldl_min_attained pens INT64_MAX with h | h
    · obtain ⟨u, hu, hw⟩ := hsurv
      refine ⟨u, hu, hw, ?_⟩
      have h1 := hBle u hu hw
      have h2 := paddingPenalty_le_max nd u
      rw [← hB] at h
      omega
    · rw [← hB] at h
      obtain ⟨u, hu, hpu⟩ := List.mem_map.mp h
      obtain ⟨hu1, hu2⟩ := List.mem_filter.mp hu
      exact ⟨u, hu1, hu2, hpu⟩
  have hunf : rateAndSelect ae dflt tiles nd ub =
      (if ae && !((((tiles.filter (withinBounds mUB nUB kUB)).map (rate nd)).foldl
          (selectStep B) { tile := dflt, paddingPenalty := 0, productMxNxK := 0 }).paddingPenalty
            == B) then .error (.assertion 414)
        else .ok (((tiles.filter (withinBounds mUB nUB kUB)).map (rate nd)).foldl
          (selectStep B) { tile := dflt, paddingPenalty := 0, productMxNxK := 0 }).tile) := by
    unfold rateAndSelect
    rw [hub]
    simp only [hrated]
  rcases foldl_selectStep_spec nd (withinBounds mUB nUB kUB) B tiles
      { tile := dflt, paddingPenalty := 0, productMxNxK := 0 } with
    ⟨_, hall⟩ | ⟨pre, t, post, hsplit, hres, hwt, hpt, _, hpre, hpost⟩
  · exfalso
    obtain ⟨u, hu, hw, hpu⟩ := hBmem
    have h1 := hall u hu hw hpu
    rw [productMxNxK_of_pos u (hpos u hu)] at h1
    have h2 := hpos u hu
    have : 0 < u.M * u.N * u.K := mul_pos (mul_pos h2.1 h2.2.1) h2.2.2.1
    simp at h1
    omega
  · have htmem : t ∈ tiles := by rw [hsplit]; simp
    refine ⟨pre, t, post, hsplit, ?_, hwt, ?_, ?_, ?_⟩
    · rw [hunf, hres]
      simp [rate, hpt]
    · intro u hu hw
      rw [hpt]; exact hBle u hu hw
    · intro u hu hw hpu
      have hu' : u ∈ pre ∨ u = t ∨ u ∈ post := by
        rw [hsplit] at hu
        simpa [List.mem_append, List.mem_cons] using hu
      rw [← productMxNxK_of_pos u (hpos u hu), ← productMxNxK_of_pos t (hpos t htmem)]
      rcases hu' with h | h | h
      · exact le_of_lt (hpre u h hw (hpu.trans hpt))
      · rw [h]
      · exact hpost u h hw (hpu.trans hpt)
    · intro u hu hw hpu
      have humem : u ∈ tiles := by rw [hsplit]; simp [hu]
      rw [← productMxNxK_of_pos u (hpos u humem), ← productMxNxK_of_pos t (hpos t htmem)]
      exact hpre u hu hw (hpu.trans hpt)

/-- The specification of `rateAndSelect_spec` lifted to `chooseMatmulTile` for a hint that is
not N-narrow. -/
theorem chooseMatmulTile_spec (ae : Bool) (dflt : TileMxNxK) (tiles : List TileMxNxK)
    (nd : MatmulNarrowDim) (ub : List Int) (mUB nUB kUB : Int)
    (hnd : nd.dim ≠ Dim.N)
    (hub : readUpperBounds ub = .ok (mUB, nUB, kUB))
    (hpos : ∀ t ∈ tiles, 0 < t.M ∧ 0 < t.N ∧ 0 < t.K ∧ t.M * t.N * t.K < 2 ^ 63)
    (hsurv : ∃ t ∈ tiles, withinBounds mUB nUB kUB t = true) :
    ∃ pre t post, tiles = pre ++ t :: post ∧
      chooseMatmulTile ae dflt tiles nd ub = .ok t ∧
      withinBounds mUB nUB kUB t = true ∧
      (∀ u ∈ tiles, withinBounds mUB nUB kUB u = true →
        paddingPenalty nd t ≤ paddingPenalty nd u) ∧
      (∀ u ∈ tiles, withinBounds mUB nUB kUB u = true →
        paddingPenalty nd u = paddingPenalty nd t →
        u.M * u.N * u.K ≤ t.M * t.N * t.K) ∧
      (∀ u ∈ pre, withinBounds mUB nUB kUB u = true →
        paddingPenalty nd u = paddingPenalty nd t →
        u.M * u.N * u.K < t.M * t.N * t.K) := by
  have hstatic : dynamicScan ae tiles.length tiles = .ok none := by
    apply dynamicScan_of_static
    intro t ht
    have h := hpos t ht
    exact ⟨isDynamic_of_pos _ h.1, isDynamic_of_pos _ h.2.1, isDynamic_of_pos _ h.2.2.1⟩
  rw [chooseMatmulTile_of_not_N ae dflt tiles nd ub hnd,
    assert319_of_readUpperBounds ae ub _ hub, hstatic]
  simpa using rateAndSelect_spec ae dflt tiles nd ub mUB nUB kUB hub hpos hsurv

/-- The filter of line 369 in terms of the three comparisons. -/
theorem withinBounds_iff (mUB nUB kUB : Int) (t : TileMxNxK) :
    withinBounds mUB nUB kUB t = true ↔ t.M ≤ mUB ∧ t.N ≤ nUB ∧ t.K ≤ kUB := by
  simp [withinBounds, not_lt, and_assoc]

/-- The bounds in force for an absent argument or a triple. -/
theorem readUpperBounds_of_absent_or_triple (ub : List Int) (bM bN bK : Int)
    (hub : (ub = [] ∧ bM = INT64_MAX ∧ bN = INT64_MAX ∧ bK = INT64_MAX) ∨ ub = [bM, bN, bK]) :
    readUpperBounds ub = .ok (bM, bN, bK) := by
  rcases hub with ⟨h, h1, h2, h3⟩ | h
  · subst h h1 h2 h3; rfl
  · subst h; rfl

/-- Behaviour when the products vanish in 64-bit arithmetic. -/
theorem chooseMatmulTile_of_zero_products (ae : Bool) (dflt : TileMxNxK)
    (tiles : List TileMxNxK) (nd : MatmulNarrowDim)
    (hnd : nd.dim = Dim.None)
    (hst : ∀ t ∈ tiles, 0 < t.M ∧ 0 < t.N ∧ 0 < t.K ∧ t.M < 2 ^ 63 ∧ t.N < 2 ^ 63 ∧ t.K < 2 ^ 63)
    (hz : ∀ t ∈ tiles, productMxNxK t = 0) (hne : tiles ≠ []) :
    chooseMatmulTile ae dflt tiles nd [] = .ok dflt := by
  have hstatic : dynamicScan ae tiles.length tiles = .ok none := by
    apply dynamicScan_of_static
    intro t ht
    have h := hst t ht
    exact ⟨isDynamic_of_pos _ h.1, isDynamic_of_pos _ h.2.1, isDynamic_of_pos _ h.2.2.1⟩
  rw [chooseMatmulTile_of_not_N ae dflt tiles nd [] (by rw [hnd]; decide), hstatic]
  simp only [List.isEmpty_nil, Bool.true_or, Bool.not_true, Bool.and_false, Bool.false_eq_true,
    if_false]
  unfold rateAndSelect
  simp only [readUpperBounds, foldl_rateStep, List.nil_append]
  have hpen : ∀ t, paddingPenalty nd t = 0 := by
    intro t; simp [paddingPenalty, MatmulNarrowDim.toBool, hnd]
  have hfilter : tiles.filter (withinBounds INT64_MAX INT64_MAX INT64_MAX) = tiles := by
    apply List.filter_eq_self.mpr
    intro t ht
    have h := hst t ht
    rw [withinBounds_iff]
    have hI : INT64_MAX = 2 ^ 63 - 1 := by unfold INT64_MAX; norm_num
    rw [hI]
    omega
  rw [hfilter]
  have hB : (tiles.map (paddingPenalty nd)).foldl min INT64_MAX = 0 := by
    have h1 : ∀ (l : List TileMxNxK) (b : Int), 0 ≤ b → l ≠ [] →
        (l.map (paddingPenalty nd)).foldl min b = 0 := by
      intro l
      induction l with
      | nil => intro b _ h; exact absurd rfl h
      | cons x xs ih =>
        intro b hb _
        simp only [List.map_cons, List.foldl_cons, hpen]
        rw [min_eq_right hb]
        by_cases hxs : xs = []
        · subst hxs; rfl
        · exact ih 0 (le_refl _) hxs
    exact h1 tiles _ (by unfold INT64_MAX; norm_num) hne
  rw [hB]
  have hsel : ∀ (l : List TileMxNxK) (b : RatedTileMxNxK), b.productMxNxK = 0 →
      (∀ t ∈ l, productMxNxK t = 0) →
      (l.map (rate nd)).foldl (selectStep 0) b = b := by
    intro l
    induction l with
    | nil => intro b _ _; rfl
    | cons x xs ih =>
      intro b hb hl
      have hx : productMxNxK x = 0 := hl x (List.mem_cons_self _ _)
      have hstep : selectStep 0 b (rate nd x) = b := by
        simp [selectStep, rate, hb, hx]
      simp only [List.map_cons, List.foldl_cons, hstep]
      exact ih b hb (fun t ht => hl t (List.mem_cons_of_mem _ ht))
  rw [hsel tiles _ rfl hz]
  simp

/-- The element at the split point of a list. -/
theorem get_of_split {α : Type} (l pre post : List α) (a : α) (h : l = pre ++ a :: post)
    (hi : pre.length < l.length) : l.get ⟨pre.length, hi⟩ = a := by
  simp only [List.get_eq_getElem]
  exact List.getElem_of_append h rfl

/-- An element before the split point lies in the first part. -/
theorem get_mem_of_split {α : Type} (l pre post : List α) (a : α) (h : l = pre ++ a :: post)
    (j : Nat) (hj : j < pre.length) (hj' : j < l.length) : l.get ⟨j, hj'⟩ ∈ pre := by
  subst h
  simp only [List.get_eq_getElem]
  rw [List.getElem_append_left hj]
  exact List.getElem_mem _

/-- When no tile passes the filter, nothing is rated: the sanity assertion fails, or the default
tile is returned. -/
theorem rateAndSelect_of_no_survivor (ae : Bool) (dflt : TileMxNxK) (tiles : List TileMxNxK)
    (nd : MatmulNarrowDim) (ub : List Int) (mUB nUB kUB : Int)
    (hub : readUpperBounds ub = .ok (mUB, nUB, kUB))
    (hnone : ∀ t ∈ tiles, withinBounds mUB nUB kUB t = false) :
    rateAndSelect ae dflt tiles nd ub = if ae then .error (.assertion 414) else .ok dflt := by
  have hfilter : tiles.filter (withinBounds mUB nUB kUB) = [] := by
    apply List.filter_eq_nil_iff.mpr
    intro t ht
    simp [hnone t ht]
  unfold rateAndSelect
  rw [hub]
  simp only [foldl_rateStep, hfilter, List.map_nil, List.foldl_nil, List.append_nil]
  have : ((0 : Int) == INT64_MAX) = false := by decide
  simp [this]

/-- A returned tile respects a triple of bounds, for a hint that is not N-narrow. -/
theorem chooseMatmulTile_within_of_not_N (ae : Bool) (dflt : TileMxNxK)
    (tiles : List TileMxNxK) (nd : MatmulNarrowDim) (bM bN bK : Int) (t : TileMxNxK)
    (hnd : nd.dim ≠ Dim.N)
    (hpos : ∀ t ∈ tiles, 0 < t.M ∧ 0 < t.N ∧ 0 < t.K ∧ t.M * t.N * t.K < 2 ^ 63)
    (hsurv : ae = true ∨ ∃ u ∈ tiles, u.M ≤ bM ∧ u.N ≤ bN ∧ u.K ≤ bK)
    (hres : chooseMatmulTile ae dflt tiles nd [bM, bN, bK] = .ok t) :
    t.M ≤ bM ∧ t.N ≤ bN ∧ t.K ≤ bK := by
  by_cases hex : ∃ u ∈ tiles, withinBounds bM bN bK u = true
  · obtain ⟨pre, t', post, _, hres', hwt, _⟩ :=
      chooseMatmulTile_spec ae dflt tiles nd [bM, bN, bK] bM bN bK hnd rfl hpos hex
    rw [hres'] at hres
    rw [← Except.ok.inj hres]
    exact (withinBounds_iff _ _ _ _).mp hwt
  · have hnone : ∀ u ∈ tiles, withinBounds bM bN bK u = false := by
      intro u hu
      by_contra h
      exact hex ⟨u, hu, by simpa using h⟩
    have hae : ae = true := by
      rcases hsurv with h | ⟨u, hu, hw⟩
      · exact h
      · exact absurd ((withinBounds_iff _ _ _ _).mpr hw) (by simp [hnone u hu])
    have hstatic : dynamicScan ae tiles.length tiles = .ok none := by
      apply dynamicScan_of_static
      intro t ht
      have h := hpos t ht
      exact ⟨isDynamic_of_pos _ h.1, isDynamic_of_pos _ h.2.1, isDynamic_of_pos _ h.2.2.1⟩
    rw [chooseMatmulTile_of_not_N ae dflt tiles nd _ hnd,
      assert319_of_readUpperBounds ae [bM, bN, bK] (bM, bN, bK) rfl, hstatic] at hres
    simp only [Bool.false_eq_true, if_false] at hres
    rw [rateAndSelect_of_no_survivor ae dflt tiles nd [bM, bN, bK] bM bN bK rfl hnone, hae] at hres
    simp at hres

/-- The N-narrow call with a triple of bounds is the M-narrow call with the first two bounds
exchanged, followed by the exchange of M and N. -/
theorem chooseMatmulTile_of_N_triple (ae : Bool) (dflt : TileMxNxK) (tiles : List TileMxNxK)
    (nd : MatmulNarrowDim) (bM bN bK : Int) (h : nd.dim = Dim.N) :
    chooseMatmulTile ae dflt tiles nd [bM, bN, bK] =
      match chooseMatmulTile ae dflt tiles { nd with dim := Dim.M } [bN, bM, bK] with
      | .error f => .error f
      | .ok tile => .ok { tile with M := tile.N, N := tile.M } := by
  rw [chooseMatmulTile_of_N ae dflt tiles nd _ h,
    assert319_of_readUpperBounds ae [bM, bN, bK] (bM, bN, bK) rfl]
  simp only [Bool.false_eq_true, if_false, swapFirstTwo]

/-- With assertions on, the N-narrow call without bounds stops at the range check of
the accesses of line 326 to elements of an empty array. -/
theorem chooseMatmulTile_N_absent (dflt : TileMxNxK) (tiles : List TileMxNxK)
    (nd : MatmulNarrowDim) (h : nd.dim = Dim.N) :
    chooseMatmulTile true dflt tiles nd [] = .error (.outOfBounds 326) := by
  rw [chooseMatmulTile_of_N true dflt tiles nd [] h]
  simp [swapFirstTwo]

/-- Without assertions, the N-narrow call without bounds is the M-narrow call without
bounds, followed by the exchange of M and N. -/
theorem chooseMatmulTile_N_absent_unchecked (dflt : TileMxNxK) (tiles : List TileMxNxK)
    (nd : MatmulNarrowDim) (h : nd.dim = Dim.N) :
    chooseMatmulTile false dflt tiles nd [] =
      match chooseMatmulTile false dflt tiles { nd with dim := Dim.M } [] with
      | .error f => .error f
      | .ok tile => .ok { tile with M := tile.N, N := tile.M } := by
  rw [chooseMatmulTile_of_N false dflt tiles nd [] h]
  simp [swapFirstTwo]

/-- The all-dynamic catalog yields the all-dynamic tile when the hint is not N-narrow. -/
theorem chooseMatmulTile_dynamic_of_not_N (ae : Bool) (dflt : TileMxNxK) (nd : MatmulNarrowDim)
    (ub : List Int) (hnd : nd.dim ≠ Dim.N) (hub : ub = [] ∨ 3 ≤ ub.length) :
    chooseMatmulTile ae dflt dynamicTiles nd ub = .ok ⟨kDynamic, kDynamic, kDynamic⟩ := by
  rw [chooseMatmulTile_of_not_N ae dflt dynamicTiles nd ub hnd]
  have h319 : (ae && !(ub.isEmpty || decide (ub.length ≥ 3))) = false := by
    rcases hub with h | h
    · subst h; simp
    · simp [h]
  rw [h319]
  cases ae <;> simp [dynamicTiles, dynamicScan, isDynamic]

/-- The doubling loop started at `2^i` returns the least power of two that is at least `a`. -/
theorem pow2CeilLoop_spec (fuel : Nat) : ∀ (i a : Nat), (i = 0 ∨ 2 ^ (i - 1) < a) →
    a ≤ 2 ^ (i + fuel) →
    ∃ k, pow2CeilLoop fuel (2 ^ i) a = 2 ^ k ∧ a ≤ 2 ^ k ∧ (∀ j, a ≤ 2 ^ j → k ≤ j) ∧
      k ≤ i + fuel := by
  have hleast : ∀ (i a : Nat), (i = 0 ∨ 2 ^ (i - 1) < a) → ∀ j, a ≤ 2 ^ j → i ≤ j := by
    intro i a h1 j hj
    rcases h1 with h | h
    · omega
    · have : 2 ^ (i - 1) < 2 ^ j := lt_of_lt_of_le h hj
      have := (Nat.pow_lt_pow_iff_right (by norm_num : 1 < 2)).mp this
      omega
  induction fuel with
  | zero =>
    intro i a h1 h2
    exact ⟨i, rfl, by simpa using h2, hleast i a h1, by omega⟩
  | succ fuel ih =>
    intro i a h1 h2
    unfold pow2CeilLoop
    by_cases hle : a ≤ 2 ^ i
    · rw [if_pos hle]
      exact ⟨i, rfl, hle, hleast i a h1, by omega⟩
    · rw [if_neg hle]
      have h2' : a ≤ 2 ^ (i + 1 + fuel) := by
        have : i + (fuel + 1) = i + 1 + fuel := by omega
        rw [← this]; exact h2
      have hpow : 2 * 2 ^ i = 2 ^ (i + 1) := by rw [pow_succ]; ring
      rw [hpow]
      obtain ⟨k, hk1, hk2, hk3, hk4⟩ := ih (i + 1) a (Or.inr (by simpa using hle)) h2'
      exact ⟨k, hk1, hk2, hk3, by omega⟩

/-- On `1 ..= 2^63 - 1` the function `PowerOf2Ceil` returns the least power of two at or above
its argument. -/
theorem PowerOf2Ceil_spec (A : Nat) (h1 : 1 ≤ A) (h2 : A ≤ 2 ^ 63 - 1) :
    ∃ k, PowerOf2Ceil A = 2 ^ k ∧ A ≤ 2 ^ k ∧ (∀ j, A ≤ 2 ^ j → k ≤ j) := by
  unfold PowerOf2Ceil
  have hc : ¬ (A = 0 ∨ A > (2 ^ 64 - 1) / 2) := by
    norm_num at h2 ⊢
    omega
  rw [if_neg hc]
  have h64 : A ≤ 2 ^ (0 + 64) := by norm_num at h2 ⊢; omega
  obtain ⟨k, hk1, hk2, hk3, _⟩ := pow2CeilLoop_spec 64 0 A (Or.inl rfl) h64
  exact ⟨k, by simpa using hk1, hk2, hk3⟩

/-- For `0 <= M < 2^63` and `1 <= s <= 2^62` the wrapped expression equals `max 0 (M - P)`. -/
theorem narrowPenalty_eq (tileM size : Int) (hM : 0 ≤ tileM) (hM2 : tileM < 2 ^ 63)
    (hs : 1 ≤ size) (hs2 : size ≤ 2 ^ 62) :
    ∃ k : Nat, size ≤ 2 ^ k ∧ (∀ j : Nat, size ≤ 2 ^ j → (2 : Int) ^ k ≤ 2 ^ j) ∧
      narrowPenalty tileM size = max 0 (tileM - 2 ^ k) := by
  have htoM : ((toUInt64 tileM : Nat) : Int) = tileM := by
    unfold toUInt64
    norm_num at hM2 ⊢
    omega
  have htoS : ((toUInt64 size : Nat) : Int) = size := by
    unfold toUInt64
    norm_num at hs2 ⊢
    omega
  have hS1 : 1 ≤ toUInt64 size := by omega
  have hS2 : toUInt64 size ≤ 2 ^ 63 - 1 := by
    norm_num at hs2 ⊢
    omega
  obtain ⟨k, hk1, hk2, hk3⟩ := PowerOf2Ceil_spec (toUInt64 size) hS1 hS2
  have hk62 : k ≤ 62 := by
    apply hk3
    have : ((toUInt64 size : Nat) : Int) ≤ ((2 ^ 62 : Nat) : Int) := by
      rw [htoS]; exact_mod_cast hs2
    exact_mod_cast this
  have hpk : (2 : Int) ^ k ≤ 2 ^ 62 := by
    exact pow_le_pow_right₀ (by norm_num) hk62
  have hpk0 : (0 : Int) < 2 ^ k := by positivity
  refine ⟨k, ?_, ?_, ?_⟩
  · rw [← htoS]; exact_mod_cast hk2
  · intro j hj
    have : toUInt64 size ≤ 2 ^ j := by
      have h : ((toUInt64 size : Nat) : Int) ≤ ((2 ^ j : Nat) : Int) := by
        rw [htoS]; exact_mod_cast hj
      exact_mod_cast h
    exact pow_le_pow_right₀ (by norm_num) (hk3 j this)
  · unfold narrowPenalty
    rw [htoM, hk1]
    have hcast : (((2 ^ k : Nat)) : Int) = (2 : Int) ^ k := by norm_cast
    rw [hcast, wrapInt64_of_range (tileM - 2 ^ k) (by norm_num at hpk ⊢; omega)
      (by norm_num at hM2 ⊢; omega)]
    exact max_comm _ _

/-- The records of `ratedTiles` are exactly the ratings of the tiles that pass the filter. -/
theorem mem_ratedTiles_iff (nd : MatmulNarrowDim) (mUB nUB kUB : Int) (tiles : List TileMxNxK)
    (r : RatedTileMxNxK) :
    r ∈ (tiles.foldl (rateStep nd mUB nUB kUB) ([], INT64_MAX)).1 ↔
      ∃ t ∈ tiles, withinBounds mUB nUB kUB t = true ∧ r = rate nd t := by
  rw [foldl_rateStep]
  simp only [List.nil_append, List.mem_map, List.mem_filter]
  constructor
  · rintro ⟨t, ⟨ht, hw⟩, rfl⟩
    exact ⟨t, ht, hw, rfl⟩
  · rintro ⟨t, ht, hw, rfl⟩
    exact ⟨t, ⟨ht, hw⟩, rfl⟩

/-- Every arm64 catalog is a known catalog. -/
theorem arm64Tiles_mem (lhs rhs out : MlirType) (target : ExecutableTargetAttr) :
    arm64Tiles lhs rhs out target ∈ knownCatalogs := by
  unfold arm64Tiles
  split_ifs <;> decide

/-- Every x86-64 catalog is a known catalog. -/
theorem x86_64Tiles_mem (lhs rhs out : MlirType) (target : ExecutableTargetAttr) :
    x86_64Tiles lhs rhs out target ∈ knownCatalogs := by
  unfold x86_64Tiles
  split_ifs <;> decide

/-- Every enumerated catalog is a known catalog. -/
theorem enumerateMatmulTileMxNxK_mem (ae : Bool) (encoding : EncodingAttr)
    (target : ExecutableTargetAttr) (cat : List TileMxNxK)
    (h : enumerateMatmulTileMxNxK ae encoding target = .ok cat) : cat ∈ knownCatalogs := by
  unfold enumerateMatmulTileMxNxK at h
  split at h
  · cases h; decide
  · rename_i cDims _
    split_ifs at h
    · cases h; decide
    · cases h
      unfold enumerateMatmulTilesVMVX
      simp only
      split_ifs <;> decide
    · unfold enumerateMatmulTileArm64 at h
      split_ifs at h
      · cases h; decide
      · split at h
        · cases h
        · cases h; exact arm64Tiles_mem _ _ _ _
    · unfold enumerateMatmulTileX86_64 at h
      split at h
      · cases h
      · cases h; exact x86_64Tiles_mem _ _ _ _
    · cases h
      unfold enumerateMatmulTileRiscv32
      split_ifs <;> decide
    · cases h
      unfold enumerateMatmulTileRiscv64
      decide
    · cases h; decide

/-- A known catalog is empty, all-dynamic, or positive with the largest M and product first. -/
theorem knownCatalogs_head_widest :
    ∀ cat ∈ knownCatalogs, cat = [] ∨ cat = [⟨kDynamic, kDynamic, kDynamic⟩] ∨
      ∀ t ∈ cat, (0 < t.M ∧ 0 < t.N ∧ 0 < t.K ∧ t.M * t.N * t.K < 2 ^ 63) ∧
        ∀ first ∈ cat.head?, t.M ≤ first.M ∧ t.M * t.N * t.K ≤ first.M * first.N * first.K := by
  decide

/-- Without hint and bounds, a positive catalog whose first entry has the largest product yields
its first entry. -/
theorem chooseMatmulTile_head (ae : Bool) (dflt : TileMxNxK) (first : TileMxNxK)
    (rest : List TileMxNxK) (nd : MatmulNarrowDim) (hnd : nd.dim = Dim.None)
    (hpos : ∀ t ∈ first :: rest, 0 < t.M ∧ 0 < t.N ∧ 0 < t.K ∧ t.M * t.N * t.K < 2 ^ 63)
    (hmax : ∀ t ∈ first :: rest, t.M * t.N * t.K ≤ first.M * first.N * first.K) :
    chooseMatmulTile ae dflt (first :: rest) nd [] = .ok first := by
  have hI : INT64_MAX = 2 ^ 63 - 1 := by unfold INT64_MAX; norm_num
  have hwb : ∀ t ∈ first :: rest, withinBounds INT64_MAX INT64_MAX INT64_MAX t = true := by
    intro t ht
    have h := dims_le_of_pos t (hpos t ht)
    rw [withinBounds_iff, hI]
    omega
  have hpen : ∀ t, paddingPenalty nd t = 0 := by
    intro t; simp [paddingPenalty, MatmulNarrowDim.toBool, hnd]
  obtain ⟨pre, t, post, hsplit, hres, _, _, _, hfirst⟩ :=
    chooseMatmulTile_spec ae dflt (first :: rest) nd [] INT64_MAX INT64_MAX INT64_MAX
      (by rw [hnd]; decide) rfl hpos
      ⟨first, List.mem_cons_self _ _, hwb first (List.mem_cons_self _ _)⟩
  rw [hres]
  cases pre with
  | nil =>
    simp only [List.nil_append, List.cons.injEq] at hsplit
    rw [hsplit.1]
  | cons p ps =>
    simp only [List.cons_append, List.cons.injEq] at hsplit
    have hp : p = first := hsplit.1.symm
    have htmem : t ∈ first :: rest := by
      rw [hsplit.2]; simp
    have hwp : withinBounds INT64_MAX INT64_MAX INT64_MAX p = true := by
      rw [hp]; exact hwb first (List.mem_cons_self _ _)
    have h1 := hfirst p (List.mem_cons_self _ _) hwp (by rw [hpen, hpen])
    have h2 := hmax t htmem
    rw [hp] at h1
    omega

/-! ## Claims about chooseMatmulTile -/

/-- Claim C1, amended. For every catalog of static tiles with positive M, N, K whose
product M*N*K is below 2^63, every narrow hint that is absent or M-narrow (any size),
and every bounds argument, absent (then the bounds in force are INT64_MAX, as lines
360-362 set them) or a triple (bM,bN,bK), for which at least one catalog tile has
M <= bM, N <= bN and K <= bK: chooseMatmulTile returns a tile of the catalog that
passes the bounds filter, whose paddingPenalty is the minimum over the surviving tiles
and whose product is the maximum over the surviving tiles of minimum paddingPenalty.
This holds with assertions on or off and for every default-constructed tile. -/
theorem selected_tile_has_min_penalty_then_max_product (ae : Bool) (dflt : TileMxNxK)
    (tiles : List TileMxNxK) (nd : MatmulNarrowDim) (ub : List Int) (bM bN bK : Int)
    (hpos : ∀ t ∈ tiles, 0 < t.M ∧ 0 < t.N ∧ 0 < t.K ∧ t.M * t.N * t.K < 2 ^ 63)
    (hnd : nd.dim = Dim.None ∨ nd.dim = Dim.M)
    (hub : (ub = [] ∧ bM = INT64_MAX ∧ bN = INT64_MAX ∧ bK = INT64_MAX) ∨ ub = [bM, bN, bK])
    (hsurv : ∃ t ∈ tiles, t.M ≤ bM ∧ t.N ≤ bN ∧ t.K ≤ bK) :
    ∃ t, chooseMatmulTile ae dflt tiles nd ub = .ok t ∧ t ∈ tiles ∧
      (t.M ≤ bM ∧ t.N ≤ bN ∧ t.K ≤ bK) ∧
      (∀ u ∈ tiles, (u.M ≤ bM ∧ u.N ≤ bN ∧ u.K ≤ bK) →
        paddingPenalty nd t ≤ paddingPenalty nd u) ∧
      (∀ u ∈ tiles, (u.M ≤ bM ∧ u.N ≤ bN ∧ u.K ≤ bK) →
        paddingPenalty nd u = paddingPenalty nd t → u.M * u.N * u.K ≤ t.M * t.N * t.K) := by
  have hnd' : nd.dim ≠ Dim.N := by rcases hnd with h | h <;> rw [h] <;> decide
  obtain ⟨u0, hu0, hw0⟩ := hsurv
  obtain ⟨pre, t, post, hsplit, hres, hwt, hmin, hmax, _⟩ :=
    chooseMatmulTile_spec ae dflt tiles nd ub bM bN bK hnd'
      (readUpperBounds_of_absent_or_triple ub bM bN bK hub) hpos
      ⟨u0, hu0, (withinBounds_iff _ _ _ _).mpr hw0⟩
  refine ⟨t, hres, by rw [hsplit]; simp, (withinBounds_iff _ _ _ _).mp hwt, ?_, ?_⟩
  · intro u hu hw
    exact hmin u hu ((withinBounds_iff _ _ _ _).mpr hw)
  · intro u hu hw hp
    exact hmax u hu ((withinBounds_iff _ _ _ _).mpr hw) hp

/-- Claim C1, example: the catalog (8,8,4),(4,8,4),(2,8,4),(1,8,4) with an M-narrow hint
of size 3 and no bounds. The penalties are 4, 0, 0, 0 and the result is (4,8,4). -/
theorem selected_tile_has_min_penalty_then_max_product_witness :
    (∃ t, chooseMatmulTile true ⟨1, 1, 1⟩ tiles8x8x4 ⟨Dim.M, 3⟩ [] = .ok t ∧ t ∈ tiles8x8x4 ∧
      (t.M ≤ INT64_MAX ∧ t.N ≤ INT64_MAX ∧ t.K ≤ INT64_MAX) ∧
      (∀ u ∈ tiles8x8x4, (u.M ≤ INT64_MAX ∧ u.N ≤ INT64_MAX ∧ u.K ≤ INT64_MAX) →
        paddingPenalty ⟨Dim.M, 3⟩ t ≤ paddingPenalty ⟨Dim.M, 3⟩ u) ∧
      (∀ u ∈ tiles8x8x4, (u.M ≤ INT64_MAX ∧ u.N ≤ INT64_MAX ∧ u.K ≤ INT64_MAX) →
        paddingPenalty ⟨Dim.M, 3⟩ u = paddingPenalty ⟨Dim.M, 3⟩ t →
        u.M * u.N * u.K ≤ t.M * t.N * t.K)) ∧
    chooseMatmulTile true ⟨1, 1, 1⟩ tiles8x8x4 ⟨Dim.M, 3⟩ [] = .ok ⟨4, 8, 4⟩ ∧
    tiles8x8x4.map (paddingPenalty ⟨Dim.M, 3⟩) = [4, 0, 0, 0] :=
  ⟨selected_tile_has_min_penalty_then_max_product true ⟨1, 1, 1⟩ tiles8x8x4 ⟨Dim.M, 3⟩ []
      INT64_MAX INT64_MAX INT64_MAX (by decide) (Or.inr rfl) (Or.inl ⟨rfl, rfl, rfl, rfl⟩)
      ⟨⟨8, 8, 4⟩, by decide, by decide⟩,
    by rw [chooseMatmulTile_of_not_N _ _ _ _ _ (by decide)]; rfl,
    by decide⟩

/-- Claim C1 as stated fails. The one-tile catalogs (2^32, 2^32, 1) and (2^32, 2^32, 2)
are static with positive M, N, K, but the 64-bit product of either tile is 0, so the
selection loop never replaces the default-constructed record and the result is the
default tile: whatever that tile is and whether assertions are on or off, the result is
not an element of the catalog for at least one of the two. -/
theorem overflowing_product_selects_no_catalog_tile :
    (∀ t ∈ [(⟨2 ^ 32, 2 ^ 32, 1⟩ : TileMxNxK)], 0 < t.M ∧ 0 < t.N ∧ 0 < t.K) ∧
    (∀ t ∈ [(⟨2 ^ 32, 2 ^ 32, 2⟩ : TileMxNxK)], 0 < t.M ∧ 0 < t.N ∧ 0 < t.K) ∧
    ¬ ∃ (ae : Bool) (dflt : TileMxNxK),
      (∃ t ∈ [(⟨2 ^ 32, 2 ^ 32, 1⟩ : TileMxNxK)],
        chooseMatmulTile ae dflt [⟨2 ^ 32, 2 ^ 32, 1⟩] noNarrowDim [] = .ok t) ∧
      (∃ t ∈ [(⟨2 ^ 32, 2 ^ 32, 2⟩ : TileMxNxK)],
        chooseMatmulTile ae dflt [⟨2 ^ 32, 2 ^ 32, 2⟩] noNarrowDim [] = .ok t) := by
  refine ⟨by decide, by decide, ?_⟩
  rintro ⟨ae, dflt, ⟨t1, ht1, h1⟩, ⟨t2, ht2, h2⟩⟩
  rw [chooseMatmulTile_of_zero_products ae dflt _ noNarrowDim rfl (by decide) (by decide)
    (by decide)] at h1 h2
  simp only [List.mem_singleton] at ht1 ht2
  rw [ht1] at h1
  rw [ht2] at h2
  have h3 := Except.ok.inj h1
  have h4 := Except.ok.inj h2
  rw [h3] at h4
  exact absurd h4 (by decide)

/-- Claim C2, the code at the failing input. With bounds (8,8,2) every tile of the
catalog (8,8,4),(4,8,4),(2,8,4),(1,8,4) is skipped (K = 4 > 2), and likewise nothing is
rated for an empty catalog. The function has no failure result: with assertions on, the
sanity assertion of line 414 stops the run; with assertions off, the default-constructed
tile is returned, and materializeEncodingForTarget hands that tile to
getEncodingInfoForMatmul and returns its result. -/
theorem no_survivor_yields_default_tile_not_failure {Info : Type}
    (getEncodingInfoForMatmul : EncodingAttr → TileMxNxK → Option Info) (dflt : TileMxNxK) :
    chooseMatmulTile true dflt tiles8x8x4 noNarrowDim [8, 8, 2] = .error (.assertion 414) ∧
    chooseMatmulTile false dflt tiles8x8x4 noNarrowDim [8, 8, 2] = .ok dflt ∧
    chooseMatmulTile true dflt [] noNarrowDim [] = .error (.assertion 414) ∧
    chooseMatmulTile false dflt [] noNarrowDim [] = .ok dflt ∧
    materializeEncodingForTarget getEncodingInfoForMatmul true dflt
        ⟨some (matmulEncoding noNarrowDim [8, 8, 2])⟩ (vmvxTarget false) =
      .error (.assertion 414) ∧
    materializeEncodingForTarget getEncodingInfoForMatmul false dflt
        ⟨some (matmulEncoding noNarrowDim [8, 8, 2])⟩ (vmvxTarget false) =
      .ok (getEncodingInfoForMatmul (matmulEncoding noNarrowDim [8, 8, 2]) dflt) := by
  have h1 : chooseMatmulTile true dflt tiles8x8x4 noNarrowDim [8, 8, 2] =
      .error (.assertion 414) := by
    rw [chooseMatmulTile_of_not_N _ _ _ _ _ (by decide)]; rfl
  have h2 : chooseMatmulTile false dflt tiles8x8x4 noNarrowDim [8, 8, 2] = .ok dflt := by
    rw [chooseMatmulTile_of_not_N _ _ _ _ _ (by decide)]; rfl
  have h3 : chooseMatmulTile true dflt [] noNarrowDim [] = .error (.assertion 414) := by
    rw [chooseMatmulTile_of_not_N _ _ _ _ _ (by decide)]; rfl
  have h4 : chooseMatmulTile false dflt [] noNarrowDim [] = .ok dflt := by
    rw [chooseMatmulTile_of_not_N _ _ _ _ _ (by decide)]; rfl
  have he : ∀ ae, enumerateMatmulTileMxNxK ae (matmulEncoding noNarrowDim [8, 8, 2])
      (vmvxTarget false) = .ok tiles8x8x4 := by
    intro ae; rfl
  have hn : (matmulEncoding noNarrowDim [8, 8, 2]).narrowDim = noNarrowDim := rfl
  have hr : (matmulEncoding noNarrowDim [8, 8, 2]).roundDimsTo = [8, 8, 2] := rfl
  refine ⟨h1, h2, h3, h4, ?_, ?_⟩
  · simp only [materializeEncodingForTarget, materializeEncodingForTargetWith, he]
    rw [hn, hr, h1]
    rfl
  · simp only [materializeEncodingForTarget, materializeEncodingForTargetWith, he]
    rw [hn, hr, h2]
    rfl

/-- Claim C3, the code at the failing input. With an N-narrow hint and no bounds, line
326 exchanges elements 0 and 1 of an empty copy of the bounds. In a build with
assertions the range check of these accesses stops the run, for every catalog and
every size, where the claim expects the swap of the M-narrow result: for the witness
of the claim the M-narrow call returns (4,8,4) and the N-narrow call returns no tile.
In a build without assertions the exchange touches no element of the copy, the run
carries on, and the call returns the swap of the M-narrow result, (8,4,4) for the
witness. materializeEncodingForTarget passes the input on for an encoding with an
N-narrow hint and no round_dims_to. When the bounds are a triple the relation of the
claim holds in both builds: the N-narrow result is the M-narrow result for the bounds
(bN,bM,bK) with M and N exchanged, and a fault of the inner call is passed on. -/
theorem narrowN_without_bounds_reads_out_of_range {Info : Type}
    (getEncodingInfoForMatmul : EncodingAttr → TileMxNxK → Option Info) (dflt : TileMxNxK) :
    chooseMatmulTile true dflt tiles8x8x4 ⟨Dim.N, 3⟩ [] = .error (.outOfBounds 326) ∧
    chooseMatmulTile false dflt tiles8x8x4 ⟨Dim.N, 3⟩ [] = .ok ⟨8, 4, 4⟩ ∧
    (∀ ae : Bool, chooseMatmulTile ae dflt tiles8x8x4 ⟨Dim.M, 3⟩ [] = .ok ⟨4, 8, 4⟩) ∧
    (∀ (tiles : List TileMxNxK) (s : Int),
      chooseMatmulTile true dflt tiles ⟨Dim.N, s⟩ [] = .error (.outOfBounds 326)) ∧
    (∀ (tiles : List TileMxNxK) (s : Int),
      chooseMatmulTile false dflt tiles ⟨Dim.N, s⟩ [] =
        match chooseMatmulTile false dflt tiles ⟨Dim.M, s⟩ [] with
        | .error f => .error f
        | .ok tile => .ok { tile with M := tile.N, N := tile.M }) ∧
    (∀ (ae : Bool) (tiles : List TileMxNxK) (s bM bN bK : Int),
      chooseMatmulTile ae dflt tiles ⟨Dim.N, s⟩ [bM, bN, bK] =
        match chooseMatmulTile ae dflt tiles ⟨Dim.M, s⟩ [bN, bM, bK] with
        | .error f => .error f
        | .ok tile => .ok { tile with M := tile.N, N := tile.M }) ∧
    materializeEncodingForTarget getEncodingInfoForMatmul true dflt
        ⟨some (matmulEncoding ⟨Dim.N, 3⟩ [])⟩ (vmvxTarget false) =
      .error (.outOfBounds 326) ∧
    materializeEncodingForTarget getEncodingInfoForMatmul false dflt
        ⟨some (matmulEncoding ⟨Dim.N, 3⟩ [])⟩ (vmvxTarget false) =
      .ok (getEncodingInfoForMatmul (matmulEncoding ⟨Dim.N, 3⟩ []) ⟨8, 4, 4⟩) := by
  have hM : ∀ ae : Bool, chooseMatmulTile ae dflt tiles8x8x4 ⟨Dim.M, 3⟩ [] = .ok ⟨4, 8, 4⟩ := by
    intro ae
    rw [chooseMatmulTile_of_not_N _ _ _ _ _ (by decide)]
    cases ae <;> rfl
  have h1 : chooseMatmulTile true dflt tiles8x8x4 ⟨Dim.N, 3⟩ [] = .error (.outOfBounds 326) :=
    chooseMatmulTile_N_absent dflt _ _ rfl
  have h2 : chooseMatmulTile false dflt tiles8x8x4 ⟨Dim.N, 3⟩ [] = .ok ⟨8, 4, 4⟩ := by
    rw [chooseMatmulTile_N_absent_unchecked dflt _ _ rfl]
    have h := hM false
    simp only at h ⊢
    rw [h]
  have he : ∀ ae, enumerateMatmulTileMxNxK ae (matmulEncoding ⟨Dim.N, 3⟩ [])
      (vmvxTarget false) = .ok tiles8x8x4 := by
    intro ae; rfl
  have hn : (matmulEncoding ⟨Dim.N, 3⟩ []).narrowDim = ⟨Dim.N, 3⟩ := rfl
  have hr : (matmulEncoding ⟨Dim.N, 3⟩ []).roundDimsTo = [] := rfl
  refine ⟨h1, h2, hM,
    fun tiles s => chooseMatmulTile_N_absent dflt tiles _ rfl,
    fun tiles s => chooseMatmulTile_N_absent_unchecked dflt tiles _ rfl,
    fun ae tiles s bM bN bK => chooseMatmulTile_of_N_triple ae dflt tiles _ bM bN bK rfl,
    ?_, ?_⟩
  · simp only [materializeEncodingForTarget, materializeEncodingForTargetWith, he]
    rw [hn, hr, h1]
    rfl
  · simp only [materializeEncodingForTarget, materializeEncodingForTargetWith, he]
    rw [hn, hr, h2]
    rfl

/-- Claim C4, amended. For every catalog of static tiles with positive M, N, K whose
product M*N*K is below 2^63 (M-narrow or no narrow hint, bounds absent or a triple, at
least one tile within the bounds), chooseMatmulTile returns the tile at a catalog index
i such that the tile survives the filter, has the minimum paddingPenalty among the
survivors and the maximum product among the survivors of that penalty, and every
surviving tile of the same penalty at a smaller index has a strictly smaller product:
among the tiles that tie on penalty and product, the result is the first in catalog
order. -/
theorem selected_tile_is_first_among_ties (ae : Bool) (dflt : TileMxNxK)
    (tiles : List TileMxNxK) (nd : MatmulNarrowDim) (ub : List Int) (bM bN bK : Int)
    (hpos : ∀ t ∈ tiles, 0 < t.M ∧ 0 < t.N ∧ 0 < t.K ∧ t.M * t.N * t.K < 2 ^ 63)
    (hnd : nd.dim = Dim.None ∨ nd.dim = Dim.M)
    (hub : (ub = [] ∧ bM = INT64_MAX ∧ bN = INT64_MAX ∧ bK = INT64_MAX) ∨ ub = [bM, bN, bK])
    (hsurv : ∃ t ∈ tiles, t.M ≤ bM ∧ t.N ≤ bN ∧ t.K ≤ bK) :
    ∃ (i : Nat) (hi : i < tiles.length),
      chooseMatmulTile ae dflt tiles nd ub = .ok (tiles.get ⟨i, hi⟩) ∧
      ((tiles.get ⟨i, hi⟩).M ≤ bM ∧ (tiles.get ⟨i, hi⟩).N ≤ bN ∧ (tiles.get ⟨i, hi⟩).K ≤ bK) ∧
      (∀ u ∈ tiles, (u.M ≤ bM ∧ u.N ≤ bN ∧ u.K ≤ bK) →
        paddingPenalty nd (tiles.get ⟨i, hi⟩) ≤ paddingPenalty nd u) ∧
      (∀ u ∈ tiles, (u.M ≤ bM ∧ u.N ≤ bN ∧ u.K ≤ bK) →
        paddingPenalty nd u = paddingPenalty nd (tiles.get ⟨i, hi⟩) →
        u.M * u.N * u.K ≤
          (tiles.get ⟨i, hi⟩).M * (tiles.get ⟨i, hi⟩).N * (tiles.get ⟨i, hi⟩).K) ∧
      (∀ (j : Nat) (hj : j < i),
        ((tiles.get ⟨j, lt_trans hj hi⟩).M ≤ bM ∧ (tiles.get ⟨j, lt_trans hj hi⟩).N ≤ bN ∧
          (tiles.get ⟨j, lt_trans hj hi⟩).K ≤ bK) →
        paddingPenalty nd (tiles.get ⟨j, lt_trans hj hi⟩) =
          paddingPenalty nd (tiles.get ⟨i, hi⟩) →
        (tiles.get ⟨j, lt_trans hj hi⟩).M * (tiles.get ⟨j, lt_trans hj hi⟩).N *
            (tiles.get ⟨j, lt_trans hj hi⟩).K <
          (tiles.get ⟨i, hi⟩).M * (tiles.get ⟨i, hi⟩).N * (tiles.get ⟨i, hi⟩).K) := by
  have hnd' : nd.dim ≠ Dim.N := by rcases hnd with h | h <;> rw [h] <;> decide
  obtain ⟨u0, hu0, hw0⟩ := hsurv
  obtain ⟨pre, t, post, hsplit, hres, hwt, hmin, hmax, hfirst⟩ :=
    chooseMatmulTile_spec ae dflt tiles nd ub bM bN bK hnd'
      (readUpperBounds_of_absent_or_triple ub bM bN bK hub) hpos
      ⟨u0, hu0, (withinBounds_iff _ _ _ _).mpr hw0⟩
  have hi : pre.length < tiles.length := by rw [hsplit]; simp
  have hget : tiles.get ⟨pre.length, hi⟩ = t := get_of_split tiles pre post t hsplit hi
  refine ⟨pre.length, hi, ?_⟩
  rw [hget]
  refine ⟨hres, (withinBounds_iff _ _ _ _).mp hwt, ?_, ?_, ?_⟩
  · intro u hu hw
    exact hmin u hu ((withinBounds_iff _ _ _ _).mpr hw)
  · intro u hu hw hp
    exact hmax u hu ((withinBounds_iff _ _ _ _).mpr hw) hp
  · intro j hj hw hp
    exact hfirst _ (get_mem_of_split tiles pre post t hsplit j hj (lt_trans hj hi))
      ((withinBounds_iff _ _ _ _).mpr hw) hp

/-- Claim C4, example: in the catalog (1,8,4),(2,8,4),(4,4,4) with no hint and no bounds
the tiles at indices 1 and 2 tie on penalty 0 and product 64; the result is the tile at
index 1. -/
theorem selected_tile_is_first_among_ties_witness :
    (∃ (i : Nat) (hi : i < [(⟨1, 8, 4⟩ : TileMxNxK), ⟨2, 8, 4⟩, ⟨4, 4, 4⟩].length),
      chooseMatmulTile true ⟨1, 1, 1⟩ [⟨1, 8, 4⟩, ⟨2, 8, 4⟩, ⟨4, 4, 4⟩] noNarrowDim [] =
        .ok ([(⟨1, 8, 4⟩ : TileMxNxK), ⟨2, 8, 4⟩, ⟨4, 4, 4⟩].get ⟨i, hi⟩) ∧ i = 1) := by
  obtain ⟨i, hi, hres, _, _, hmax, hfirst⟩ :=
    selected_tile_is_first_among_ties true ⟨1, 1, 1⟩ [⟨1, 8, 4⟩, ⟨2, 8, 4⟩, ⟨4, 4, 4⟩]
      noNarrowDim [] INT64_MAX INT64_MAX INT64_MAX (by decide) (Or.inl rfl)
      (Or.inl ⟨rfl, rfl, rfl, rfl⟩) ⟨⟨1, 8, 4⟩, by decide, by decide⟩
  refine ⟨i, hi, hres, ?_⟩
  have hi3 : i < 3 := hi
  interval_cases i
  · have h := hmax ⟨2, 8, 4⟩ (by decide) (by decide)
    simp [List.get, paddingPenalty, noNarrowDim, MatmulNarrowDim.toBool] at h
  · rfl
  · have h := hfirst 1 (by decide)
    simp [List.get, paddingPenalty, noNarrowDim, MatmulNarrowDim.toBool, INT64_MAX] at h

/-- Claim C4 as stated fails. In the catalog (2^32, 2^32, 1),(2^32, 2^32, 1), and in
the catalog (2^32, 2^32, 2),(2^32, 2^32, 2), both tiles are static and positive, survive
and tie on penalty 0 and on product, so the claim requires the tile at index 0. The
64-bit product is 0, nothing is selected and the default-constructed tile is returned:
for no default tile and no assertion setting does the code return the tile at index 0
of both catalogs. -/
theorem tied_overflowing_products_select_no_catalog_tile :
    (∀ t ∈ [(⟨2 ^ 32, 2 ^ 32, 1⟩ : TileMxNxK), ⟨2 ^ 32, 2 ^ 32, 2⟩],
      0 < t.M ∧ 0 < t.N ∧ 0 < t.K) ∧
    ¬ ∃ (ae : Bool) (dflt : TileMxNxK),
      chooseMatmulTile ae dflt [⟨2 ^ 32, 2 ^ 32, 1⟩, ⟨2 ^ 32, 2 ^ 32, 1⟩] noNarrowDim [] =
          .ok ⟨2 ^ 32, 2 ^ 32, 1⟩ ∧
        chooseMatmulTile ae dflt [⟨2 ^ 32, 2 ^ 32, 2⟩, ⟨2 ^ 32, 2 ^ 32, 2⟩] noNarrowDim [] =
          .ok ⟨2 ^ 32, 2 ^ 32, 2⟩ := by
  refine ⟨by decide, ?_⟩
  rintro ⟨ae, dflt, h1, h2⟩
  rw [chooseMatmulTile_of_zero_products ae dflt _ noNarrowDim rfl (by decide) (by decide)
    (by decide)] at h1 h2
  have h3 := Except.ok.inj h1
  have h4 := Except.ok.inj h2
  rw [h3] at h4
  exact absurd h4 (by decide)

/-- Claim C6, amended. For every catalog of static tiles with positive M, N, K whose
product M*N*K is below 2^63, every narrow hint (none, M-narrow or N-narrow) and every
triple of bounds (bM,bN,bK): a tile that chooseMatmulTile returns satisfies M <= bM,
N <= bN and K <= bK, provided assertions are on or at least one catalog tile passes the
filter of line 369 (which, for an N-narrow hint, compares M with bN and N with bM). -/
theorem returned_tile_respects_bounds (ae : Bool) (dflt : TileMxNxK)
    (tiles : List TileMxNxK) (nd : MatmulNarrowDim) (bM bN bK : Int) (t : TileMxNxK)
    (hpos : ∀ t ∈ tiles, 0 < t.M ∧ 0 < t.N ∧ 0 < t.K ∧ t.M * t.N * t.K < 2 ^ 63)
    (hsurv : ae = true ∨ ∃ u ∈ tiles,
      (if nd.dim = Dim.N then u.M ≤ bN ∧ u.N ≤ bM else u.M ≤ bM ∧ u.N ≤ bN) ∧ u.K ≤ bK)
    (hres : chooseMatmulTile ae dflt tiles nd [bM, bN, bK] = .ok t) :
    t.M ≤ bM ∧ t.N ≤ bN ∧ t.K ≤ bK := by
  by_cases hnd : nd.dim = Dim.N
  · rw [chooseMatmulTile_of_N_triple ae dflt tiles nd bM bN bK hnd] at hres
    cases hrec : chooseMatmulTile ae dflt tiles { nd with dim := Dim.M } [bN, bM, bK] with
    | error f => rw [hrec] at hres; simp at hres
    | ok t' =>
      rw [hrec] at hres
      have ht : t = { t' with M := t'.N, N := t'.M } := (Except.ok.inj hres).symm
      have hs' : ae = true ∨ ∃ u ∈ tiles, u.M ≤ bN ∧ u.N ≤ bM ∧ u.K ≤ bK := by
        rcases hsurv with h | ⟨u, hu, hw⟩
        · exact Or.inl h
        · rw [if_pos hnd] at hw
          exact Or.inr ⟨u, hu, hw.1.1, hw.1.2, hw.2⟩
      have h := chooseMatmulTile_within_of_not_N ae dflt tiles { nd with dim := Dim.M }
        bN bM bK t' (by simp) hpos hs' hrec
      rw [ht]
      exact ⟨h.2.1, h.1, h.2.2⟩
  · apply chooseMatmulTile_within_of_not_N ae dflt tiles nd bM bN bK t hnd hpos _ hres
    rcases hsurv with h | ⟨u, hu, hw⟩
    · exact Or.inl h
    · rw [if_neg hnd] at hw
      exact Or.inr ⟨u, hu, hw.1.1, hw.1.2, hw.2⟩

/-- Claim C6, example: the catalog (8,8,4),(4,8,4),(2,8,4),(1,8,4) with an N-narrow hint
of size 3 and bounds (8,4,4), assertions off. The tile (4,8,4) passes the filter under
the exchanged bounds (4,8,4); the result (8,4,4) is within (8,4,4). -/
theorem returned_tile_respects_bounds_witness :
    chooseMatmulTile false ⟨1, 1, 1⟩ tiles8x8x4 ⟨Dim.N, 3⟩ [8, 4, 4] = .ok ⟨8, 4, 4⟩ ∧
      ((8 : Int) ≤ 8 ∧ (4 : Int) ≤ 4 ∧ (4 : Int) ≤ 4) :=
  have h : chooseMatmulTile false ⟨1, 1, 1⟩ tiles8x8x4 ⟨Dim.N, 3⟩ [8, 4, 4] = .ok ⟨8, 4, 4⟩ := by
    rw [chooseMatmulTile_of_N_triple _ _ _ _ _ _ _ rfl,
      chooseMatmulTile_of_not_N _ _ _ _ _ (by decide)]
    rfl
  ⟨h, returned_tile_respects_bounds false ⟨1, 1, 1⟩ tiles8x8x4 ⟨Dim.N, 3⟩ 8 4 4 ⟨8, 4, 4⟩
    (by decide) (Or.inr ⟨⟨4, 8, 4⟩, by decide, by decide⟩) h⟩

/-- Claim C6 as stated fails. With a default-constructed tile (1,1,1): for the catalog
(8,8,4),(4,8,4),(2,8,4),(1,8,4), no hint and bounds (0,8,4), every tile is skipped and,
with assertions off, the call returns (1,1,1), whose M exceeds the bound 0; for the
static catalog (0,8,4) and the same bounds the tile survives with product 0, is never
selected, and the call returns (1,1,1) with assertions on as well. -/
theorem default_tile_can_exceed_bounds :
    chooseMatmulTile false ⟨1, 1, 1⟩ tiles8x8x4 noNarrowDim [0, 8, 4] = .ok ⟨1, 1, 1⟩ ∧
    chooseMatmulTile true ⟨1, 1, 1⟩ [⟨0, 8, 4⟩] noNarrowDim [0, 8, 4] = .ok ⟨1, 1, 1⟩ ∧
    ¬ ∀ (ae : Bool) (dflt : TileMxNxK) (tiles : List TileMxNxK) (nd : MatmulNarrowDim)
        (bM bN bK : Int) (t : TileMxNxK),
        (∀ u ∈ tiles, isDynamic u.M = false ∧ isDynamic u.N = false ∧ isDynamic u.K = false) →
        chooseMatmulTile ae dflt tiles nd [bM, bN, bK] = .ok t →
        t.M ≤ bM ∧ t.N ≤ bN ∧ t.K ≤ bK := by
  have h1 : chooseMatmulTile false ⟨1, 1, 1⟩ tiles8x8x4 noNarrowDim [0, 8, 4] =
      .ok ⟨1, 1, 1⟩ := by
    rw [chooseMatmulTile_of_not_N _ _ _ _ _ (by decide)]; rfl
  have h2 : chooseMatmulTile true ⟨1, 1, 1⟩ [⟨0, 8, 4⟩] noNarrowDim [0, 8, 4] =
      .ok ⟨1, 1, 1⟩ := by
    rw [chooseMatmulTile_of_not_N _ _ _ _ _ (by decide)]; rfl
  refine ⟨h1, h2, ?_⟩
  intro h
  have h3 := h false ⟨1, 1, 1⟩ tiles8x8x4 noNarrowDim 0 8 4 ⟨1, 1, 1⟩ (by decide) h1
  exact absurd h3.1 (by decide)

/-- Claim C7. For every target and encoding (hence every element-type triple) for which
enumerateMatmulTileMxNxK returns a non-empty catalog without dynamic components,
chooseMatmulTile with no narrow hint and no bounds returns the first entry of that
catalog; the first entry has the largest M, and every candidate has paddingPenalty 0.
This holds with assertions on or off and for every default-constructed tile. -/
theorem no_hint_no_bounds_selects_first_entry (ae : Bool) (dflt : TileMxNxK)
    (encoding : EncodingAttr) (target : ExecutableTargetAttr) (cat : List TileMxNxK) (s : Int)
    (henum : enumerateMatmulTileMxNxK ae encoding target = .ok cat)
    (hne : cat ≠ [])
    (hstatic : ∀ t ∈ cat, isDynamic t.M = false ∧ isDynamic t.N = false ∧
      isDynamic t.K = false) :
    ∃ first rest, cat = first :: rest ∧
      chooseMatmulTile ae dflt cat ⟨Dim.None, s⟩ [] = .ok first ∧
      (∀ t ∈ cat, t.M ≤ first.M) ∧
      (∀ t ∈ cat, paddingPenalty ⟨Dim.None, s⟩ t = 0) := by
  have hmem := enumerateMatmulTileMxNxK_mem ae encoding target cat henum
  rcases knownCatalogs_head_widest cat hmem with h | h | h
  · exact absurd h hne
  · exfalso
    have := hstatic ⟨kDynamic, kDynamic, kDynamic⟩ (by rw [h]; simp)
    simp [isDynamic] at this
  · cases cat with
    | nil => exact absurd rfl hne
    | cons first rest =>
      refine ⟨first, rest, rfl, ?_, ?_, ?_⟩
      · apply chooseMatmulTile_head ae dflt first rest ⟨Dim.None, s⟩ rfl
        · intro t ht; exact (h t ht).1
        · intro t ht; exact ((h t ht).2 first rfl).2
      · intro t ht; exact ((h t ht).2 first rfl).1
      · intro t _; simp [paddingPenalty, MatmulNarrowDim.toBool]

/-- Claim C7, example: a VMVX target without microkernels enumerates the catalog
(8,8,4),(4,8,4),(2,8,4),(1,8,4); with no hint and no bounds the result is (8,8,4). -/
theorem no_hint_no_bounds_selects_first_entry_witness :
    ∃ first rest, tiles8x8x4 = first :: rest ∧
      chooseMatmulTile true ⟨1, 1, 1⟩ tiles8x8x4 ⟨Dim.None, 0⟩ [] = .ok first ∧
      (∀ t ∈ tiles8x8x4, t.M ≤ first.M) ∧
      (∀ t ∈ tiles8x8x4, paddingPenalty ⟨Dim.None, 0⟩ t = 0) ∧ first = ⟨8, 8, 4⟩ := by
  obtain ⟨first, rest, h1, h2, h3, h4⟩ :=
    no_hint_no_bounds_selects_first_entry true ⟨1, 1, 1⟩ (matmulEncoding noNarrowDim [])
      (vmvxTarget false) tiles8x8x4 0 rfl (by decide) (by decide)
  refine ⟨first, rest, h1, h2, h3, h4, ?_⟩
  have := (List.cons.inj h1).1
  exact this.symm

/-- Claim C8, amended. Every candidate that survives the filter gets a record in
ratedTiles, and in that record: with no narrow hint the paddingPenalty is 0; with a
hint of size s, 1 <= s <= 2^62, and 0 <= M < 2^63, the paddingPenalty is the integer
max(0, M - P) for P the least power of two >= s, although the subtraction is done
modulo 2^64 and converted to a signed 64-bit value; and the stored product is M*N*K
whenever M*N and M*N*K lie in the signed 64-bit range. -/
theorem stored_penalty_and_product (nd : MatmulNarrowDim) (mUB nUB kUB : Int)
    (tiles : List TileMxNxK) (t : TileMxNxK) (ht : t ∈ tiles)
    (hw : withinBounds mUB nUB kUB t = true) :
    (∃ r ∈ (tiles.foldl (rateStep nd mUB nUB kUB) ([], INT64_MAX)).1, r.tile = t) ∧
    ∀ r ∈ (tiles.foldl (rateStep nd mUB nUB kUB) ([], INT64_MAX)).1, r.tile = t →
      (nd.dim = Dim.None → r.paddingPenalty = 0) ∧
      (nd.dim ≠ Dim.None → 0 ≤ t.M → t.M < 2 ^ 63 → 1 ≤ nd.size → nd.size ≤ 2 ^ 62 →
        ∃ k : Nat, nd.size ≤ 2 ^ k ∧ (∀ j : Nat, nd.size ≤ 2 ^ j → (2 : Int) ^ k ≤ 2 ^ j) ∧
          r.paddingPenalty = max 0 (t.M - 2 ^ k)) ∧
      (-(2 ^ 63) ≤ t.M * t.N → t.M * t.N < 2 ^ 63 →
        -(2 ^ 63) ≤ t.M * t.N * t.K → t.M * t.N * t.K < 2 ^ 63 →
        r.productMxNxK = t.M * t.N * t.K) := by
  refine ⟨⟨rate nd t, (mem_ratedTiles_iff _ _ _ _ _ _).mpr ⟨t, ht, hw, rfl⟩, rfl⟩, ?_⟩
  intro r hr hrt
  obtain ⟨u, _, _, hru⟩ := (mem_ratedTiles_iff _ _ _ _ _ _).mp hr
  have hut : u = t := by rw [hru] at hrt; exact hrt
  subst hut
  subst hru
  refine ⟨?_, ?_, ?_⟩
  · intro hnone
    simp [rate, paddingPenalty, MatmulNarrowDim.toBool, hnone]
  · intro hsome hM hM2 hs hs2
    obtain ⟨k, hk1, hk2, hk3⟩ := narrowPenalty_eq u.M nd.size hM hM2 hs hs2
    refine ⟨k, hk1, hk2, ?_⟩
    simp [rate, paddingPenalty, MatmulNarrowDim.toBool, hsome, hk3]
  · intro h1 h2 h3 h4
    simp only [rate, productMxNxK, mulInt64]
    rw [wrapInt64_of_range _ h1 h2, wrapInt64_of_range _ h3 h4]

/-- Claim C8, example: in the catalog (8,8,4),(4,8,4),(2,8,4),(1,8,4) with an M-narrow
hint of size 3 and no bounds, the record of (8,8,4) has paddingPenalty 8 - 4 = 4 and
product 256. -/
theorem stored_penalty_and_product_witness :
    (∃ r ∈ (tiles8x8x4.foldl (rateStep ⟨Dim.M, 3⟩ INT64_MAX INT64_MAX INT64_MAX)
        ([], INT64_MAX)).1, r.tile = ⟨8, 8, 4⟩) ∧
    ∀ r ∈ (tiles8x8x4.foldl (rateStep ⟨Dim.M, 3⟩ INT64_MAX INT64_MAX INT64_MAX)
        ([], INT64_MAX)).1, r.tile = ⟨8, 8, 4⟩ →
      r.paddingPenalty = 4 ∧ r.productMxNxK = 256 := by
  obtain ⟨hex, hall⟩ := stored_penalty_and_product ⟨Dim.M, 3⟩ INT64_MAX INT64_MAX INT64_MAX
    tiles8x8x4 ⟨8, 8, 4⟩ (by decide) (by decide)
  refine ⟨hex, ?_⟩
  intro r hr hrt
  obtain ⟨_, hpen, hprod⟩ := hall r hr hrt
  refine ⟨?_, ?_⟩
  · obtain ⟨k, hk1, hk2, hk3⟩ := hpen (by decide) (by decide) (by decide) (by decide)
      (by decide)
    have h4 : (2 : Int) ^ k ≤ 2 ^ 2 := hk2 2 (by decide)
    have hk : k ≤ 2 := by
      by_contra hcon
      have : (2 : Int) ^ 3 ≤ 2 ^ k := pow_le_pow_right₀ (by norm_num) (by omega)
      norm_num at h4 this
      omega
    interval_cases k
    · norm_num at hk1
    · norm_num at hk1
    · rw [hk3]; norm_num
  · rw [hprod (by decide) (by decide) (by decide) (by decide)]
    decide

/-- Claim C8 as stated fails in its last part. The tile (2^32, 2^32, 1), with
0 <= M < 2^63, an M-narrow hint of size 1 and no bounds, survives and is stored with
paddingPenalty 2^32 - 1 and product 0, while M*N*K is 2^64. -/
theorem stored_product_wraps :
    ([(⟨2 ^ 32, 2 ^ 32, 1⟩ : TileMxNxK)].foldl
        (rateStep ⟨Dim.M, 1⟩ INT64_MAX INT64_MAX INT64_MAX) ([], INT64_MAX)).1 =
      [{ tile := ⟨2 ^ 32, 2 ^ 32, 1⟩, paddingPenalty := 2 ^ 32 - 1, productMxNxK := 0 }] ∧
    (0 : Int) ≠ 2 ^ 32 * 2 ^ 32 * 1 := by
  constructor
  · decide
  · decide

/-! ## Claims about the enumerators and materializeEncodingForTarget -/

/-- Claim C9. materializeEncodingForTarget returns failure when the tensor type carries
no EncodingAttr, when the contraction dimensions cannot be inferred, when one of
batch/M/N/K has more than one dimension, and when the enumerated catalog is empty, for
every target; in each case the result is the same for every callee in the place of
chooseMatmulTile (also one that always faults), so the callee is not invoked. The
result of the function depends on the callee only through its values on non-empty
catalogs; in particular chooseMatmulTile may be replaced by a callee that faults on the
empty catalog. -/
theorem materialize_not_applicable_without_choosing {Info : Type}
    (choose : List TileMxNxK → MatmulNarrowDim → List Int → Except Fault TileMxNxK)
    (getEncodingInfoForMatmul : EncodingAttr → TileMxNxK → Option Info)
    (ae : Bool) (targetAttr : ExecutableTargetAttr) :
    materializeEncodingForTargetWith choose getEncodingInfoForMatmul ae ⟨none⟩ targetAttr =
      .ok none ∧
    (∀ encoding : EncodingAttr, encoding.contractionDims = none →
      materializeEncodingForTargetWith choose getEncodingInfoForMatmul ae ⟨some encoding⟩
        targetAttr = .ok none) ∧
    (∀ (encoding : EncodingAttr) (cDims : ContractionDimensions),
      encoding.contractionDims = some cDims →
      (1 < cDims.batch.length ∨ 1 < cDims.m.length ∨ 1 < cDims.n.length ∨
        1 < cDims.k.length) →
      materializeEncodingForTargetWith choose getEncodingInfoForMatmul ae ⟨some encoding⟩
        targetAttr = .ok none) ∧
    (∀ encoding : EncodingAttr, enumerateMatmulTileMxNxK ae encoding targetAttr = .ok [] →
      materializeEncodingForTargetWith choose getEncodingInfoForMatmul ae ⟨some encoding⟩
        targetAttr = .ok none) ∧
    (∀ choose2 : List TileMxNxK → MatmulNarrowDim → List Int → Except Fault TileMxNxK,
      (∀ tiles nd ub, tiles ≠ [] → choose tiles nd ub = choose2 tiles nd ub) →
      ∀ tensorType : RankedTensorType,
        materializeEncodingForTargetWith choose getEncodingInfoForMatmul ae tensorType
            targetAttr =
          materializeEncodingForTargetWith choose2 getEncodingInfoForMatmul ae tensorType
            targetAttr) ∧
    (∀ (dflt : TileMxNxK) (tensorType : RankedTensorType),
      materializeEncodingForTarget getEncodingInfoForMatmul ae dflt tensorType targetAttr =
        materializeEncodingForTargetWith
          (fun tiles nd ub =>
            if tiles = [] then .error (.assertion 0) else chooseMatmulTile ae dflt tiles nd ub)
          getEncodingInfoForMatmul ae tensorType targetAttr) := by
  have hempty : ∀ encoding : EncodingAttr,
      enumerateMatmulTileMxNxK ae encoding targetAttr = .ok [] →
      materializeEncodingForTargetWith choose getEncodingInfoForMatmul ae ⟨some encoding⟩
        targetAttr = .ok none := by
    intro encoding h
    simp [materializeEncodingForTargetWith, h]
  have hagree : ∀ c1 c2 : List TileMxNxK → MatmulNarrowDim → List Int → Except Fault TileMxNxK,
      (∀ tiles nd ub, tiles ≠ [] → c1 tiles nd ub = c2 tiles nd ub) →
      ∀ tensorType : RankedTensorType,
        materializeEncodingForTargetWith c1 getEncodingInfoForMatmul ae tensorType
            targetAttr =
          materializeEncodingForTargetWith c2 getEncodingInfoForMatmul ae tensorType
            targetAttr := by
    intro c1 c2 h tensorType
    unfold materializeEncodingForTargetWith
    cases tensorType.encoding with
    | none => rfl
    | some encoding =>
      simp only
      cases henum : enumerateMatmulTileMxNxK ae encoding targetAttr with
      | error f => rfl
      | ok tiles =>
        simp only
        by_cases ht : tiles = []
        · simp [ht]
        · have hne : tiles.isEmpty = false := by
            cases tiles with
            | nil => exact absurd rfl ht
            | cons _ _ => rfl
          simp only [hne, Bool.false_eq_true, if_false]
          rw [h tiles _ _ ht]
  refine ⟨rfl, ?_, ?_, hempty, hagree choose, ?_⟩
  · intro encoding h
    apply hempty
    simp [enumerateMatmulTileMxNxK, h]
  · intro encoding cDims h hlen
    apply hempty
    simp only [enumerateMatmulTileMxNxK, h]
    have : (decide (cDims.batch.length > 1) || decide (cDims.m.length > 1) ||
        decide (cDims.n.length > 1) || decide (cDims.k.length > 1)) = true := by
      rcases hlen with h | h | h | h <;> simp [h]
    rw [if_pos this]
  · intro dflt tensorType
    unfold materializeEncodingForTarget
    apply hagree
    intro tiles nd ub ht
    simp [ht]

/-- Claim C10. For a VMVX target and an encoding whose contraction dimensions are
inferred with at most one batch, M, N and K dimension each: the enumerated catalog is
the single all-dynamic tile if and only if the target has microkernels, the encoding
has no batch dimension and no narrow dimension; in every other case it is the list
(8,8,4),(4,8,4),(2,8,4),(1,8,4); and it does not depend on the element types. -/
theorem vmvx_catalog_dynamic_iff (ae : Bool) (encoding : EncodingAttr)
    (target : ExecutableTargetAttr) (cDims : ContractionDimensions)
    (hv : target.isVMVXBackend = true)
    (hc : encoding.contractionDims = some cDims)
    (hb : cDims.batch.length ≤ 1) (hm : cDims.m.length ≤ 1) (hn : cDims.n.length ≤ 1)
    (hk : cDims.k.length ≤ 1) :
    (enumerateMatmulTileMxNxK ae encoding target = .ok [⟨kDynamic, kDynamic, kDynamic⟩] ↔
      (target.hasUkernel = true ∧ cDims.batch = [] ∧ encoding.narrowDim.dim = Dim.None)) ∧
    (¬ (target.hasUkernel = true ∧ cDims.batch = [] ∧ encoding.narrowDim.dim = Dim.None) →
      enumerateMatmulTileMxNxK ae encoding target =
        .ok [⟨8, 8, 4⟩, ⟨4, 8, 4⟩, ⟨2, 8, 4⟩, ⟨1, 8, 4⟩]) ∧
    (∀ elementTypes : List MlirType,
      enumerateMatmulTileMxNxK ae { encoding with elementTypes := elementTypes } target =
        enumerateMatmulTileMxNxK ae encoding target) := by
  have hguard : (decide (cDims.batch.length > 1) || decide (cDims.m.length > 1) ||
      decide (cDims.n.length > 1) || decide (cDims.k.length > 1)) = false := by
    simp; omega
  have henum : ∀ e : EncodingAttr, e.contractionDims = some cDims →
      enumerateMatmulTileMxNxK ae e target = .ok (enumerateMatmulTilesVMVX cDims e target) := by
    intro e he
    simp only [enumerateMatmulTileMxNxK, he, hguard, hv, Bool.false_eq_true, if_false, if_true]
  have hcond : (target.hasUkernel = true ∧ cDims.batch = [] ∧
      encoding.narrowDim.dim = Dim.None) ↔
      (if !cDims.batch.isEmpty || encoding.narrowDim.toBool then false
        else target.hasUkernel) = true := by
    cases hu : target.hasUkernel <;> cases hd : encoding.narrowDim.dim <;>
      cases hbt : cDims.batch <;> simp [MatmulNarrowDim.toBool, hd]
  refine ⟨?_, ?_, ?_⟩
  · rw [henum encoding hc, hcond]
    unfold enumerateMatmulTilesVMVX
    simp only
    split
    · simp_all
    · simp_all [kDynamic]
  · intro hnot
    rw [henum encoding hc]
    rw [hcond] at hnot
    unfold enumerateMatmulTilesVMVX
    simp only
    rw [if_neg hnot]
  · intro elementTypes
    rw [henum encoding hc, henum { encoding with elementTypes := elementTypes } hc]
    rfl

/-- Claim C10, example: a VMVX target with microkernels and a matmul encoding without
batch and narrow dimensions gets the all-dynamic catalog. -/
theorem vmvx_catalog_dynamic_iff_witness :
    (enumerateMatmulTileMxNxK true (matmulEncoding noNarrowDim []) (vmvxTarget true) =
        .ok [⟨kDynamic, kDynamic, kDynamic⟩] ↔
      ((vmvxTarget true).hasUkernel = true ∧ ([] : List Nat) = [] ∧
        (matmulEncoding noNarrowDim []).narrowDim.dim = Dim.None)) ∧
    (¬ ((vmvxTarget true).hasUkernel = true ∧ ([] : List Nat) = [] ∧
        (matmulEncoding noNarrowDim []).narrowDim.dim = Dim.None) →
      enumerateMatmulTileMxNxK true (matmulEncoding noNarrowDim []) (vmvxTarget true) =
        .ok [⟨8, 8, 4⟩, ⟨4, 8, 4⟩, ⟨2, 8, 4⟩, ⟨1, 8, 4⟩]) ∧
    (∀ elementTypes : List MlirType,
      enumerateMatmulTileMxNxK true
          { matmulEncoding noNarrowDim [] with elementTypes := elementTypes } (vmvxTarget true) =
        enumerateMatmulTileMxNxK true (matmulEncoding noNarrowDim []) (vmvxTarget true)) :=
  vmvx_catalog_dynamic_iff true (matmulEncoding noNarrowDim []) (vmvxTarget true)
    { batch := [], m := [0], n := [1], k := [2] } rfl rfl (by decide) (by decide) (by decide)
    (by decide)

/-! ## Claims about the enumerated catalogs -/

/-- No arm64 catalog has a dynamic component. -/
theorem arm64Tiles_static (lhs rhs out : MlirType) (target : ExecutableTargetAttr) :
    ∀ t ∈ arm64Tiles lhs rhs out target,
      isDynamic t.M = false ∧ isDynamic t.N = false ∧ isDynamic t.K = false := by
  unfold arm64Tiles
  split_ifs <;> decide

/-- No x86-64 catalog has a dynamic component. -/
theorem x86_64Tiles_static (lhs rhs out : MlirType) (target : ExecutableTargetAttr) :
    ∀ t ∈ x86_64Tiles lhs rhs out target,
      isDynamic t.M = false ∧ isDynamic t.N = false ∧ isDynamic t.K = false := by
  unfold x86_64Tiles
  split_ifs <;> decide

/-- Without microkernels the VMVX enumerator returns the static catalog. -/
theorem enumerateMatmulTilesVMVX_of_no_ukernel (cDims : ContractionDimensions)
    (encoding : EncodingAttr) (target : ExecutableTargetAttr) (h : target.hasUkernel = false) :
    enumerateMatmulTilesVMVX cDims encoding target =
      [⟨8, 8, 4⟩, ⟨4, 8, 4⟩, ⟨2, 8, 4⟩, ⟨1, 8, 4⟩] := by
  unfold enumerateMatmulTilesVMVX
  simp [h]

/-- A catalog with a dynamic component comes from the VMVX enumerator of a target
with microkernels. -/
theorem enumerateMatmulTileMxNxK_dynamic_source (ae : Bool) (encoding : EncodingAttr)
    (target : ExecutableTargetAttr) (cat : List TileMxNxK)
    (henum : enumerateMatmulTileMxNxK ae encoding target = .ok cat)
    (hdyn : ∃ t ∈ cat, isDynamic t.M = true ∨ isDynamic t.N = true ∨ isDynamic t.K = true) :
    target.isVMVXBackend = true ∧ target.hasUkernel = true := by
  obtain ⟨t, ht, hd⟩ := hdyn
  have hcontra : ∀ l : List TileMxNxK,
      (∀ u ∈ l, isDynamic u.M = false ∧ isDynamic u.N = false ∧ isDynamic u.K = false) →
      cat = l → False := by
    intro l hl hcl
    have := hl t (hcl ▸ ht)
    rcases hd with h | h | h
    · rw [this.1] at h; exact Bool.noConfusion h
    · rw [this.2.1] at h; exact Bool.noConfusion h
    · rw [this.2.2] at h; exact Bool.noConfusion h
  unfold enumerateMatmulTileMxNxK at henum
  split at henum
  · cases henum; simp at ht
  · rename_i cDims _
    split_ifs at henum with h1 h2 h3 h4 h5 h6
    · cases henum; simp at ht
    · refine ⟨h2, ?_⟩
      by_contra hu
      have hu' : target.hasUkernel = false := by simpa using hu
      rw [enumerateMatmulTilesVMVX_of_no_ukernel cDims encoding target hu'] at henum
      exact hcontra _ (by decide) (Except.ok.inj henum).symm
    · exfalso
      unfold enumerateMatmulTileArm64 at henum
      split_ifs at henum
      · cases henum; simp at ht
      · split at henum
        · cases henum
        · cases henum; exact hcontra _ (arm64Tiles_static _ _ _ _) rfl
    · exfalso
      unfold enumerateMatmulTileX86_64 at henum
      split at henum
      · cases henum
      · cases henum; exact hcontra _ (x86_64Tiles_static _ _ _ _) rfl
    · exfalso
      cases henum
      refine hcontra _ ?_ rfl
      unfold enumerateMatmulTileRiscv32
      split_ifs <;> decide
    · exfalso
      cases henum
      refine hcontra _ ?_ rfl
      unfold enumerateMatmulTileRiscv64
      decide
    · cases henum; simp at ht

/-- Claim C11. For every target: if enumerateMatmulTileMxNxK returns, for some encoding,
a catalog with an entry that has a dynamic M, N or K, then
getMaterializeEncodingValueFn returns the resolver
chooseDynamicEncodingInfoVMVXMicrokernels (not the null function) for that target;
and a target for which it returns the null function gets only static entries. -/
theorem dynamic_tile_offered_only_with_resolver (ae : Bool) (encoding : EncodingAttr)
    (target : ExecutableTargetAttr) (cat : List TileMxNxK)
    (henum : enumerateMatmulTileMxNxK ae encoding target = .ok cat) :
    ((∃ t ∈ cat, isDynamic t.M = true ∨ isDynamic t.N = true ∨ isDynamic t.K = true) →
      getMaterializeEncodingValueFn target =
        some MaterializeEncodingValueFn.chooseDynamicEncodingInfoVMVXMicrokernels) ∧
    (getMaterializeEncodingValueFn target = none →
      ∀ t ∈ cat, isDynamic t.M = false ∧ isDynamic t.N = false ∧ isDynamic t.K = false) := by
  have h1 : (∃ t ∈ cat, isDynamic t.M = true ∨ isDynamic t.N = true ∨ isDynamic t.K = true) →
      getMaterializeEncodingValueFn target =
        some MaterializeEncodingValueFn.chooseDynamicEncodingInfoVMVXMicrokernels := by
    intro hdyn
    obtain ⟨hv, hu⟩ := enumerateMatmulTileMxNxK_dynamic_source ae encoding target cat henum hdyn
    simp [getMaterializeEncodingValueFn, hv, hu]
  refine ⟨h1, ?_⟩
  intro hnone t ht
  by_contra hcon
  have hdyn : isDynamic t.M = true ∨ isDynamic t.N = true ∨ isDynamic t.K = true := by
    by_contra hno
    apply hcon
    simp only [not_or, Bool.not_eq_true] at hno
    exact hno
  rw [h1 ⟨t, ht, hdyn⟩] at hnone
  exact Option.noConfusion hnone

/-- Claim C11, example: a VMVX target with microkernels is offered the dynamic tile
for a matmul encoding without batch and narrow dimensions, and has the resolver. -/
theorem dynamic_tile_offered_only_with_resolver_witness :
    ((∃ t ∈ dynamicTiles, isDynamic t.M = true ∨ isDynamic t.N = true ∨ isDynamic t.K = true) →
      getMaterializeEncodingValueFn (vmvxTarget true) =
        some MaterializeEncodingValueFn.chooseDynamicEncodingInfoVMVXMicrokernels) ∧
    (getMaterializeEncodingValueFn (vmvxTarget true) = none →
      ∀ t ∈ dynamicTiles,
        isDynamic t.M = false ∧ isDynamic t.N = false ∧ isDynamic t.K = false) :=
  dynamic_tile_offered_only_with_resolver true (matmulEncoding noNarrowDim [])
    (vmvxTarget true) dynamicTiles rfl

/-- In a known catalog, an entry with a dynamic component is all-dynamic and alone, the
two assertions of the dynamic-tile loop hold, and a static entry is positive. -/
theorem knownCatalogs_dynamic_invariant :
    ∀ cat ∈ knownCatalogs,
      (∀ t ∈ cat, (isDynamic t.M = true ∨ isDynamic t.N = true ∨ isDynamic t.K = true) →
        (isDynamic t.M = true ∧ isDynamic t.N = true ∧ isDynamic t.K = true) ∧
          cat.length = 1) ∧
      (∀ t ∈ cat, ¬ (isDynamic t.M = true ∨ isDynamic t.N = true ∨ isDynamic t.K = true) →
        0 < t.M ∧ 0 < t.N ∧ 0 < t.K) ∧
      (dynamicScan true cat.length cat).isOk = true := by
  decide

/-- Claim C12. For every encoding and target, in the catalog that
enumerateMatmulTileMxNxK returns: an entry with a dynamic M, N or K has all three
dynamic and is the only entry of the catalog; the dynamic-tile loop of chooseMatmulTile
(lines 339-347) run with assertions on does not fail an assertion; and every entry
without a dynamic component has M, N, K strictly positive. -/
theorem enumerated_catalog_dynamic_invariant (ae : Bool) (encoding : EncodingAttr)
    (target : ExecutableTargetAttr) (cat : List TileMxNxK)
    (henum : enumerateMatmulTileMxNxK ae encoding target = .ok cat) :
    (∀ t ∈ cat, (isDynamic t.M = true ∨ isDynamic t.N = true ∨ isDynamic t.K = true) →
      (isDynamic t.M = true ∧ isDynamic t.N = true ∧ isDynamic t.K = true) ∧
        cat.length = 1) ∧
    (∀ t ∈ cat, ¬ (isDynamic t.M = true ∨ isDynamic t.N = true ∨ isDynamic t.K = true) →
      0 < t.M ∧ 0 < t.N ∧ 0 < t.K) ∧
    (∃ r, dynamicScan true cat.length cat = .ok r) := by
  obtain ⟨h1, h2, h3⟩ := knownCatalogs_dynamic_invariant cat
    (enumerateMatmulTileMxNxK_mem ae encoding target cat henum)
  refine ⟨h1, h2, ?_⟩
  cases hscan : dynamicScan true cat.length cat with
  | error f => rw [hscan] at h3; exact Bool.noConfusion h3
  | ok r => exact ⟨r, rfl⟩

/-- Claim C12, example: the catalog of a VMVX target with microkernels is the single
all-dynamic tile; the catalog of a riscv64 target is static and positive. -/
theorem enumerated_catalog_dynamic_invariant_witness :
    ((∀ t ∈ dynamicTiles,
        (isDynamic t.M = true ∨ isDynamic t.N = true ∨ isDynamic t.K = true) →
        (isDynamic t.M = true ∧ isDynamic t.N = true ∧ isDynamic t.K = true) ∧
          dynamicTiles.length = 1) ∧
      (∀ t ∈ dynamicTiles,
        ¬ (isDynamic t.M = true ∨ isDynamic t.N = true ∨ isDynamic t.K = true) →
        0 < t.M ∧ 0 < t.N ∧ 0 < t.K) ∧
      (∃ r, dynamicScan true dynamicTiles.length dynamicTiles = .ok r)) ∧
    enumerateMatmulTileMxNxK true (matmulEncoding noNarrowDim []) (riscv64Target false) =
      .ok [⟨7, 32, 1⟩, ⟨4, 32, 1⟩, ⟨2, 32, 1⟩, ⟨1, 32, 1⟩] :=
  ⟨enumerated_catalog_dynamic_invariant true (matmulEncoding noNarrowDim [])
    (vmvxTarget true) dynamicTiles rfl, rfl⟩

/-- In a known catalog that is neither empty nor dynamic, M decreases strictly along
the list, every M after the first is 1, 2, 4 or 8, and N and K are those of the first
entry. -/
theorem knownCatalogs_descending :
    ∀ cat ∈ knownCatalogs, cat = [] ∨ cat = [⟨kDynamic, kDynamic, kDynamic⟩] ∨
      (List.Chain' (fun a b : TileMxNxK =>
          b.M < a.M ∧ (b.M = 2 ^ 0 ∨ b.M = 2 ^ 1 ∨ b.M = 2 ^ 2 ∨ b.M = 2 ^ 3)) cat ∧
        ∀ first ∈ cat.head?, ∀ t ∈ cat, t.M ≤ first.M ∧ t.N = first.N ∧ t.K = first.K) := by
  intro cat h
  simp only [knownCatalogs, List.mem_cons, List.mem_singleton, List.not_mem_nil, or_false] at h
  rcases h with rfl | rfl | rfl | rfl | rfl | rfl | rfl | rfl | rfl | rfl | rfl | rfl | rfl | rfl
  all_goals first
    | exact Or.inl rfl
    | exact Or.inr (Or.inl rfl)
    | exact Or.inr (Or.inr ⟨by simp [List.chain'_cons], by decide⟩)

/-- Claim C13. For every encoding and target, every non-empty catalog without dynamic
components that enumerateMatmulTileMxNxK returns is listed widest-M first with M
strictly decreasing along the list; every entry after the first has an M that is a
power of two and smaller than the M of the entry before it; and every entry has the N
and the K of the first entry. -/
theorem static_catalog_descending_power_of_two (ae : Bool) (encoding : EncodingAttr)
    (target : ExecutableTargetAttr) (cat : List TileMxNxK)
    (henum : enumerateMatmulTileMxNxK ae encoding target = .ok cat)
    (hne : cat ≠ [])
    (hstatic : ∀ t ∈ cat, isDynamic t.M = false ∧ isDynamic t.N = false ∧
      isDynamic t.K = false) :
    List.Chain' (fun a b : TileMxNxK => b.M < a.M ∧ ∃ k : Nat, b.M = 2 ^ k) cat ∧
    ∃ first rest, cat = first :: rest ∧
      ∀ t ∈ cat, t.M ≤ first.M ∧ t.N = first.N ∧ t.K = first.K := by
  rcases knownCatalogs_descending cat
      (enumerateMatmulTileMxNxK_mem ae encoding target cat henum) with h | h | ⟨hchain, hfirst⟩
  · exact absurd h hne
  · exfalso
    have := hstatic ⟨kDynamic, kDynamic, kDynamic⟩ (by rw [h]; simp)
    simp [isDynamic] at this
  · constructor
    · refine List.Chain'.imp ?_ hchain
      intro a b hab
      refine ⟨hab.1, ?_⟩
      rcases hab.2 with h | h | h | h
      · exact ⟨0, h⟩
      · exact ⟨1, h⟩
      · exact ⟨2, h⟩
      · exact ⟨3, h⟩
    · cases cat with
      | nil => exact absurd rfl hne
      | cons first rest => exact ⟨first, rest, rfl, hfirst first rfl⟩

/-- Claim C13, example: the riscv64 catalog (7,32,1),(4,32,1),(2,32,1),(1,32,1). Its
first M, 7, is not a power of two; the later ones, 4, 2, 1, are. -/
theorem static_catalog_descending_power_of_two_witness :
    List.Chain' (fun a b : TileMxNxK => b.M < a.M ∧ ∃ k : Nat, b.M = 2 ^ k)
        [⟨7, 32, 1⟩, ⟨4, 32, 1⟩, ⟨2, 32, 1⟩, ⟨1, 32, 1⟩] ∧
    ∃ first rest, [(⟨7, 32, 1⟩ : TileMxNxK), ⟨4, 32, 1⟩, ⟨2, 32, 1⟩, ⟨1, 32, 1⟩] = first :: rest ∧
      ∀ t ∈ [(⟨7, 32, 1⟩ : TileMxNxK), ⟨4, 32, 1⟩, ⟨2, 32, 1⟩, ⟨1, 32, 1⟩],
        t.M ≤ first.M ∧ t.N = first.N ∧ t.K = first.K :=
  static_catalog_descending_power_of_two true (matmulEncoding noNarrowDim [])
    (riscv64Target false) [⟨7, 32, 1⟩, ⟨4, 32, 1⟩, ⟨2, 32, 1⟩, ⟨1, 32, 1⟩] rfl (by decide)
    (by decide)

/-! ## Claims about the arm64 and x86-64 catalogs -/

/-- For a target that is not VMVX and is arm64, and an encoding whose contraction
dimensions are inferred with at most one dimension of each kind, the dispatcher
returns what the arm64 enumerator returns. -/
theorem enumerateMatmulTileMxNxK_arm64 (ae : Bool) (encoding : EncodingAttr)
    (target : ExecutableTargetAttr) (cDims : ContractionDimensions)
    (hv : target.isVMVXBackend = false) (ha : target.isAArch64 = true)
    (hc : encoding.contractionDims = some cDims)
    (hb : cDims.batch.length ≤ 1) (hm : cDims.m.length ≤ 1) (hn : cDims.n.length ≤ 1)
    (hk : cDims.k.length ≤ 1) :
    enumerateMatmulTileMxNxK ae encoding target =
      enumerateMatmulTileArm64 ae encoding.elementTypes target := by
  have hguard : (decide (cDims.batch.length > 1) || decide (cDims.m.length > 1) ||
      decide (cDims.n.length > 1) || decide (cDims.k.length > 1)) = false := by
    simp; omega
  simp only [enumerateMatmulTileMxNxK, hc, hguard, hv, ha, Bool.false_eq_true, if_false,
    if_true]

/-- For a target that is neither VMVX nor arm64 and is x86-64, and an encoding whose
contraction dimensions are inferred with at most one dimension of each kind, the
dispatcher returns what the x86-64 enumerator returns. -/
theorem enumerateMatmulTileMxNxK_x86_64 (ae : Bool) (encoding : EncodingAttr)
    (target : ExecutableTargetAttr) (cDims : ContractionDimensions)
    (hv : target.isVMVXBackend = false) (ha : target.isAArch64 = false)
    (hx : target.isX86_64 = true)
    (hc : encoding.contractionDims = some cDims)
    (hb : cDims.batch.length ≤ 1) (hm : cDims.m.length ≤ 1) (hn : cDims.n.length ≤ 1)
    (hk : cDims.k.length ≤ 1) :
    enumerateMatmulTileMxNxK ae encoding target =
      enumerateMatmulTileX86_64 ae encoding.elementTypes target := by
  have hguard : (decide (cDims.batch.length > 1) || decide (cDims.m.length > 1) ||
      decide (cDims.n.length > 1) || decide (cDims.k.length > 1)) = false := by
    simp; omega
  simp only [enumerateMatmulTileMxNxK, hc, hguard, hv, ha, hx, Bool.false_eq_true, if_false,
    if_true]

/-- On an arm64 target without SVE and with three element types, the arm64 enumerator
returns the decision of lines 120-193. -/
theorem enumerateMatmulTileArm64_three (ae : Bool) (lhs rhs out : MlirType)
    (target : ExecutableTargetAttr) (h1 : target.hasFeature "+sve" = false)
    (h2 : target.hasFeature "+sve2" = false) :
    enumerateMatmulTileArm64 ae [lhs, rhs, out] target = .ok (arm64Tiles lhs rhs out target) := by
  cases ae <;> simp [enumerateMatmulTileArm64, h1, h2, readElementTypes]

/-- With three element types, the x86-64 enumerator returns the decision of lines
206-307. -/
theorem enumerateMatmulTileX86_64_three (ae : Bool) (lhs rhs out : MlirType)
    (target : ExecutableTargetAttr) :
    enumerateMatmulTileX86_64 ae [lhs, rhs, out] target =
      .ok (x86_64Tiles lhs rhs out target) := by
  cases ae <;> simp [enumerateMatmulTileX86_64, readElementTypes]

/-- On an arm64 target with SVE, every encoding gets the empty catalog. -/
theorem enumerateMatmulTileMxNxK_sve (ae : Bool) (encoding : EncodingAttr)
    (target : ExecutableTargetAttr)
    (hv : target.isVMVXBackend = false) (ha : target.isAArch64 = true)
    (hsve : target.hasFeature "+sve" = true ∨ target.hasFeature "+sve2" = true) :
    enumerateMatmulTileMxNxK ae encoding target = .ok [] := by
  have harm : ∀ types, enumerateMatmulTileArm64 ae types target = .ok [] := by
    intro types
    unfold enumerateMatmulTileArm64
    rcases hsve with h | h <;> simp [h]
  unfold enumerateMatmulTileMxNxK
  split
  · rfl
  · simp only [hv, ha, Bool.false_eq_true, if_false, if_true]
    split_ifs
    · rfl
    · exact harm _

/-- Claim C17. For an arm64 target (one the dispatcher does not take for VMVX) that has
+sve or +sve2: the arm64 enumerator returns the empty catalog for every list of
element types, whatever the other feature flags; the catalog of every encoding is
empty; and materializeEncodingForTarget returns failure for every tensor type. -/
theorem arm64_sve_catalog_empty {Info : Type} (ae : Bool) (target : ExecutableTargetAttr)
    (hv : target.isVMVXBackend = false) (ha : target.isAArch64 = true)
    (hsve : target.hasFeature "+sve" = true ∨ target.hasFeature "+sve2" = true) :
    (∀ elementTypes : List MlirType,
      enumerateMatmulTileArm64 ae elementTypes target = .ok []) ∧
    (∀ encoding : EncodingAttr, enumerateMatmulTileMxNxK ae encoding target = .ok []) ∧
    (∀ (getEncodingInfoForMatmul : EncodingAttr → TileMxNxK → Option Info)
        (dflt : TileMxNxK) (tensorType : RankedTensorType),
      materializeEncodingForTarget getEncodingInfoForMatmul ae dflt tensorType target =
        .ok none) := by
  refine ⟨?_, fun encoding => enumerateMatmulTileMxNxK_sve ae encoding target hv ha hsve, ?_⟩
  · intro types
    unfold enumerateMatmulTileArm64
    rcases hsve with h | h <;> simp [h]
  · intro getInfo dflt tensorType
    unfold materializeEncodingForTarget materializeEncodingForTargetWith
    cases tensorType.encoding with
    | none => rfl
    | some encoding =>
      simp [enumerateMatmulTileMxNxK_sve ae encoding target hv ha hsve]

/-- Claim C17, example: an arm64 target with +sve, +bf16, +i8mm and +dotprod gets the
empty catalog for bf16 x bf16 -> f32, and materialization fails. -/
theorem arm64_sve_catalog_empty_witness :
    ((∀ elementTypes : List MlirType,
        enumerateMatmulTileArm64 true elementTypes
          (arm64Target ["+sve", "+bf16", "+i8mm", "+dotprod"]) = .ok []) ∧
      (∀ encoding : EncodingAttr,
        enumerateMatmulTileMxNxK true encoding
          (arm64Target ["+sve", "+bf16", "+i8mm", "+dotprod"]) = .ok []) ∧
      (∀ (getEncodingInfoForMatmul : EncodingAttr → TileMxNxK → Option Unit)
          (dflt : TileMxNxK) (tensorType : RankedTensorType),
        materializeEncodingForTarget getEncodingInfoForMatmul true dflt tensorType
          (arm64Target ["+sve", "+bf16", "+i8mm", "+dotprod"]) = .ok none)) ∧
    enumerateMatmulTileMxNxK true (typedEncoding .BF16 .BF16 .F32)
      (arm64Target ["+bf16", "+i8mm", "+dotprod"]) =
        .ok [⟨8, 8, 4⟩, ⟨4, 8, 4⟩, ⟨2, 8, 4⟩, ⟨1, 8, 4⟩] :=
  ⟨arm64_sve_catalog_empty true (arm64Target ["+sve", "+bf16", "+i8mm", "+dotprod"]) rfl rfl
    (Or.inl rfl), rfl⟩

/-- Claim C18. For an arm64 target without SVE and element types i8 x i8 -> i32
(signless integers): with +i8mm the catalog is (8,8,8),(4,8,8),(2,8,8),(1,8,8), whether
or not +dotprod is present; with +dotprod and without +i8mm it is
(8,8,4),(4,8,4),(2,8,4),(1,8,4); with neither it is empty. This is the result of the
arm64 enumerator, and of the dispatcher for every encoding with these element types
whose contraction dimensions are inferred with at most one dimension of each kind. -/
theorem arm64_i8_i8_i32_catalog (ae : Bool) (target : ExecutableTargetAttr)
    (hv : target.isVMVXBackend = false) (ha : target.isAArch64 = true)
    (hs1 : target.hasFeature "+sve" = false) (hs2 : target.hasFeature "+sve2" = false) :
    (target.hasFeature "+i8mm" = true →
      enumerateMatmulTileArm64 ae
          [.Integer 8 .Signless, .Integer 8 .Signless, .Integer 32 .Signless] target =
        .ok [⟨8, 8, 8⟩, ⟨4, 8, 8⟩, ⟨2, 8, 8⟩, ⟨1, 8, 8⟩]) ∧
    (target.hasFeature "+i8mm" = false → target.hasFeature "+dotprod" = true →
      enumerateMatmulTileArm64 ae
          [.Integer 8 .Signless, .Integer 8 .Signless, .Integer 32 .Signless] target =
        .ok [⟨8, 8, 4⟩, ⟨4, 8, 4⟩, ⟨2, 8, 4⟩, ⟨1, 8, 4⟩]) ∧
    (target.hasFeature "+i8mm" = false → target.hasFeature "+dotprod" = false →
      enumerateMatmulTileArm64 ae
          [.Integer 8 .Signless, .Integer 8 .Signless, .Integer 32 .Signless] target =
        .ok []) ∧
    (∀ (encoding : EncodingAttr) (cDims : ContractionDimensions),
      encoding.contractionDims = some cDims →
      cDims.batch.length ≤ 1 → cDims.m.length ≤ 1 → cDims.n.length ≤ 1 →
      cDims.k.length ≤ 1 →
      encoding.elementTypes =
        [.Integer 8 .Signless, .Integer 8 .Signless, .Integer 32 .Signless] →
      enumerateMatmulTileMxNxK ae encoding target =
        enumerateMatmulTileArm64 ae
          [.Integer 8 .Signless, .Integer 8 .Signless, .Integer 32 .Signless] target) := by
  rw [enumerateMatmulTileArm64_three ae _ _ _ target hs1 hs2]
  refine ⟨?_, ?_, ?_, ?_⟩
  · intro h
    simp [arm64Tiles, MlirType.isF32, MlirType.isF16, MlirType.isBF16, MlirType.isFloat,
      MlirType.isSignlessInteger, h]
  · intro h1 h2
    simp [arm64Tiles, MlirType.isF32, MlirType.isF16, MlirType.isBF16, MlirType.isFloat,
      MlirType.isSignlessInteger, h1, h2]
  · intro h1 h2
    simp [arm64Tiles, MlirType.isF32, MlirType.isF16, MlirType.isBF16, MlirType.isFloat,
      MlirType.isSignlessInteger, h1, h2]
  · intro encoding cDims hc hb hm hn hk ht
    rw [enumerateMatmulTileMxNxK_arm64 ae encoding target cDims hv ha hc hb hm hn hk, ht,
      enumerateMatmulTileArm64_three ae _ _ _ target hs1 hs2]

/-- Claim C18, example: an arm64 target with +i8mm and +dotprod gets (8,8,8)..(1,8,8);
with +dotprod alone (8,8,4)..(1,8,4); with no feature the empty catalog. -/
theorem arm64_i8_i8_i32_catalog_witness :
    enumerateMatmulTileArm64 true
        [.Integer 8 .Signless, .Integer 8 .Signless, .Integer 32 .Signless]
        (arm64Target ["+i8mm", "+dotprod"]) =
      .ok [⟨8, 8, 8⟩, ⟨4, 8, 8⟩, ⟨2, 8, 8⟩, ⟨1, 8, 8⟩] ∧
    enumerateMatmulTileArm64 true
        [.Integer 8 .Signless, .Integer 8 .Signless, .Integer 32 .Signless]
        (arm64Target ["+dotprod"]) =
      .ok [⟨8, 8, 4⟩, ⟨4, 8, 4⟩, ⟨2, 8, 4⟩, ⟨1, 8, 4⟩] ∧
    enumerateMatmulTileArm64 true
        [.Integer 8 .Signless, .Integer 8 .Signless, .Integer 32 .Signless]
        (arm64Target []) = .ok [] :=
  ⟨(arm64_i8_i8_i32_catalog true (arm64Target ["+i8mm", "+dotprod"]) rfl rfl rfl rfl).1 rfl,
    (arm64_i8_i8_i32_catalog true (arm64Target ["+dotprod"]) rfl rfl rfl rfl).2.1 rfl rfl,
    (arm64_i8_i8_i32_catalog true (arm64Target []) rfl rfl rfl rfl).2.2.1 rfl rfl⟩

/-- Claim C19, amended. For an arm64 target without SVE, a left operand of type i8, a
right operand of the signless 4-bit integer type i4 and an i32 output: with +i8mm the
catalog is (4,8,16),(2,8,16),(1,8,16); otherwise with +dotprod it is
(8,8,8),(4,8,8),(2,8,8),(1,8,8); with neither feature it is (4,16,2),(2,16,2),(1,16,2).
This is the result of the arm64 enumerator, and of the dispatcher for every encoding
with these element types whose contraction dimensions are inferred with at most one
dimension of each kind. -/
theorem arm64_i8_i4_i32_catalog (ae : Bool) (target : ExecutableTargetAttr)
    (hv : target.isVMVXBackend = false) (ha : target.isAArch64 = true)
    (hs1 : target.hasFeature "+sve" = false) (hs2 : target.hasFeature "+sve2" = false) :
    (target.hasFeature "+i8mm" = true →
      enumerateMatmulTileArm64 ae
          [.Integer 8 .Signless, .Integer 4 .Signless, .Integer 32 .Signless] target =
        .ok [⟨4, 8, 16⟩, ⟨2, 8, 16⟩, ⟨1, 8, 16⟩]) ∧
    (target.hasFeature "+i8mm" = false → target.hasFeature "+dotprod" = true →
      enumerateMatmulTileArm64 ae
          [.Integer 8 .Signless, .Integer 4 .Signless, .Integer 32 .Signless] target =
        .ok [⟨8, 8, 8⟩, ⟨4, 8, 8⟩, ⟨2, 8, 8⟩, ⟨1, 8, 8⟩]) ∧
    (target.hasFeature "+i8mm" = false → target.hasFeature "+dotprod" = false →
      enumerateMatmulTileArm64 ae
          [.Integer 8 .Signless, .Integer 4 .Signless, .Integer 32 .Signless] target =
        .ok [⟨4, 16, 2⟩, ⟨2, 16, 2⟩, ⟨1, 16, 2⟩]) ∧
    (∀ (encoding : EncodingAttr) (cDims : ContractionDimensions),
      encoding.contractionDims = some cDims →
      cDims.batch.length ≤ 1 → cDims.m.length ≤ 1 → cDims.n.length ≤ 1 →
      cDims.k.length ≤ 1 →
      encoding.elementTypes =
        [.Integer 8 .Signless, .Integer 4 .Signless, .Integer 32 .Signless] →
      enumerateMatmulTileMxNxK ae encoding target =
        enumerateMatmulTileArm64 ae
          [.Integer 8 .Signless, .Integer 4 .Signless, .Integer 32 .Signless] target) := by
  rw [enumerateMatmulTileArm64_three ae _ _ _ target hs1 hs2]
  refine ⟨?_, ?_, ?_, ?_⟩
  · intro h
    simp [arm64Tiles, MlirType.isF32, MlirType.isF16, MlirType.isBF16, MlirType.isFloat,
      MlirType.isSignlessInteger, h]
  · intro h1 h2
    simp [arm64Tiles, MlirType.isF32, MlirType.isF16, MlirType.isBF16, MlirType.isFloat,
      MlirType.isSignlessInteger, h1, h2]
  · intro h1 h2
    simp [arm64Tiles, MlirType.isF32, MlirType.isF16, MlirType.isBF16, MlirType.isFloat,
      MlirType.isSignlessInteger, h1, h2]
  · intro encoding cDims hc hb hm hn hk ht
    rw [enumerateMatmulTileMxNxK_arm64 ae encoding target cDims hv ha hc hb hm hn hk, ht,
      enumerateMatmulTileArm64_three ae _ _ _ target hs1 hs2]

/-- Claim C19, example: i8 x i4 -> i32 on arm64 targets with +i8mm, with +dotprod and
with no feature. -/
theorem arm64_i8_i4_i32_catalog_witness :
    enumerateMatmulTileArm64 true
        [.Integer 8 .Signless, .Integer 4 .Signless, .Integer 32 .Signless]
        (arm64Target ["+i8mm"]) = .ok [⟨4, 8, 16⟩, ⟨2, 8, 16⟩, ⟨1, 8, 16⟩] ∧
    enumerateMatmulTileArm64 true
        [.Integer 8 .Signless, .Integer 4 .Signless, .Integer 32 .Signless]
        (arm64Target ["+dotprod"]) = .ok [⟨8, 8, 8⟩, ⟨4, 8, 8⟩, ⟨2, 8, 8⟩, ⟨1, 8, 8⟩] ∧
    enumerateMatmulTileArm64 true
        [.Integer 8 .Signless, .Integer 4 .Signless, .Integer 32 .Signless]
        (arm64Target []) = .ok [⟨4, 16, 2⟩, ⟨2, 16, 2⟩, ⟨1, 16, 2⟩] :=
  ⟨(arm64_i8_i4_i32_catalog true (arm64Target ["+i8mm"]) rfl rfl rfl rfl).1 rfl,
    (arm64_i8_i4_i32_catalog true (arm64Target ["+dotprod"]) rfl rfl rfl rfl).2.1 rfl rfl,
    (arm64_i8_i4_i32_catalog true (arm64Target []) rfl rfl rfl rfl).2.2.1 rfl rfl⟩

/-- Claim C19 as stated fails. With a right operand of the unsigned 4-bit integer type
ui4 the test of line 167, rhs.isSignlessInteger(4), is false and the arm64 enumerator
falls through to the empty catalog: for i8 x ui4 -> i32 an arm64 target without SVE
gets the empty catalog with +i8mm, with +dotprod and with neither, where the claim
expects (4,8,16).., (8,8,8).. and (4,16,2)... -/
theorem arm64_i8_ui4_i32_catalog_empty :
    enumerateMatmulTileMxNxK true
        (typedEncoding (.Integer 8 .Signless) (.Integer 4 .Unsigned) (.Integer 32 .Signless))
        (arm64Target ["+i8mm"]) = .ok [] ∧
    enumerateMatmulTileMxNxK true
        (typedEncoding (.Integer 8 .Signless) (.Integer 4 .Unsigned) (.Integer 32 .Signless))
        (arm64Target ["+dotprod"]) = .ok [] ∧
    enumerateMatmulTileMxNxK true
        (typedEncoding (.Integer 8 .Signless) (.Integer 4 .Unsigned) (.Integer 32 .Signless))
        (arm64Target []) = .ok [] ∧
    ∀ (ae : Bool) (target : ExecutableTargetAttr),
      target.hasFeature "+sve" = false → target.hasFeature "+sve2" = false →
      enumerateMatmulTileArm64 ae
        [.Integer 8 .Signless, .Integer 4 .Unsigned, .Integer 32 .Signless] target =
          .ok [] := by
  refine ⟨rfl, rfl, rfl, ?_⟩
  intro ae target hs1 hs2
  rw [enumerateMatmulTileArm64_three ae _ _ _ target hs1 hs2]
  simp [arm64Tiles, MlirType.isF32, MlirType.isF16, MlirType.isBF16, MlirType.isFloat,
    MlirType.isSignlessInteger]

/-- Claim C20, amended. For bf16 x bf16 operands and an output of type f32 or bf16: an
arm64 target without SVE that has +bf16 gets the catalog (8,8,4),(4,8,4),(2,8,4),(1,8,4),
and an x86-64 target that has +avx512bf16 gets the catalog
(16,16,2),(8,16,2),(4,16,2),(2,16,2),(1,16,2). These are the results of the arm64 and
x86-64 enumerators, and of the dispatcher for every encoding with these element types
whose contraction dimensions are inferred with at most one dimension of each kind. -/
theorem bf16_catalogs (ae : Bool) (out : MlirType) (hout : out = .F32 ∨ out = .BF16) :
    (∀ target : ExecutableTargetAttr,
      target.hasFeature "+sve" = false → target.hasFeature "+sve2" = false →
      target.hasFeature "+bf16" = true →
      enumerateMatmulTileArm64 ae [.BF16, .BF16, out] target =
        .ok [⟨8, 8, 4⟩, ⟨4, 8, 4⟩, ⟨2, 8, 4⟩, ⟨1, 8, 4⟩]) ∧
    (∀ target : ExecutableTargetAttr, target.hasFeature "+avx512bf16" = true →
      enumerateMatmulTileX86_64 ae [.BF16, .BF16, out] target =
        .ok [⟨16, 16, 2⟩, ⟨8, 16, 2⟩, ⟨4, 16, 2⟩, ⟨2, 16, 2⟩, ⟨1, 16, 2⟩]) ∧
    (∀ (target : ExecutableTargetAttr) (encoding : EncodingAttr)
        (cDims : ContractionDimensions),
      encoding.contractionDims = some cDims →
      cDims.batch.length ≤ 1 → cDims.m.length ≤ 1 → cDims.n.length ≤ 1 →
      cDims.k.length ≤ 1 →
      encoding.elementTypes = [.BF16, .BF16, out] →
      target.isVMVXBackend = false →
      (target.isAArch64 = true →
        enumerateMatmulTileMxNxK ae encoding target =
          enumerateMatmulTileArm64 ae [.BF16, .BF16, out] target) ∧
      (target.isAArch64 = false → target.isX86_64 = true →
        enumerateMatmulTileMxNxK ae encoding target =
          enumerateMatmulTileX86_64 ae [.BF16, .BF16, out] target)) := by
  refine ⟨?_, ?_, ?_⟩
  · intro target hs1 hs2 hbf
    rw [enumerateMatmulTileArm64_three ae _ _ _ target hs1 hs2]
    rcases hout with h | h <;> subst h <;>
      simp [arm64Tiles, MlirType.isF32, MlirType.isF16, MlirType.isBF16, hbf]
  · intro target hbf
    rw [enumerateMatmulTileX86_64_three ae _ _ _ target]
    rcases hout with h | h <;> subst h <;>
      simp [x86_64Tiles, MlirType.isF32, MlirType.isF16, MlirType.isBF16, hbf]
  · intro target encoding cDims hc hb hm hn hk ht hv
    refine ⟨?_, ?_⟩
    · intro ha
      rw [enumerateMatmulTileMxNxK_arm64 ae encoding target cDims hv ha hc hb hm hn hk, ht]
    · intro ha hx
      rw [enumerateMatmulTileMxNxK_x86_64 ae encoding target cDims hv ha hx hc hb hm hn hk, ht]

/-- Claim C20, example: bf16 x bf16 -> f32 on an arm64 target with +bf16 and on an
x86-64 target with +avx512bf16. -/
theorem bf16_catalogs_witness :
    enumerateMatmulTileArm64 true [.BF16, .BF16, .F32] (arm64Target ["+bf16"]) =
      .ok [⟨8, 8, 4⟩, ⟨4, 8, 4⟩, ⟨2, 8, 4⟩, ⟨1, 8, 4⟩] ∧
    enumerateMatmulTileX86_64 true [.BF16, .BF16, .F32] (x86_64Target ["+avx512bf16"]) =
      .ok [⟨16, 16, 2⟩, ⟨8, 16, 2⟩, ⟨4, 16, 2⟩, ⟨2, 16, 2⟩, ⟨1, 16, 2⟩] :=
  ⟨(bf16_catalogs true .F32 (Or.inl rfl)).1 (arm64Target ["+bf16"]) rfl rfl rfl,
    (bf16_catalogs true .F32 (Or.inl rfl)).2.1 (x86_64Target ["+avx512bf16"]) rfl⟩

/-- Claim C20 as stated fails for an f16 output. The bf16 rows also test
out.isBF16() || out.isF32() (lines 121 and 207), so bf16 x bf16 -> f16 takes the
generic floating-point rows: an arm64 target with +bf16 gets (8,8,1)..(1,8,1), and an
x86-64 target with +avx512bf16 gets (16,16,1)..(1,16,1) when it also has +avx512f and
the baseline (8,4,1)..(1,4,1) when it has no other feature. -/
theorem bf16_f16_output_takes_float_row :
    enumerateMatmulTileMxNxK true (typedEncoding .BF16 .BF16 .F16) (arm64Target ["+bf16"]) =
      .ok [⟨8, 8, 1⟩, ⟨4, 8, 1⟩, ⟨2, 8, 1⟩, ⟨1, 8, 1⟩] ∧
    enumerateMatmulTileMxNxK true (typedEncoding .BF16 .BF16 .F16)
        (x86_64Target ["+avx512bf16", "+avx512f"]) =
      .ok [⟨16, 16, 1⟩, ⟨8, 16, 1⟩, ⟨4, 16, 1⟩, ⟨2, 16, 1⟩, ⟨1, 16, 1⟩] ∧
    enumerateMatmulTileMxNxK true (typedEncoding .BF16 .BF16 .F16)
        (x86_64Target ["+avx512bf16"]) =
      .ok [⟨8, 4, 1⟩, ⟨4, 4, 1⟩, ⟨2, 4, 1⟩, ⟨1, 4, 1⟩] :=
  ⟨rfl, rfl, rfl⟩

/-! ## The riscv64 microkernel: closed form of the tile function -/

/-- After `j` iterations of the vector loop body with 8 lanes, the pointers have
advanced by `M0 * j` and `8 * j`, and lane `n` of accumulator `m` holds the `j` multiply-adds
in ascending order of `k`. -/
theorem iterate_loopBodyVector {F : Type} (ops : F32Ops F) (unspec : Nat → F) (M0 : Nat)
    (hM0 : M0 ≤ 8) (lhs rhs : Nat → F) (s0 : TileLoopState F) (j : Nat) :
    (Nat.iterate (loopBodyVector ops 8 unspec M0 lhs rhs) j s0).lhs_ptr =
        s0.lhs_ptr + M0 * j ∧
      (Nat.iterate (loopBodyVector ops 8 unspec M0 lhs rhs) j s0).rhs_ptr =
        s0.rhs_ptr + 8 * j ∧
      ∀ m < M0, ∀ n < 8,
        (Nat.iterate (loopBodyVector ops 8 unspec M0 lhs rhs) j s0).acc m n =
          (List.range j).foldl
            (fun acc k => ops.fmacc acc (lhs (s0.lhs_ptr + M0 * k + m))
              (rhs (s0.rhs_ptr + 8 * k + n)))
            (s0.acc m n) := by
  induction j with
  | zero => simp
  | succ j ih =>
    obtain ⟨h1, h2, h3⟩ := ih
    rw [Function.iterate_succ_apply']
    refine ⟨?_, ?_, ?_⟩
    · simp only [loopBodyVector, h1]; ring
    · simp only [loopBodyVector, h2]; ring
    · intro m hm n hn
      have hm8 : m < 8 := lt_of_lt_of_le hm hM0
      rw [List.range_succ, List.foldl_append, ← h3 m hm n hn]
      simp only [loopBodyVector, __riscv_vfmacc_vf_f32m1, __riscv_vle32_v_f32m1,
        extract_element_from_vfloat32m1_t, __riscv_vfmv_f_s_f32m1_f32,
        __riscv_vslidedown_vx_f32m1, h1, h2, List.foldl_cons, List.foldl_nil]
      have e1 : min M0 8 = M0 := min_eq_left hM0
      simp [__riscv_vfmacc_vf_f32m1, __riscv_vle32_v_f32m1, hm, hn, hm8, e1]

/-- After `j` iterations of the scalar loop body with 8 lanes, the pointers have
advanced by `j` and `8 * j`, and lane `n` of `acc0` holds the `j` multiply-adds in
ascending order of `k`. -/
theorem iterate_loopBodyScalar {F : Type} (ops : F32Ops F) (unspec : Nat → F)
    (lhs rhs : Nat → F) (s0 : TileLoopState F) (j : Nat) :
    (Nat.iterate (loopBodyScalar ops 8 unspec lhs rhs) j s0).lhs_ptr = s0.lhs_ptr + j ∧
      (Nat.iterate (loopBodyScalar ops 8 unspec lhs rhs) j s0).rhs_ptr =
        s0.rhs_ptr + 8 * j ∧
      ∀ n < 8,
        (Nat.iterate (loopBodyScalar ops 8 unspec lhs rhs) j s0).acc 0 n =
          (List.range j).foldl
            (fun acc k => ops.fmacc acc (lhs (s0.lhs_ptr + k)) (rhs (s0.rhs_ptr + 8 * k + n)))
            (s0.acc 0 n) := by
  induction j with
  | zero => simp
  | succ j ih =>
    obtain ⟨h1, h2, h3⟩ := ih
    rw [Function.iterate_succ_apply']
    refine ⟨?_, ?_, ?_⟩
    · simp only [loopBodyScalar, h1]; ring
    · simp only [loopBodyScalar, h2]; ring
    · intro n hn
      rw [List.range_succ, List.foldl_append, ← h3 n hn]
      simp only [loopBodyScalar, __riscv_vfmacc_vf_f32m1, __riscv_vle32_v_f32m1, h1, h2,
        List.foldl_cons, List.foldl_nil]
      simp [__riscv_vfmacc_vf_f32m1, __riscv_vle32_v_f32m1, hn]

/-- The stores of a block with 8 lanes write `acc`m lane `n` to element `8 * m + n`
for `m < M0` and leave every other element as it was. -/
theorem storeAccumulators_apply {F : Type} (M0 : Nat) (acc : Nat → Nat → F)
    (out : Nat → F) (j : Nat) :
    storeAccumulators 8 M0 acc out j = if j < 8 * M0 then acc (j / 8) (j % 8) else out j := by
  unfold storeAccumulators
  induction M0 with
  | zero => simp
  | succ M0 ih =>
    rw [List.range_succ, List.foldl_append]
    simp only [List.foldl_cons, List.foldl_nil, __riscv_vse32_v_f32m1, Nat.min_self]
    by_cases h1 : 8 * M0 ≤ j ∧ j < 8 * M0 + 8
    · rw [if_pos h1, if_pos (by omega)]
      have e1 : j / 8 = M0 := by omega
      have e2 : j % 8 = j - 8 * M0 := by omega
      rw [e1, e2]
    · rw [if_neg h1, ih]
      by_cases h2 : j < 8 * M0
      · rw [if_pos h2, if_pos (by omega)]
      · rw [if_neg h2, if_neg (by omega)]

/-- The out tile after a vector block with 8 lanes. -/
theorem tileBlock_vector_apply {F : Type} (ops : F32Ops F) (unspec : Nat → F) (M0 : Nat)
    (hM0 : M0 ≤ 8) (lhs rhs : Nat → F) (accumulate : Bool) (K : Nat) (out : Nat → F)
    (j : Nat) :
    tileBlock ops 8 unspec M0 (loopBodyVector ops 8 unspec M0 lhs rhs) accumulate K out j =
      if j < 8 * M0 then
        (List.range K).foldl
          (fun acc k => ops.fmacc acc (lhs (M0 * k + j / 8)) (rhs (8 * k + j % 8)))
          (if accumulate then out j else ops.zero)
      else out j := by
  unfold tileBlock
  simp only [storeAccumulators_apply]
  by_cases hj : j < 8 * M0
  · rw [if_pos hj, if_pos hj]
    have hm : j / 8 < M0 := by omega
    have hn : j % 8 < 8 := by omega
    have hdm : 8 * (j / 8) + j % 8 = j := Nat.div_add_mod j 8
    rw [(iterate_loopBodyVector ops unspec M0 hM0 lhs rhs _ K).2.2 (j / 8) hm (j % 8) hn]
    simp only [Nat.zero_add]
    congr 1
    cases accumulate <;>
      simp [initAccumulators, __riscv_vle32_v_f32m1, __riscv_vfmv_v_f_f32m1, hm, hn, hdm]
  · rw [if_neg hj, if_neg hj]

/-- The out tile after the scalar block with 8 lanes. -/
theorem tileBlock_scalar_apply {F : Type} (ops : F32Ops F) (unspec : Nat → F)
    (lhs rhs : Nat → F) (accumulate : Bool) (K : Nat) (out : Nat → F) (j : Nat) :
    tileBlock ops 8 unspec 1 (loopBodyScalar ops 8 unspec lhs rhs) accumulate K out j =
      if j < 8 * 1 then
        (List.range K).foldl
          (fun acc k => ops.fmacc acc (lhs (1 * k + j / 8)) (rhs (8 * k + j % 8)))
          (if accumulate then out j else ops.zero)
      else out j := by
  unfold tileBlock
  simp only [storeAccumulators_apply]
  by_cases hj : j < 8 * 1
  · rw [if_pos hj, if_pos hj]
    have hm : j / 8 = 0 := by omega
    have hn : j % 8 = j := by omega
    have hj8 : j < 8 := by omega
    rw [hm, hn, (iterate_loopBodyScalar ops unspec lhs rhs _ K).2.2 j hj8]
    simp only [Nat.zero_add, Nat.one_mul, Nat.add_zero]
    congr 1
    cases accumulate <;>
      simp [initAccumulators, __riscv_vle32_v_f32m1, __riscv_vfmv_v_f_f32m1, hj8]
  · rw [if_neg hj, if_neg hj]

/-- The out tile after a call of the tile function with 8 lanes and `M0` in 1, 2, 4,
8: element `j < 8 * M0`, in row `j / 8` and column `j % 8`, holds the `K`
multiply-adds in ascending order of `k`, started from its previous value under the
accumulate flag and from zero otherwise; every other element is as before. -/
theorem tile_closed_form {F : Type} (ops : F32Ops F) (ae : Bool) (unspec : Nat → F)
    (out lhs rhs : Nat → F) (accumulate : Bool) (K M0 : Nat)
    (hM0 : M0 = 1 ∨ M0 = 2 ∨ M0 = 4 ∨ M0 = 8) :
    iree_uk_mmt4d_tile_f32f32f32_1x8x1_to_8x8x1_riscv_64 ops ae 8 unspec out lhs rhs
        accumulate K M0 =
      .ok (fun j =>
        if j < 8 * M0 then
          (List.range K).foldl
            (fun acc k => ops.fmacc acc (lhs (M0 * k + j / 8)) (rhs (8 * k + j % 8)))
            (if accumulate then out j else ops.zero)
        else out j) := by
  rcases hM0 with h | h | h | h <;> subst h
  · have ha : (ae && !(decide (1 ≥ 1) && decide (1 ≤ 8) && iree_uk_is_po2_u32 1)) = false := by
      cases ae <;> decide
    simp only [iree_uk_mmt4d_tile_f32f32f32_1x8x1_to_8x8x1_riscv_64, ha]
    simp only [Bool.false_eq_true, if_false, if_true,
      (by decide : (1 : Nat) ≠ 2), (by decide : (1 : Nat) ≠ 4), (by decide : (1 : Nat) ≠ 8)]
    congr 1
    funext j
    exact tileBlock_scalar_apply ops unspec lhs rhs accumulate K out j
  · have ha : (ae && !(decide (2 ≥ 1) && decide (2 ≤ 8) && iree_uk_is_po2_u32 2)) = false := by
      cases ae <;> decide
    simp only [iree_uk_mmt4d_tile_f32f32f32_1x8x1_to_8x8x1_riscv_64, ha]
    simp only [Bool.false_eq_true, if_false, if_true,
      (by decide : (2 : Nat) ≠ 1), (by decide : (2 : Nat) ≠ 4), (by decide : (2 : Nat) ≠ 8)]
    congr 1
    funext j
    exact tileBlock_vector_apply ops unspec 2 (by decide) lhs rhs accumulate K out j
  · have ha : (ae && !(decide (4 ≥ 1) && decide (4 ≤ 8) && iree_uk_is_po2_u32 4)) = false := by
      cases ae <;> decide
    simp only [iree_uk_mmt4d_tile_f32f32f32_1x8x1_to_8x8x1_riscv_64, ha]
    simp only [Bool.false_eq_true, if_false, if_true,
      (by decide : (4 : Nat) ≠ 1), (by decide : (4 : Nat) ≠ 2), (by decide : (4 : Nat) ≠ 8)]
    congr 1
    funext j
    exact tileBlock_vector_apply ops unspec 4 (by decide) lhs rhs accumulate K out j
  · have ha : (ae && !(decide (8 ≥ 1) && decide (8 ≤ 8) && iree_uk_is_po2_u32 8)) = false := by
      cases ae <;> decide
    simp only [iree_uk_mmt4d_tile_f32f32f32_1x8x1_to_8x8x1_riscv_64, ha]
    simp only [Bool.false_eq_true, if_false, if_true,
      (by decide : (8 : Nat) ≠ 1), (by decide : (8 : Nat) ≠ 2), (by decide : (8 : Nat) ≠ 4)]
    congr 1
    funext j
    exact tileBlock_vector_apply ops unspec 8 (by decide) lhs rhs accumulate K out j

/-! ## Claims about the riscv64 microkernel -/

/-- Two folds over `0 .. K-1` agree when their steps agree below `K`. -/
theorem foldl_range_congr {α : Type} (f g : α → Nat → α) (init : α) (K : Nat)
    (h : ∀ k < K, ∀ a, f a k = g a k) :
    (List.range K).foldl f init = (List.range K).foldl g init := by
  induction K with
  | zero => rfl
  | succ K ih =>
    rw [List.range_succ, List.foldl_append, List.foldl_append,
      ih (fun k hk a => h k (Nat.lt_succ_of_lt hk) a)]
    simp only [List.foldl_cons, List.foldl_nil]
    exact h K (Nat.lt_succ_self K) _

/-- Claim C14, amended. For the riscv64 family the microkernel tile functions of
mmt4d_riscv_64_base.c implement the shapes (1,8,1),(2,8,1),(4,8,1),(8,8,1), and
enumerateMatmulTileRiscv64 advertises (7,32,1),(4,32,1),(2,32,1),(1,32,1) for every target. Every shape on either side has
K = 1, but N is 32 in every advertised shape and 8 in every implemented one: no
advertised shape has a microkernel of exactly that M, N and K, and no implemented
shape is advertised. -/
theorem riscv64_implemented_and_advertised_shapes (target : ExecutableTargetAttr) :
    implementedTileShapes = [⟨1, 8, 1⟩, ⟨2, 8, 1⟩, ⟨4, 8, 1⟩, ⟨8, 8, 1⟩] ∧
    enumerateMatmulTileRiscv64 target = [⟨7, 32, 1⟩, ⟨4, 32, 1⟩, ⟨2, 32, 1⟩, ⟨1, 32, 1⟩] ∧
    (∀ t ∈ enumerateMatmulTileRiscv64 target, t.N = 32 ∧ t.K = 1) ∧
    (∀ t ∈ implementedTileShapes, t.N = 8 ∧ t.K = 1) ∧
    (∀ t ∈ enumerateMatmulTileRiscv64 target, t ∉ implementedTileShapes) ∧
    (∀ t ∈ implementedTileShapes, t ∉ enumerateMatmulTileRiscv64 target) := by
  refine ⟨by decide, rfl, ?_, by decide, ?_, ?_⟩
  · unfold enumerateMatmulTileRiscv64; decide
  · unfold enumerateMatmulTileRiscv64; decide
  · unfold enumerateMatmulTileRiscv64; decide

/-- Claim C14 as stated fails. The advertised shape (7,32,1) has no microkernel among
the tile functions of mmt4d_riscv_64_base.c, the implemented shape (8,8,1) is not
advertised, and so the two sets of shapes are not equal. -/
theorem riscv64_shapes_differ :
    (⟨7, 32, 1⟩ : TileMxNxK) ∈ enumerateMatmulTileRiscv64 (riscv64Target true) ∧
    (⟨7, 32, 1⟩ : TileMxNxK) ∉ implementedTileShapes ∧
    (⟨8, 8, 1⟩ : TileMxNxK) ∈ implementedTileShapes ∧
    (⟨8, 8, 1⟩ : TileMxNxK) ∉ enumerateMatmulTileRiscv64 (riscv64Target true) ∧
    ¬ (∀ t : TileMxNxK,
        t ∈ enumerateMatmulTileRiscv64 (riscv64Target true) ↔ t ∈ implementedTileShapes) := by
  have h1 : (⟨7, 32, 1⟩ : TileMxNxK) ∈ enumerateMatmulTileRiscv64 (riscv64Target true) := by
    decide
  have h2 : (⟨7, 32, 1⟩ : TileMxNxK) ∉ implementedTileShapes := by decide
  refine ⟨h1, h2, by decide, by decide, ?_⟩
  intro h
  exact h2 ((h _).mp h1)

/-- Claim C15. With 8 f32 lanes (vlmax = 8), for every M0 in 1, 2, 4, 8, every K, either
value of the accumulate flag and arbitrary operand values, the tile function returns,
and in the out tile after the call the element out[8*m+n], for m < M0 and n < 8, is the
value obtained from the previous out[8*m+n] under the accumulate flag, and from 0
otherwise, by the multiply-adds acc := acc + lhs[M0*k+m] * rhs[8*k+n] for
k = 0, 1, .., K-1 in this order; for K = 0 it is the previous element under
accumulate and 0 otherwise. The f32 operations are uninterpreted, so the statement is
about the operations applied and their order. -/
theorem tile_computes_ordered_multiply_adds {F : Type} (ops : F32Ops F) (ae : Bool)
    (unspec : Nat → F) (out lhs rhs : Nat → F) (accumulate : Bool) (K M0 : Nat)
    (hM0 : M0 = 1 ∨ M0 = 2 ∨ M0 = 4 ∨ M0 = 8) :
    ∃ out2 : Nat → F,
      iree_uk_mmt4d_tile_f32f32f32_1x8x1_to_8x8x1_riscv_64 ops ae 8 unspec out lhs rhs
        accumulate K M0 = .ok out2 ∧
      (∀ m < M0, ∀ n < 8,
        out2 (8 * m + n) =
          (List.range K).foldl
            (fun acc k => ops.fmacc acc (lhs (M0 * k + m)) (rhs (8 * k + n)))
            (if accumulate then out (8 * m + n) else ops.zero)) ∧
      (K = 0 → ∀ m < M0, ∀ n < 8,
        out2 (8 * m + n) = if accumulate then out (8 * m + n) else ops.zero) := by
  have hmain : ∀ m < M0, ∀ n < 8,
      (if 8 * m + n < 8 * M0 then
          (List.range K).foldl
            (fun acc k => ops.fmacc acc (lhs (M0 * k + (8 * m + n) / 8))
              (rhs (8 * k + (8 * m + n) % 8)))
            (if accumulate then out (8 * m + n) else ops.zero)
        else out (8 * m + n)) =
        (List.range K).foldl
          (fun acc k => ops.fmacc acc (lhs (M0 * k + m)) (rhs (8 * k + n)))
          (if accumulate then out (8 * m + n) else ops.zero) := by
    intro m hm n hn
    have e1 : (8 * m + n) / 8 = m := by omega
    have e2 : (8 * m + n) % 8 = n := by omega
    rw [if_pos (by omega), e1, e2]
  refine ⟨_, tile_closed_form ops ae unspec out lhs rhs accumulate K M0 hM0, hmain, ?_⟩
  intro hK m hm n hn
  have := hmain m hm n hn
  simp only at this ⊢
  rw [this, hK]
  rfl

/-- Claim C15, example with integers for floats: M0 = 2, K = 2, accumulate set,
out[j] = 1000 + j, lhs[j] = j + 1, rhs[j] = 10 (j + 1). The element out[9], row 1 and
column 1, becomes (1009 + 2 * 20) + 4 * 100 = 1449. -/
theorem tile_computes_ordered_multiply_adds_witness :
    ∃ out2 : Nat → Int,
      iree_uk_mmt4d_tile_f32f32f32_1x8x1_to_8x8x1_riscv_64 intOps true 8 (fun _ => 0)
        (fun j => 1000 + (j : Int)) (fun j => (j : Int) + 1) (fun j => 10 * ((j : Int) + 1))
        true 2 2 = .ok out2 ∧
      out2 9 = 1449 := by
  obtain ⟨out2, h1, h2, _⟩ := tile_computes_ordered_multiply_adds intOps true (fun _ => 0)
    (fun j => 1000 + (j : Int)) (fun j => (j : Int) + 1) (fun j => 10 * ((j : Int) + 1))
    true 2 2 (Or.inr (Or.inl rfl))
  refine ⟨out2, h1, ?_⟩
  have h := h2 1 (by decide) 1 (by decide)
  rw [show (9 : Nat) = 8 * 1 + 1 from rfl, h]
  decide

/-- Claim C21. For an x86-64 target, an output of type f32, f16 or bf16 and two
floating-point operands that do not take the bf16 row (the row of bf16 x bf16 with a
bf16 or f32 output on a target with +avx512bf16): the catalog is
(16,16,1),(8,16,1),(4,16,1),(2,16,1),(1,16,1) with +avx512f, whatever else is present;
otherwise (8,8,1),(4,8,1),(2,8,1),(1,8,1) with +avx; otherwise the baseline
(8,4,1),(4,4,1),(2,4,1),(1,4,1); it is never empty. This is the result of the x86-64
enumerator, and of the dispatcher for every encoding with these element types whose
contraction dimensions are inferred with at most one dimension of each kind. -/
theorem x86_64_float_catalog (ae : Bool) (target : ExecutableTargetAttr)
    (lhs rhs out : MlirType)
    (hout : out = .F32 ∨ out = .F16 ∨ out = .BF16)
    (hl : lhs.isFloat = true) (hr : rhs.isFloat = true)
    (hrow : ¬ (lhs = .BF16 ∧ rhs = .BF16 ∧ (out = .BF16 ∨ out = .F32) ∧
      target.hasFeature "+avx512bf16" = true)) :
    (target.hasFeature "+avx512f" = true →
      enumerateMatmulTileX86_64 ae [lhs, rhs, out] target =
        .ok [⟨16, 16, 1⟩, ⟨8, 16, 1⟩, ⟨4, 16, 1⟩, ⟨2, 16, 1⟩, ⟨1, 16, 1⟩]) ∧
    (target.hasFeature "+avx512f" = false → target.hasFeature "+avx" = true →
      enumerateMatmulTileX86_64 ae [lhs, rhs, out] target =
        .ok [⟨8, 8, 1⟩, ⟨4, 8, 1⟩, ⟨2, 8, 1⟩, ⟨1, 8, 1⟩]) ∧
    (target.hasFeature "+avx512f" = false → target.hasFeature "+avx" = false →
      enumerateMatmulTileX86_64 ae [lhs, rhs, out] target =
        .ok [⟨8, 4, 1⟩, ⟨4, 4, 1⟩, ⟨2, 4, 1⟩, ⟨1, 4, 1⟩]) ∧
    (∃ cat, enumerateMatmulTileX86_64 ae [lhs, rhs, out] target = .ok cat ∧ cat ≠ []) ∧
    (∀ (encoding : EncodingAttr) (cDims : ContractionDimensions),
      encoding.contractionDims = some cDims →
      cDims.batch.length ≤ 1 → cDims.m.length ≤ 1 → cDims.n.length ≤ 1 →
      cDims.k.length ≤ 1 →
      encoding.elementTypes = [lhs, rhs, out] →
      target.isVMVXBackend = false → target.isAArch64 = false → target.isX86_64 = true →
      enumerateMatmulTileMxNxK ae encoding target =
        enumerateMatmulTileX86_64 ae [lhs, rhs, out] target) := by
  have hfirst : ((out.isF32 || out.isF16 || out.isBF16) &&
      (lhs.isBF16 && rhs.isBF16 && (out.isBF16 || out.isF32)) &&
      target.hasFeature "+avx512bf16") = false := by
    by_contra hcon
    apply hrow
    simp only [Bool.not_eq_false, Bool.and_eq_true, Bool.or_eq_true, MlirType.isBF16,
      MlirType.isF32, MlirType.isF16, beq_iff_eq] at hcon
    exact ⟨hcon.1.2.1.1, hcon.1.2.1.2, hcon.1.2.2, hcon.2⟩
  have hsecond : ((out.isF32 || out.isF16 || out.isBF16) && (lhs.isFloat && rhs.isFloat)) =
      true := by
    rcases hout with h | h | h <;> subst h <;> simp [MlirType.isF32, MlirType.isF16,
      MlirType.isBF16, hl, hr]
  have htiles : x86_64Tiles lhs rhs out target =
      if target.hasFeature "+avx512f" then
        [⟨16, 16, 1⟩, ⟨8, 16, 1⟩, ⟨4, 16, 1⟩, ⟨2, 16, 1⟩, ⟨1, 16, 1⟩]
      else if target.hasFeature "+avx" then [⟨8, 8, 1⟩, ⟨4, 8, 1⟩, ⟨2, 8, 1⟩, ⟨1, 8, 1⟩]
      else [⟨8, 4, 1⟩, ⟨4, 4, 1⟩, ⟨2, 4, 1⟩, ⟨1, 4, 1⟩] := by
    unfold x86_64Tiles
    rw [hfirst, hsecond]
    simp only [Bool.false_eq_true, if_false, if_true]
  rw [enumerateMatmulTileX86_64_three ae _ _ _ target, htiles]
  refine ⟨?_, ?_, ?_, ?_, ?_⟩
  · intro h; simp [h]
  · intro h1 h2; simp [h1, h2]
  · intro h1 h2; simp [h1, h2]
  · split_ifs <;> exact ⟨_, rfl, by simp⟩
  · intro encoding cDims hc hb hm hn hk ht hv ha hx
    rw [enumerateMatmulTileMxNxK_x86_64 ae encoding target cDims hv ha hx hc hb hm hn hk, ht,
      enumerateMatmulTileX86_64_three ae _ _ _ target, htiles]

/-- Claim C21, example: f32 x f32 -> f32 on x86-64 targets with +avx512f and +avx, with
+avx alone and with no feature; and bf16 x bf16 -> f32 on a target with +avx512f and
without +avx512bf16. -/
theorem x86_64_float_catalog_witness :
    enumerateMatmulTileX86_64 true [.F32, .F32, .F32] (x86_64Target ["+avx512f", "+avx"]) =
      .ok [⟨16, 16, 1⟩, ⟨8, 16, 1⟩, ⟨4, 16, 1⟩, ⟨2, 16, 1⟩, ⟨1, 16, 1⟩] ∧
    enumerateMatmulTileX86_64 true [.F32, .F32, .F32] (x86_64Target ["+avx"]) =
      .ok [⟨8, 8, 1⟩, ⟨4, 8, 1⟩, ⟨2, 8, 1⟩, ⟨1, 8, 1⟩] ∧
    enumerateMatmulTileX86_64 true [.F32, .F32, .F32] (x86_64Target []) =
      .ok [⟨8, 4, 1⟩, ⟨4, 4, 1⟩, ⟨2, 4, 1⟩, ⟨1, 4, 1⟩] ∧
    enumerateMatmulTileX86_64 true [.BF16, .BF16, .F32] (x86_64Target ["+avx512f"]) =
      .ok [⟨16, 16, 1⟩, ⟨8, 16, 1⟩, ⟨4, 16, 1⟩, ⟨2, 16, 1⟩, ⟨1, 16, 1⟩] :=
  ⟨(x86_64_float_catalog true (x86_64Target ["+avx512f", "+avx"]) .F32 .F32 .F32
      (Or.inl rfl) rfl rfl (by decide)).1 rfl,
    (x86_64_float_catalog true (x86_64Target ["+avx"]) .F32 .F32 .F32
      (Or.inl rfl) rfl rfl (by decide)).2.1 rfl rfl,
    (x86_64_float_catalog true (x86_64Target []) .F32 .F32 .F32
      (Or.inl rfl) rfl rfl (by decide)).2.2.1 rfl rfl,
    (x86_64_float_catalog true (x86_64Target ["+avx512f"]) .BF16 .BF16 .F32
      (Or.inl rfl) rfl rfl (by simp [x86_64Target])).1 rfl⟩

/-- Claim C22. For an x86-64 target with an i32 output and operands i8 x i8 or
i16 x i16 (signless integers): the catalog is
(16,16,2),(8,16,2),(4,16,2),(2,16,2),(1,16,2) with +avx512vnni or +avx512bw; otherwise
(8,8,2),(4,8,2),(2,8,2),(1,8,2) with +avx2; otherwise the baseline
(8,4,2),(4,4,2),(2,4,2),(1,4,2). A mixed pair i8 x i16 or i16 x i8 does not take these
rows: its catalog is empty, whatever the features. This is the result of the x86-64
enumerator, and of the dispatcher for every encoding with these element types whose
contraction dimensions are inferred with at most one dimension of each kind. -/
theorem x86_64_int_catalog (ae : Bool) (target : ExecutableTargetAttr) (operand : MlirType)
    (hop : operand = .Integer 8 .Signless ∨ operand = .Integer 16 .Signless) :
    ((target.hasFeature "+avx512vnni" = true ∨ target.hasFeature "+avx512bw" = true) →
      enumerateMatmulTileX86_64 ae [operand, operand, .Integer 32 .Signless] target =
        .ok [⟨16, 16, 2⟩, ⟨8, 16, 2⟩, ⟨4, 16, 2⟩, ⟨2, 16, 2⟩, ⟨1, 16, 2⟩]) ∧
    (target.hasFeature "+avx512vnni" = false → target.hasFeature "+avx512bw" = false →
      target.hasFeature "+avx2" = true →
      enumerateMatmulTileX86_64 ae [operand, operand, .Integer 32 .Signless] target =
        .ok [⟨8, 8, 2⟩, ⟨4, 8, 2⟩, ⟨2, 8, 2⟩, ⟨1, 8, 2⟩]) ∧
    (target.hasFeature "+avx512vnni" = false → target.hasFeature "+avx512bw" = false →
      target.hasFeature "+avx2" = false →
      enumerateMatmulTileX86_64 ae [operand, operand, .Integer 32 .Signless] target =
        .ok [⟨8, 4, 2⟩, ⟨4, 4, 2⟩, ⟨2, 4, 2⟩, ⟨1, 4, 2⟩]) ∧
    enumerateMatmulTileX86_64 ae
        [.Integer 8 .Signless, .Integer 16 .Signless, .Integer 32 .Signless] target = .ok [] ∧
    enumerateMatmulTileX86_64 ae
        [.Integer 16 .Signless, .Integer 8 .Signless, .Integer 32 .Signless] target = .ok [] ∧
    (∀ (encoding : EncodingAttr) (cDims : ContractionDimensions) (lhs rhs : MlirType),
      encoding.contractionDims = some cDims →
      cDims.batch.length ≤ 1 → cDims.m.length ≤ 1 → cDims.n.length ≤ 1 →
      cDims.k.length ≤ 1 →
      encoding.elementTypes = [lhs, rhs, .Integer 32 .Signless] →
      target.isVMVXBackend = false → target.isAArch64 = false → target.isX86_64 = true →
      enumerateMatmulTileMxNxK ae encoding target =
        enumerateMatmulTileX86_64 ae [lhs, rhs, .Integer 32 .Signless] target) := by
  have htiles : x86_64Tiles operand operand (.Integer 32 .Signless) target =
      if target.hasFeature "+avx512vnni" then
        [⟨16, 16, 2⟩, ⟨8, 16, 2⟩, ⟨4, 16, 2⟩, ⟨2, 16, 2⟩, ⟨1, 16, 2⟩]
      else if target.hasFeature "+avx512bw" then
        [⟨16, 16, 2⟩, ⟨8, 16, 2⟩, ⟨4, 16, 2⟩, ⟨2, 16, 2⟩, ⟨1, 16, 2⟩]
      else if target.hasFeature "+avx2" then [⟨8, 8, 2⟩, ⟨4, 8, 2⟩, ⟨2, 8, 2⟩, ⟨1, 8, 2⟩]
      else [⟨8, 4, 2⟩, ⟨4, 4, 2⟩, ⟨2, 4, 2⟩, ⟨1, 4, 2⟩] := by
    rcases hop with h | h <;> subst h <;>
      simp [x86_64Tiles, MlirType.isF32, MlirType.isF16, MlirType.isBF16, MlirType.isFloat,
        MlirType.isSignlessInteger]
  simp only [enumerateMatmulTileX86_64_three ae _ _ _ target, htiles]
  refine ⟨?_, ?_, ?_, ?_, ?_, ?_⟩
  · intro h
    rcases h with h | h
    · simp [h]
    · split_ifs <;> rfl
  · intro h1 h2 h3; simp [h1, h2, h3]
  · intro h1 h2 h3; simp [h1, h2, h3]
  · simp [x86_64Tiles, MlirType.isF32, MlirType.isF16, MlirType.isBF16, MlirType.isFloat,
      MlirType.isSignlessInteger, MlirType.isUnsignedInteger]
  · simp [x86_64Tiles, MlirType.isF32, MlirType.isF16, MlirType.isBF16, MlirType.isFloat,
      MlirType.isSignlessInteger, MlirType.isUnsignedInteger]
  · intro encoding cDims lhs rhs hc hb hm hn hk ht hv ha hx
    rw [enumerateMatmulTileMxNxK_x86_64 ae encoding target cDims hv ha hx hc hb hm hn hk, ht,
      enumerateMatmulTileX86_64_three ae _ _ _ target]

/-- Claim C22, example: i8 x i8 -> i32 with +avx512bw, i16 x i16 -> i32 with +avx512vnni
and +avx2, i8 x i8 -> i32 with +avx2 alone and with no feature, and the mixed pair
i8 x i16 with +avx512vnni. -/
theorem x86_64_int_catalog_witness :
    enumerateMatmulTileX86_64 true
        [.Integer 8 .Signless, .Integer 8 .Signless, .Integer 32 .Signless]
        (x86_64Target ["+avx512bw"]) =
      .ok [⟨16, 16, 2⟩, ⟨8, 16, 2⟩, ⟨4, 16, 2⟩, ⟨2, 16, 2⟩, ⟨1, 16, 2⟩] ∧
    enumerateMatmulTileX86_64 true
        [.Integer 16 .Signless, .Integer 16 .Signless, .Integer 32 .Signless]
        (x86_64Target ["+avx512vnni", "+avx2"]) =
      .ok [⟨16, 16, 2⟩, ⟨8, 16, 2⟩, ⟨4, 16, 2⟩, ⟨2, 16, 2⟩, ⟨1, 16, 2⟩] ∧
    enumerateMatmulTileX86_64 true
        [.Integer 8 .Signless, .Integer 8 .Signless, .Integer 32 .Signless]
        (x86_64Target ["+avx2"]) =
      .ok [⟨8, 8, 2⟩, ⟨4, 8, 2⟩, ⟨2, 8, 2⟩, ⟨1, 8, 2⟩] ∧
    enumerateMatmulTileX86_64 true
        [.Integer 8 .Signless, .Integer 8 .Signless, .Integer 32 .Signless]
        (x86_64Target []) =
      .ok [⟨8, 4, 2⟩, ⟨4, 4, 2⟩, ⟨2, 4, 2⟩, ⟨1, 4, 2⟩] ∧
    enumerateMatmulTileX86_64 true
        [.Integer 8 .Signless, .Integer 16 .Signless, .Integer 32 .Signless]
        (x86_64Target ["+avx512vnni"]) = .ok [] :=
  ⟨(x86_64_int_catalog true (x86_64Target ["+avx512bw"]) _ (Or.inl rfl)).1 (Or.inr rfl),
    (x86_64_int_catalog true (x86_64Target ["+avx512vnni", "+avx2"]) _ (Or.inr rfl)).1
      (Or.inl rfl),
    (x86_64_int_catalog true (x86_64Target ["+avx2"]) _ (Or.inl rfl)).2.1 rfl rfl rfl,
    (x86_64_int_catalog true (x86_64Target []) _ (Or.inl rfl)).2.2.1 rfl rfl rfl,
    (x86_64_int_catalog true (x86_64Target ["+avx512vnni"]) (.Integer 8 .Signless)
      (Or.inl rfl)).2.2.2.1⟩

/-- Claim C23. For RISC-V targets (ones the dispatcher takes for none of VMVX, arm64
and x86-64) the catalog depends only on the architecture and the microkernel flag, not
on the element types or the feature flags: a riscv32 target gets
(8,8,4),(4,8,4),(2,8,4),(1,8,4) when it has microkernels and the empty catalog
otherwise; a riscv64 target gets (7,32,1),(4,32,1),(2,32,1),(1,32,1) with or without
microkernels. This holds for the two enumerators on every target, and for the
dispatcher on every encoding whose contraction dimensions are inferred with at most
one dimension of each kind. -/
theorem riscv_catalogs (ae : Bool) (encoding : EncodingAttr) (cDims : ContractionDimensions)
    (target : ExecutableTargetAttr)
    (hc : encoding.contractionDims = some cDims)
    (hb : cDims.batch.length ≤ 1) (hm : cDims.m.length ≤ 1) (hn : cDims.n.length ≤ 1)
    (hk : cDims.k.length ≤ 1)
    (hv : target.isVMVXBackend = false) (ha : target.isAArch64 = false)
    (hx : target.isX86_64 = false) :
    (target.isRISCV32 = true → target.hasUkernel = true →
      enumerateMatmulTileMxNxK ae encoding target =
        .ok [⟨8, 8, 4⟩, ⟨4, 8, 4⟩, ⟨2, 8, 4⟩, ⟨1, 8, 4⟩]) ∧
    (target.isRISCV32 = true → target.hasUkernel = false →
      enumerateMatmulTileMxNxK ae encoding target = .ok []) ∧
    (target.isRISCV32 = false → target.isRISCV64 = true →
      enumerateMatmulTileMxNxK ae encoding target =
        .ok [⟨7, 32, 1⟩, ⟨4, 32, 1⟩, ⟨2, 32, 1⟩, ⟨1, 32, 1⟩]) ∧
    (∀ t : ExecutableTargetAttr, enumerateMatmulTileRiscv32 t =
      if t.hasUkernel then [⟨8, 8, 4⟩, ⟨4, 8, 4⟩, ⟨2, 8, 4⟩, ⟨1, 8, 4⟩] else []) ∧
    (∀ t : ExecutableTargetAttr, enumerateMatmulTileRiscv64 t =
      [⟨7, 32, 1⟩, ⟨4, 32, 1⟩, ⟨2, 32, 1⟩, ⟨1, 32, 1⟩]) := by
  have hguard : (decide (cDims.batch.length > 1) || decide (cDims.m.length > 1) ||
      decide (cDims.n.length > 1) || decide (cDims.k.length > 1)) = false := by
    simp; omega
  refine ⟨?_, ?_, ?_, fun _ => rfl, fun _ => rfl⟩
  · intro h32 hu
    simp only [enumerateMatmulTileMxNxK, hc, hguard, hv, ha, hx, h32, Bool.false_eq_true,
      if_false, if_true, enumerateMatmulTileRiscv32, hu]
  · intro h32 hu
    simp only [enumerateMatmulTileMxNxK, hc, hguard, hv, ha, hx, h32, Bool.false_eq_true,
      if_false, if_true, enumerateMatmulTileRiscv32, hu]
  · intro h32 h64
    simp only [enumerateMatmulTileMxNxK, hc, hguard, hv, ha, hx, h32, h64, Bool.false_eq_true,
      if_false, if_true, enumerateMatmulTileRiscv64]

/-- Claim C23, example: an i8 x i8 -> i32 encoding on a riscv32 target with microkernels
and the feature +v, an f32 encoding on a riscv32 target without microkernels, and a
bf16 encoding on riscv64 targets with and without microkernels. -/
theorem riscv_catalogs_witness :
    enumerateMatmulTileMxNxK true
        (typedEncoding (.Integer 8 .Signless) (.Integer 8 .Signless) (.Integer 32 .Signless))
        (riscv32Target true ["+v"]) =
      .ok [⟨8, 8, 4⟩, ⟨4, 8, 4⟩, ⟨2, 8, 4⟩, ⟨1, 8, 4⟩] ∧
    enumerateMatmulTileMxNxK true (typedEncoding .F32 .F32 .F32) (riscv32Target false []) =
      .ok [] ∧
    enumerateMatmulTileMxNxK true (typedEncoding .BF16 .BF16 .BF16) (riscv64Target true) =
      .ok [⟨7, 32, 1⟩, ⟨4, 32, 1⟩, ⟨2, 32, 1⟩, ⟨1, 32, 1⟩] ∧
    enumerateMatmulTileMxNxK true (typedEncoding .BF16 .BF16 .BF16) (riscv64Target false) =
      .ok [⟨7, 32, 1⟩, ⟨4, 32, 1⟩, ⟨2, 32, 1⟩, ⟨1, 32, 1⟩] :=
  ⟨(riscv_catalogs true _ ⟨[], [0], [1], [2]⟩ (riscv32Target true ["+v"]) rfl
      (by decide) (by decide) (by decide) (by decide) rfl rfl rfl).1 rfl rfl,
    (riscv_catalogs true _ ⟨[], [0], [1], [2]⟩ (riscv32Target false []) rfl
      (by decide) (by decide) (by decide) (by decide) rfl rfl rfl).2.1 rfl rfl,
    (riscv_catalogs true _ ⟨[], [0], [1], [2]⟩ (riscv64Target true) rfl
      (by decide) (by decide) (by decide) (by decide) rfl rfl rfl).2.2.1 rfl rfl,
    (riscv_catalogs true _ ⟨[], [0], [1], [2]⟩ (riscv64Target false) rfl
      (by decide) (by decide) (by decide) (by decide) rfl rfl rfl).2.2.1 rfl rfl⟩

/-! ## Claims about the accesses to the bounds -/

/-- The dynamic-tile loop performs no element access on the bounds: it can only stop on
an assertion. -/
theorem dynamicScan_not_outOfBounds (ae : Bool) (n : Nat) (tiles : List TileMxNxK)
    (line : Nat) : dynamicScan ae n tiles ≠ .error (.outOfBounds line) := by
  induction tiles with
  | nil => simp [dynamicScan]
  | cons t ts ih =>
    unfold dynamicScan
    split_ifs
    · simp
    · simp
    · simp
    · exact ih

/-- Bounds that are empty or have at least three elements can be read at lines 363-367. -/
theorem readUpperBounds_of_precondition (ub : List Int) (h : ub = [] ∨ 3 ≤ ub.length) :
    ∃ b, readUpperBounds ub = .ok b := by
  match ub, h with
  | [], _ => exact ⟨_, rfl⟩
  | [_], h => simp at h
  | [_, _], h => simp at h
  | m :: n :: k :: _, _ => exact ⟨(m, n, k), rfl⟩

/-- Rating and selection on bounds that are empty or have at least three elements do
not stop on an element access. -/
theorem rateAndSelect_not_outOfBounds (ae : Bool) (dflt : TileMxNxK) (tiles : List TileMxNxK)
    (nd : MatmulNarrowDim) (ub : List Int) (h : ub = [] ∨ 3 ≤ ub.length) (line : Nat) :
    rateAndSelect ae dflt tiles nd ub ≠ .error (.outOfBounds line) := by
  obtain ⟨⟨mUB, nUB, kUB⟩, hb⟩ := readUpperBounds_of_precondition ub h
  unfold rateAndSelect
  rw [hb]
  simp only
  split_ifs <;> simp

/-- Without an N-narrow hint, on bounds that are empty or have at least three elements,
`chooseMatmulTile` does not stop on an element access. -/
theorem chooseMatmulTile_not_N_not_outOfBounds (ae : Bool) (dflt : TileMxNxK)
    (tiles : List TileMxNxK) (nd : MatmulNarrowDim) (ub : List Int) (hnd : nd.dim ≠ Dim.N)
    (h : ub = [] ∨ 3 ≤ ub.length) (line : Nat) :
    chooseMatmulTile ae dflt tiles nd ub ≠ .error (.outOfBounds line) := by
  rw [chooseMatmulTile_of_not_N ae dflt tiles nd ub hnd]
  split_ifs
  · simp
  · have h1 := dynamicScan_not_outOfBounds ae tiles.length tiles line
    have h2 := rateAndSelect_not_outOfBounds ae dflt tiles nd ub h line
    cases hscan : dynamicScan ae tiles.length tiles with
    | error f =>
      rw [hscan] at h1
      simpa using h1
    | ok r =>
      cases r with
      | none => simpa using h2
      | some t => simp

/-- Claim C27, the code at the failing input. The empty bounds argument satisfies the
entry precondition of line 319, and yet with an N-narrow hint (any catalog, any size)
line 326 accesses elements 0 and 1 of the empty copy of the bounds, outside the array:
in a build with assertions the range check of the accesses fails and stops the run.
In a build without assertions the same accesses are not checked, the exchange touches
no element and the run carries on: the riscv64 catalog with an N-narrow hint of size 7
returns (32,7,1). Everywhere else the claim holds: for a hint that is not N-narrow and
bounds that are empty or have at least three elements, and for an N-narrow hint and
bounds with at least three elements, no element access on the bounds is out of range,
in either build. -/
theorem narrowN_empty_bounds_access_out_of_range (dflt : TileMxNxK) :
    (∀ ae : Bool,
      (ae && !(([] : List Int).isEmpty || decide (([] : List Int).length ≥ 3))) = false) ∧
    swapFirstTwo true [] = .error (.outOfBounds 326) ∧
    (∀ (tiles : List TileMxNxK) (s : Int),
      chooseMatmulTile true dflt tiles ⟨Dim.N, s⟩ [] = .error (.outOfBounds 326)) ∧
    swapFirstTwo false [] = .ok [] ∧
    chooseMatmulTile false dflt [⟨7, 32, 1⟩, ⟨4, 32, 1⟩, ⟨2, 32, 1⟩, ⟨1, 32, 1⟩] ⟨Dim.N, 7⟩ [] =
      .ok ⟨32, 7, 1⟩ ∧
    (∀ (ae : Bool) (tiles : List TileMxNxK) (nd : MatmulNarrowDim) (ub : List Int)
        (line : Nat),
      (ub = [] ∨ 3 ≤ ub.length) → ¬ (nd.dim = Dim.N ∧ ub = []) →
      chooseMatmulTile ae dflt tiles nd ub ≠ .error (.outOfBounds line)) := by
  refine ⟨fun ae => by simp, rfl, fun tiles s => chooseMatmulTile_N_absent dflt tiles _ rfl,
    rfl, ?_, ?_⟩
  · rw [chooseMatmulTile_N_absent_unchecked dflt _ _ rfl]
    have h : chooseMatmulTile false dflt [⟨7, 32, 1⟩, ⟨4, 32, 1⟩, ⟨2, 32, 1⟩, ⟨1, 32, 1⟩]
        ⟨Dim.M, 7⟩ [] = .ok ⟨7, 32, 1⟩ := by
      rw [chooseMatmulTile_of_not_N _ _ _ _ _ (by decide)]
      rfl
    simp only at h ⊢
    rw [h]
  intro ae tiles nd ub line hub hnot
  by_cases hnd : nd.dim = Dim.N
  · have h3 : 3 ≤ ub.length := by
      rcases hub with h | h
      · exact absurd ⟨hnd, h⟩ hnot
      · exact h
    match ub, h3 with
    | m :: n :: k :: rest, _ =>
      rw [chooseMatmulTile_of_N ae dflt tiles nd _ hnd]
      have hinner := chooseMatmulTile_not_N_not_outOfBounds ae dflt tiles
        { nd with dim := Dim.M } (n :: m :: k :: rest) (by simp) (Or.inr (by simp)) line
      split_ifs
      · simp
      · simp only [swapFirstTwo]
        cases hrec : chooseMatmulTile ae dflt tiles { nd with dim := Dim.M }
            (n :: m :: k :: rest) with
        | error f =>
          rw [hrec] at hinner
          simpa using hinner
        | ok t => simp
  · exact chooseMatmulTile_not_N_not_outOfBounds ae dflt tiles nd ub hnd hub line

/-! ## Claims about the M-narrow selection on enumerated catalogs -/

/-- A known catalog is empty, all-dynamic, or positive with exact products, an entry
with M = 1, and the same N and K in all entries. -/
theorem knownCatalogs_narrow_props :
    ∀ cat ∈ knownCatalogs, cat = [] ∨ cat = [⟨kDynamic, kDynamic, kDynamic⟩] ∨
      ((∀ t ∈ cat, 0 < t.M ∧ 0 < t.N ∧ 0 < t.K ∧ t.M * t.N * t.K < 2 ^ 63) ∧
        (∃ t ∈ cat, t.M = 1) ∧
        (∀ t ∈ cat, ∀ u ∈ cat, t.N = u.N ∧ t.K = u.K)) := by
  decide

/-- For `0 <= M < 2^63` and a size `s` from 1 to `INT64_MAX`, the penalty expression
equals `max 0 (M - PowerOf2Ceil s)`, and `PowerOf2Ceil s` is a power of two at or above
`s`. -/
theorem narrowPenalty_eq_max (tileM : Int) (s : Nat) (hM : 0 ≤ tileM) (hM2 : tileM < 2 ^ 63)
    (hs : 1 ≤ s) (hs2 : s ≤ 2 ^ 63 - 1) :
    narrowPenalty tileM (s : Int) = max 0 (tileM - (PowerOf2Ceil s : Int)) ∧
      s ≤ PowerOf2Ceil s ∧ ∃ k : Nat, PowerOf2Ceil s = 2 ^ k := by
  have htoM : ((toUInt64 tileM : Nat) : Int) = tileM := by
    unfold toUInt64
    norm_num at hM2 ⊢
    omega
  have htoS : toUInt64 (s : Int) = s := by
    unfold toUInt64
    norm_num at hs2 ⊢
    omega
  obtain ⟨k, hk1, hk2, hk3⟩ := PowerOf2Ceil_spec s hs hs2
  have hk63 : k ≤ 63 := by
    apply hk3
    norm_num at hs2 ⊢
    omega
  have hpk : (2 : Int) ^ k ≤ 2 ^ 63 := pow_le_pow_right₀ (by norm_num) hk63
  have hpk0 : (0 : Int) < 2 ^ k := by positivity
  refine ⟨?_, by rw [hk1]; exact hk2, k, hk1⟩
  unfold narrowPenalty
  rw [htoM, htoS, hk1]
  have hcast : (((2 ^ k : Nat)) : Int) = (2 : Int) ^ k := by norm_cast
  rw [hcast, wrapInt64_of_range (tileM - 2 ^ k) (by norm_num at hpk ⊢; omega)
    (by norm_num at hM2 ⊢; omega)]
  exact max_comm _ _

/-- Claim C26. Padding up to the next power of two is not penalized: for every encoding
and target whose enumerated catalog is non-empty and without dynamic components, and
every M-narrow hint of size s from 1 to INT64_MAX with no bounds, chooseMatmulTile
returns the catalog entry with the largest M among the entries with
M <= PowerOf2Ceil(s); the chosen tile has paddingPenalty 0, and the tile with M = 1 is
chosen only when no entry with a larger M has M <= PowerOf2Ceil(s). This holds with
assertions on or off and for every default-constructed tile. -/
theorem narrowM_selects_largest_tile_within_power_of_two (ae : Bool) (dflt : TileMxNxK)
    (encoding : EncodingAttr) (target : ExecutableTargetAttr) (cat : List TileMxNxK) (s : Nat)
    (henum : enumerateMatmulTileMxNxK ae encoding target = .ok cat)
    (hne : cat ≠ [])
    (hstatic : ∀ t ∈ cat, isDynamic t.M = false ∧ isDynamic t.N = false ∧
      isDynamic t.K = false)
    (hs : 1 ≤ s) (hs2 : s ≤ 2 ^ 63 - 1) :
    ∃ t, chooseMatmulTile ae dflt cat ⟨Dim.M, (s : Int)⟩ [] = .ok t ∧ t ∈ cat ∧
      t.M ≤ (PowerOf2Ceil s : Int) ∧
      (∀ u ∈ cat, u.M ≤ (PowerOf2Ceil s : Int) → u.M ≤ t.M) ∧
      paddingPenalty ⟨Dim.M, (s : Int)⟩ t = 0 ∧
      (t.M = 1 → ∀ u ∈ cat, 1 < u.M → (PowerOf2Ceil s : Int) < u.M) := by
  rcases knownCatalogs_narrow_props cat
      (enumerateMatmulTileMxNxK_mem ae encoding target cat henum) with h | h | ⟨hpos, hone, hNK⟩
  · exact absurd h hne
  · exfalso
    have := hstatic ⟨kDynamic, kDynamic, kDynamic⟩ (by rw [h]; simp)
    simp [isDynamic] at this
  have hI : INT64_MAX = 2 ^ 63 - 1 := by unfold INT64_MAX; norm_num
  have hwb : ∀ t ∈ cat, withinBounds INT64_MAX INT64_MAX INT64_MAX t = true := by
    intro t ht
    have h := dims_le_of_pos t (hpos t ht)
    rw [withinBounds_iff, hI]
    omega
  have hpen : ∀ u ∈ cat, paddingPenalty ⟨Dim.M, (s : Int)⟩ u =
      max 0 (u.M - (PowerOf2Ceil s : Int)) := by
    intro u hu
    have h := dims_le_of_pos u (hpos u hu)
    have hp := (narrowPenalty_eq_max u.M s (le_of_lt (hpos u hu).1) (by omega) hs hs2).1
    simpa [paddingPenalty, MatmulNarrowDim.toBool] using hp
  have hP1 : (1 : Int) ≤ (PowerOf2Ceil s : Int) := by
    have h := (narrowPenalty_eq_max 0 s le_rfl (by norm_num) hs hs2).2.1
    have : 1 ≤ PowerOf2Ceil s := le_trans hs h
    exact_mod_cast this
  obtain ⟨e, he, heM⟩ := hone
  obtain ⟨pre, t, post, hsplit, hres, _, hmin, hmax, _⟩ :=
    chooseMatmulTile_spec ae dflt cat ⟨Dim.M, (s : Int)⟩ [] INT64_MAX INT64_MAX INT64_MAX
      (by simp) rfl hpos ⟨e, he, hwb e he⟩
  have htmem : t ∈ cat := by rw [hsplit]; simp
  have hpe : paddingPenalty ⟨Dim.M, (s : Int)⟩ e = 0 := by
    rw [hpen e he, heM]
    exact max_eq_left (by omega)
  have hpt : paddingPenalty ⟨Dim.M, (s : Int)⟩ t = 0 := by
    have h1 := hmin e he (hwb e he)
    have h2 := paddingPenalty_nonneg ⟨Dim.M, (s : Int)⟩ t
    omega
  have htP : t.M ≤ (PowerOf2Ceil s : Int) := by
    have h := hpen t htmem
    rw [hpt] at h
    have := le_max_right 0 (t.M - (PowerOf2Ceil s : Int))
    omega
  have hlargest : ∀ u ∈ cat, u.M ≤ (PowerOf2Ceil s : Int) → u.M ≤ t.M := by
    intro u hu huP
    have hpu : paddingPenalty ⟨Dim.M, (s : Int)⟩ u = 0 := by
      rw [hpen u hu]
      exact max_eq_left (by omega)
    have hprod := hmax u hu (hwb u hu) (by rw [hpu, hpt])
    obtain ⟨hN, hK⟩ := hNK u hu t htmem
    have htpos := hpos t htmem
    rw [hN, hK] at hprod
    have hNKpos : 0 < t.N * t.K := mul_pos htpos.2.1 htpos.2.2.1
    have h1 : u.M * (t.N * t.K) ≤ t.M * (t.N * t.K) := by
      rw [← mul_assoc, ← mul_assoc]; exact hprod
    exact le_of_mul_le_mul_right h1 hNKpos
  refine ⟨t, hres, htmem, htP, hlargest, hpt, ?_⟩
  intro ht1 u hu hu1
  by_contra hcon
  have := hlargest u hu (by omega)
  omega

/-- Claim C26, example: the catalog (8,8,4),(4,8,4),(2,8,4),(1,8,4) of a VMVX target
without microkernels, with an M-narrow hint of size 7 and no bounds:
PowerOf2Ceil(7) = 8 and the tile (8,8,4) is chosen. -/
theorem narrowM_selects_largest_tile_within_power_of_two_witness :
    enumerateMatmulTileMxNxK true (matmulEncoding ⟨Dim.M, 7⟩ []) (vmvxTarget false) =
      .ok tiles8x8x4 ∧
    PowerOf2Ceil 7 = 8 ∧
    chooseMatmulTile true ⟨0, 0, 0⟩ tiles8x8x4 ⟨Dim.M, 7⟩ [] = .ok ⟨8, 8, 4⟩ := by
  refine ⟨rfl, by decide, ?_⟩
  obtain ⟨t, hres, htmem, _, hlargest, _, _⟩ :=
    narrowM_selects_largest_tile_within_power_of_two true ⟨0, 0, 0⟩
      (matmulEncoding ⟨Dim.M, 7⟩ []) (vmvxTarget false) tiles8x8x4 7 rfl (by decide)
      (by decide) (by decide) (by decide)
  have h8 := hlargest ⟨8, 8, 4⟩ (by decide) (by decide)
  have hres2 : chooseMatmulTile true ⟨0, 0, 0⟩ tiles8x8x4 ⟨Dim.M, 7⟩ [] = .ok t := hres
  rw [hres2]
  simp only [tiles8x8x4, List.mem_cons, List.mem_singleton, List.not_mem_nil, or_false]
    at htmem
  rcases htmem with h | h | h | h
  · rw [h]
  · rw [h] at h8; simp at h8
  · rw [h] at h8; simp at h8
  · rw [h] at h8; simp at h8

/-! ## Claims about the host materialization pass -/

/-- The loop on a module `pre ++ l`: when the loop fails within `pre` the functions of
`l` are not visited; otherwise the loop goes on with `l`. -/
theorem runOnFunctions_append {Func : Type}
    (getTargets : Func → Option (List ExecutableTargetAttr))
    (materialize : Func → ExecutableTargetAttr → Bool × Func × List (Diagnostic Func))
    (pre l : List Func) :
    runOnFunctions getTargets materialize (pre ++ l) =
      if (runOnFunctions getTargets materialize pre).failed then
        { funcs := (runOnFunctions getTargets materialize pre).funcs ++ l
          diagnostics := (runOnFunctions getTargets materialize pre).diagnostics
          failed := true }
      else
        { funcs := (runOnFunctions getTargets materialize pre).funcs ++
            (runOnFunctions getTargets materialize l).funcs
          diagnostics := (runOnFunctions getTargets materialize pre).diagnostics ++
            (runOnFunctions getTargets materialize l).diagnostics
          failed := (runOnFunctions getTargets materialize l).failed } := by
  induction pre with
  | nil => simp [runOnFunctions]
  | cons f rest ih =>
    rw [List.cons_append]
    cases hT : getTargets f with
    | none => simp [runOnFunctions, hT]
    | some ts =>
      match ts, hT with
      | [], hT =>
        simp only [runOnFunctions, hT, ih]
        split_ifs <;> simp
      | [t], hT =>
        simp only [runOnFunctions, hT, ih]
        by_cases hm : (materialize f t).1 = true
        · simp only [hm, Bool.not_true, Bool.false_eq_true, if_false]
          split_ifs <;> simp
        · simp [hm]
      | _ :: _ :: _, hT => simp [runOnFunctions, hT]

/-- A loop that did not fail visited every function: each function is replaced by its
visited form, and the callee succeeded on every function with exactly one target. -/
theorem runOnFunctions_of_not_failed {Func : Type}
    (getTargets : Func → Option (List ExecutableTargetAttr))
    (materialize : Func → ExecutableTargetAttr → Bool × Func × List (Diagnostic Func))
    (l : List Func) (h : (runOnFunctions getTargets materialize l).failed = false) :
    (runOnFunctions getTargets materialize l).funcs = l.map (visitedFunc getTargets materialize) ∧
      ∀ f ∈ l, ∀ t, getTargets f = some [t] → (materialize f t).1 = true := by
  induction l with
  | nil => simp [runOnFunctions]
  | cons f rest ih =>
    cases hT : getTargets f with
    | none => simp [runOnFunctions, hT] at h
    | some ts =>
      match ts, hT with
      | [], hT =>
        simp only [runOnFunctions, hT] at h ⊢
        obtain ⟨h1, h2⟩ := ih h
        refine ⟨by simp [h1, visitedFunc, hT], ?_⟩
        intro g hg t hgt
        rcases List.mem_cons.mp hg with hgf | hgr
        · rw [hgf, hT] at hgt; simp at hgt
        · exact h2 g hgr t hgt
      | [t], hT =>
        simp only [runOnFunctions, hT] at h ⊢
        by_cases hm : (materialize f t).1 = true
        · simp only [hm, Bool.not_true, Bool.false_eq_true, if_false] at h ⊢
          obtain ⟨h1, h2⟩ := ih h
          refine ⟨by simp [h1, visitedFunc, hT], ?_⟩
          intro g hg t2 hgt
          rcases List.mem_cons.mp hg with hgf | hgr
          · rw [hgf, hT] at hgt
            simp only [Option.some.injEq, List.cons.injEq, and_true] at hgt
            rw [hgf, ← hgt]; exact hm
          · exact h2 g hgr t2 hgt
        · simp [hm] at h
      | _ :: _ :: _, hT => simp [runOnFunctions, hT] at h

/-- Claim C24, amended. In the host materialization pass, once the two analyses have
run, every function that the loop reaches (all functions before it were processed
without failure) has its outcome decided by the number of executable targets gathered
for it. With zero targets the function is skipped: it is left unchanged, no diagnostic
is emitted on it and the loop goes on. With exactly one target the callee
materializeFuncOpEncodings is run on the function for that target: its result replaces
the function, and the loop goes on when it succeeded and stops in failure when it did
not. With more than one target the pass fails with the diagnostic on that function, and
the function and all functions after it are left unchanged. -/
theorem reached_function_outcome_by_target_count {Func Affinity : Type}
    (uniqueAffinityAttrs : Func → List Affinity)
    (gatherRequiredExecutableTargets :
      Affinity → Func → List ExecutableTargetAttr → List ExecutableTargetAttr)
    (applyPartialConversion :
      Func → ExecutableTargetAttr → Option MaterializeEncodingValueFn → Bool × Func)
    (applyPatternsAndFoldGreedily : Func → Bool × Func)
    (pre : List Func) (funcOp : Func) (post : List Func)
    (hreach : (runOnOperation true true uniqueAffinityAttrs gatherRequiredExecutableTargets
      applyPartialConversion applyPatternsAndFoldGreedily pre).failed = false) :
    let run := runOnOperation true true uniqueAffinityAttrs gatherRequiredExecutableTargets
      applyPartialConversion applyPatternsAndFoldGreedily
    let targets := getFuncExecutableTargetAttrs uniqueAffinityAttrs
      gatherRequiredExecutableTargets funcOp
    let callee := materializeFuncOpEncodings applyPartialConversion
      applyPatternsAndFoldGreedily funcOp
    (targets = some [] →
      run (pre ++ funcOp :: post) =
        { funcs := (run pre).funcs ++ funcOp :: (run post).funcs
          diagnostics := (run pre).diagnostics ++ (run post).diagnostics
          failed := (run post).failed }) ∧
    (∀ front, targets = some [front] → (callee front).1 = true →
      run (pre ++ funcOp :: post) =
        { funcs := (run pre).funcs ++ (callee front).2.1 :: (run post).funcs
          diagnostics := (run pre).diagnostics ++ ((callee front).2.2 ++ (run post).diagnostics)
          failed := (run post).failed }) ∧
    (∀ front, targets = some [front] → (callee front).1 = false →
      run (pre ++ funcOp :: post) =
        { funcs := (run pre).funcs ++ (callee front).2.1 :: post
          diagnostics := (run pre).diagnostics ++ (callee front).2.2
          failed := true }) ∧
    (∀ first second others, targets = some (first :: second :: others) →
      run (pre ++ funcOp :: post) =
        { funcs := (run pre).funcs ++ funcOp :: post
          diagnostics := (run pre).diagnostics ++
            [⟨funcOp, OpError.hasMultipleExecutableTargets⟩]
          failed := true }) ∧
    (targets = some [] ∨ (∃ front, targets = some [front]) ∨
      ∃ first second others, targets = some (first :: second :: others)) := by
  intro run targets callee
  have hrun : ∀ l, run l = runOnFunctions
      (getFuncExecutableTargetAttrs uniqueAffinityAttrs gatherRequiredExecutableTargets)
      (materializeFuncOpEncodings applyPartialConversion applyPatternsAndFoldGreedily) l :=
    fun l => rfl
  have hpre : (runOnFunctions
      (getFuncExecutableTargetAttrs uniqueAffinityAttrs gatherRequiredExecutableTargets)
      (materializeFuncOpEncodings applyPartialConversion applyPatternsAndFoldGreedily)
      pre).failed = false := hreach
  have happ : ∀ l, run (pre ++ l) =
      { funcs := (run pre).funcs ++ (run l).funcs
        diagnostics := (run pre).diagnostics ++ (run l).diagnostics
        failed := (run l).failed } := by
    intro l
    rw [hrun, runOnFunctions_append, hpre]
    simp [hrun]
  refine ⟨?_, ?_, ?_, ?_, ?_⟩
  · intro h
    rw [happ, hrun (funcOp :: post)]
    simp only [runOnFunctions]
    rw [show getFuncExecutableTargetAttrs uniqueAffinityAttrs gatherRequiredExecutableTargets
      funcOp = some [] from h]
    simp [hrun]
  · intro front h hok
    rw [happ, hrun (funcOp :: post)]
    simp only [runOnFunctions]
    rw [show getFuncExecutableTargetAttrs uniqueAffinityAttrs gatherRequiredExecutableTargets
      funcOp = some [front] from h]
    have hok2 : (materializeFuncOpEncodings applyPartialConversion
      applyPatternsAndFoldGreedily funcOp front).1 = true := hok
    simp [hrun, hok2, callee]
  · intro front h hfail
    rw [happ, hrun (funcOp :: post)]
    simp only [runOnFunctions]
    rw [show getFuncExecutableTargetAttrs uniqueAffinityAttrs gatherRequiredExecutableTargets
      funcOp = some [front] from h]
    have hfail2 : (materializeFuncOpEncodings applyPartialConversion
      applyPatternsAndFoldGreedily funcOp front).1 = false := hfail
    simp [hfail2, callee]
  · intro first second others h
    rw [happ, hrun (funcOp :: post)]
    simp only [runOnFunctions]
    rw [show getFuncExecutableTargetAttrs uniqueAffinityAttrs gatherRequiredExecutableTargets
      funcOp = some (first :: second :: others) from h]
  · have hcases : ∀ l : List ExecutableTargetAttr,
        some l = some [] ∨ (∃ front, some l = some [front]) ∨
          ∃ first second others, some l = some (first :: second :: others) := by
      intro l
      match l with
      | [] => exact Or.inl rfl
      | [t] => exact Or.inr (Or.inl ⟨t, rfl⟩)
      | a :: b :: c => exact Or.inr (Or.inr ⟨a, b, c, rfl⟩)
    exact hcases _

/-- Claim C24, example: in the module of the functions 1, 0, 2, 4 the functions 1 and 0
are processed without failure (one target: materialized into 1101; no target:
unchanged), and function 2, with two targets, makes the pass fail with the diagnostic
on it. -/
theorem reached_function_outcome_by_target_count_witness :
    (runOnOperation true true exampleAffinities exampleGather exampleConversion
      exampleFolding [1, 0]).failed = false ∧
    runOnOperation true true exampleAffinities exampleGather exampleConversion
        exampleFolding [1, 0, 2, 4] =
      { funcs := [1101, 0, 2, 4]
        diagnostics := [⟨2, OpError.hasMultipleExecutableTargets⟩]
        failed := true } :=
  ⟨rfl, (reached_function_outcome_by_target_count exampleAffinities exampleGather
    exampleConversion exampleFolding [1, 0] 2 [4] rfl).2.2.2.1 _ _ _ rfl⟩

/-- Claim C24 as stated fails for a function that comes after a failing one. Function 4
has exactly one target and is materialized into 1104 when it is alone in the module;
in the module of the functions 2, 4 the pass stops at function 2, which has two
targets, and function 4 is left as it is, for every pair of rewrite drivers. Function
5 has two targets, and in the module of the functions 2, 5 no diagnostic is emitted on
it. -/
theorem function_after_failure_is_not_visited :
    (runOnOperation true true exampleAffinities exampleGather exampleConversion
        exampleFolding [4] =
      { funcs := [1104], diagnostics := [], failed := false }) ∧
    (∀ (applyPartialConversion :
        Nat → ExecutableTargetAttr → Option MaterializeEncodingValueFn → Bool × Nat)
      (applyPatternsAndFoldGreedily : Nat → Bool × Nat),
      runOnOperation true true exampleAffinities exampleGather applyPartialConversion
          applyPatternsAndFoldGreedily [2, 4] =
        { funcs := [2, 4]
          diagnostics := [⟨2, OpError.hasMultipleExecutableTargets⟩]
          failed := true }) ∧
    (runOnOperation true true exampleAffinities exampleGather exampleConversion
        exampleFolding [2, 5] =
      { funcs := [2, 5]
        diagnostics := [⟨2, OpError.hasMultipleExecutableTargets⟩]
        failed := true }) :=
  ⟨rfl, fun _ _ => rfl, rfl⟩

/-- Claim C25, amended. When a function fails because it has more than one executable
target (the functions before it were processed without failure), the pass fails with
the diagnostic on that function; every function before it that has exactly one target
has been materialized (the callee succeeded on it and its result is in the module);
and every function after it is left as it is, not materialized, whatever its number
of targets. -/
theorem multiple_targets_failure_stops_the_loop {Func Affinity : Type}
    (uniqueAffinityAttrs : Func → List Affinity)
    (gatherRequiredExecutableTargets :
      Affinity → Func → List ExecutableTargetAttr → List ExecutableTargetAttr)
    (applyPartialConversion :
      Func → ExecutableTargetAttr → Option MaterializeEncodingValueFn → Bool × Func)
    (applyPatternsAndFoldGreedily : Func → Bool × Func)
    (pre : List Func) (funcOp : Func) (post : List Func)
    (first second : ExecutableTargetAttr) (others : List ExecutableTargetAttr)
    (hreach : (runOnOperation true true uniqueAffinityAttrs gatherRequiredExecutableTargets
      applyPartialConversion applyPatternsAndFoldGreedily pre).failed = false)
    (hmulti : getFuncExecutableTargetAttrs uniqueAffinityAttrs
      gatherRequiredExecutableTargets funcOp = some (first :: second :: others)) :
    let run := runOnOperation true true uniqueAffinityAttrs gatherRequiredExecutableTargets
      applyPartialConversion applyPatternsAndFoldGreedily
    let getTargets := getFuncExecutableTargetAttrs uniqueAffinityAttrs
      gatherRequiredExecutableTargets
    let callee := materializeFuncOpEncodings applyPartialConversion
      applyPatternsAndFoldGreedily
    (run (pre ++ funcOp :: post)).failed = true ∧
    (run (pre ++ funcOp :: post)).diagnostics =
      (run pre).diagnostics ++ [⟨funcOp, OpError.hasMultipleExecutableTargets⟩] ∧
    (run (pre ++ funcOp :: post)).funcs =
      pre.map (visitedFunc getTargets callee) ++ funcOp :: post ∧
    (∀ g ∈ pre, ∀ t, getTargets g = some [t] →
      (callee g t).1 = true ∧ visitedFunc getTargets callee g = (callee g t).2.1) := by
  intro run getTargets callee
  have hrun : ∀ l, run l = runOnFunctions getTargets callee l := fun l => rfl
  have hpre : (runOnFunctions getTargets callee pre).failed = false := hreach
  obtain ⟨hfuncs, hok⟩ := runOnFunctions_of_not_failed getTargets callee pre hpre
  have hstep : runOnFunctions getTargets callee (funcOp :: post) =
      { funcs := funcOp :: post
        diagnostics := [⟨funcOp, OpError.hasMultipleExecutableTargets⟩]
        failed := true } := by
    simp only [runOnFunctions]
    rw [show getTargets funcOp = some (first :: second :: others) from hmulti]
  have hall : run (pre ++ funcOp :: post) =
      { funcs := pre.map (visitedFunc getTargets callee) ++ funcOp :: post
        diagnostics := (run pre).diagnostics ++
          [⟨funcOp, OpError.hasMultipleExecutableTargets⟩]
        failed := true } := by
    rw [hrun, runOnFunctions_append, hpre, hstep, hfuncs]
    simp [hrun]
  refine ⟨by rw [hall], by rw [hall], by rw [hall], ?_⟩
  intro g hg t hgt
  refine ⟨hok g hg t hgt, ?_⟩
  simp only [visitedFunc, hgt]

/-- Claim C25, example: in the module of the functions 1, 0, 2, 4, 1 function 2 fails
with two targets; function 1 before it has been materialized into 1101, function 0
has no target and is unchanged, and the functions 4 and 1 after it are left as they
are. -/
theorem multiple_targets_failure_stops_the_loop_witness :
    (runOnOperation true true exampleAffinities exampleGather exampleConversion
      exampleFolding [1, 0]).failed = false ∧
    getFuncExecutableTargetAttrs exampleAffinities exampleGather 2 =
      some [vmvxTarget false, riscv64Target false] ∧
    (runOnOperation true true exampleAffinities exampleGather exampleConversion
      exampleFolding [1, 0, 2, 4, 1]).funcs = [1101, 0, 2, 4, 1] :=
  ⟨rfl, rfl, (multiple_targets_failure_stops_the_loop exampleAffinities exampleGather
    exampleConversion exampleFolding [1, 0] 2 [4, 1] _ _ _ rfl rfl).2.2.1⟩

/-- Claim C25 as stated fails. In the module of the functions 1, 2, 1 function 2 fails
with two targets. Function 1 has exactly one target: the occurrence before function 2
is materialized into 1101, the occurrence after it is not. The module of the
functions 1, 1 alone has both materialized. -/
theorem sibling_after_failing_function_is_not_materialized :
    getFuncExecutableTargetAttrs exampleAffinities exampleGather 1 =
      some [vmvxTarget false] ∧
    getFuncExecutableTargetAttrs exampleAffinities exampleGather 2 =
      some [vmvxTarget false, riscv64Target false] ∧
    (runOnOperation true true exampleAffinities exampleGather exampleConversion
        exampleFolding [1, 2, 1] =
      { funcs := [1101, 2, 1]
        diagnostics := [⟨2, OpError.hasMultipleExecutableTargets⟩]
        failed := true }) ∧
    (runOnOperation true true exampleAffinities exampleGather exampleConversion
        exampleFolding [1, 1] =
      { funcs := [1101, 1101], diagnostics := [], failed := false }) :=
  ⟨rfl, rfl, rfl, rfl⟩

/-! ## The riscv64 microkernel on one memory: closed form -/

/-- The stores of a block with 8 lanes write `acc`m lane `n` to address
`out_ptr + 8 * m + n` for `m < M0` and leave every other address as it was. -/
theorem storeAccumulatorsAt_apply {F : Type} (M0 : Nat) (acc : Nat → Nat → F)
    (mem : Nat → F) (out_ptr a : Nat) :
    storeAccumulatorsAt 8 M0 acc mem out_ptr a =
      if out_ptr ≤ a ∧ a < out_ptr + 8 * M0 then acc ((a - out_ptr) / 8) ((a - out_ptr) % 8)
      else mem a := by
  unfold storeAccumulatorsAt
  induction M0 with
  | zero =>
    have h : ¬ (out_ptr ≤ a ∧ a < out_ptr + 8 * 0) := by omega
    rw [if_neg h]
    rfl
  | succ M0 ih =>
    rw [List.range_succ, List.foldl_append]
    simp only [List.foldl_cons, List.foldl_nil, __riscv_vse32_v_f32m1, Nat.min_self]
    by_cases h1 : out_ptr + 8 * M0 ≤ a ∧ a < out_ptr + 8 * M0 + 8
    · rw [if_pos h1, if_pos (by omega)]
      have e1 : (a - out_ptr) / 8 = M0 := by omega
      have e2 : (a - out_ptr) % 8 = a - (out_ptr + 8 * M0) := by omega
      rw [e1, e2]
    · rw [if_neg h1, ih]
      by_cases h2 : out_ptr ≤ a ∧ a < out_ptr + 8 * M0
      · rw [if_pos h2, if_pos (by omega)]
      · rw [if_neg h2, if_neg (by omega)]

/-- The memory after a vector block with 8 lanes. -/
theorem tileBlockAt_vector_apply {F : Type} (ops : F32Ops F) (unspec : Nat → F) (M0 : Nat)
    (hM0 : M0 ≤ 8) (accumulate : Bool) (K : Nat) (mem : Nat → F)
    (out_tile lhs_panel rhs_panel a : Nat) :
    tileBlockAt ops 8 unspec M0 (loopBodyVector ops 8 unspec M0 mem mem) accumulate K mem
        out_tile lhs_panel rhs_panel a =
      if out_tile ≤ a ∧ a < out_tile + 8 * M0 then
        (List.range K).foldl
          (fun acc k => ops.fmacc acc (mem (lhs_panel + M0 * k + (a - out_tile) / 8))
            (mem (rhs_panel + 8 * k + (a - out_tile) % 8)))
          (if accumulate then mem a else ops.zero)
      else mem a := by
  unfold tileBlockAt
  simp only [storeAccumulatorsAt_apply]
  by_cases ha : out_tile ≤ a ∧ a < out_tile + 8 * M0
  · rw [if_pos ha, if_pos ha]
    have hm : (a - out_tile) / 8 < M0 := by omega
    have hn : (a - out_tile) % 8 < 8 := by omega
    have hdm : out_tile + 8 * ((a - out_tile) / 8) + (a - out_tile) % 8 = a := by omega
    rw [(iterate_loopBodyVector ops unspec M0 hM0 mem mem _ K).2.2 _ hm _ hn]
    congr 1
    cases accumulate <;>
      simp [initAccumulatorsAt, __riscv_vle32_v_f32m1, __riscv_vfmv_v_f_f32m1, hm, hn, hdm]
  · rw [if_neg ha, if_neg ha]

/-- The memory after the scalar block with 8 lanes. -/
theorem tileBlockAt_scalar_apply {F : Type} (ops : F32Ops F) (unspec : Nat → F)
    (accumulate : Bool) (K : Nat) (mem : Nat → F) (out_tile lhs_panel rhs_panel a : Nat) :
    tileBlockAt ops 8 unspec 1 (loopBodyScalar ops 8 unspec mem mem) accumulate K mem
        out_tile lhs_panel rhs_panel a =
      if out_tile ≤ a ∧ a < out_tile + 8 * 1 then
        (List.range K).foldl
          (fun acc k => ops.fmacc acc (mem (lhs_panel + 1 * k + (a - out_tile) / 8))
            (mem (rhs_panel + 8 * k + (a - out_tile) % 8)))
          (if accumulate then mem a else ops.zero)
      else mem a := by
  unfold tileBlockAt
  simp only [storeAccumulatorsAt_apply]
  by_cases ha : out_tile ≤ a ∧ a < out_tile + 8 * 1
  · rw [if_pos ha, if_pos ha]
    have hm : (a - out_tile) / 8 = 0 := by omega
    have hn : (a - out_tile) % 8 = a - out_tile := by omega
    have hj8 : a - out_tile < 8 := by omega
    have hdm : out_tile + (a - out_tile) = a := by omega
    rw [hm, hn, (iterate_loopBodyScalar ops unspec mem mem _ K).2.2 _ hj8]
    simp only [Nat.one_mul, Nat.add_zero]
    congr 1
    cases accumulate <;>
      simp [initAccumulatorsAt, __riscv_vle32_v_f32m1, __riscv_vfmv_v_f_f32m1, hj8, hdm]
  · rw [if_neg ha, if_neg ha]

/-- The memory after a call of the tile function with 8 lanes and `M0` in 1, 2, 4, 8:
the address `out_tile + j` with `j < 8 * M0`, in row `j / 8` and column `j % 8` of
the out tile, holds the `K` multiply-adds in ascending order of `k`, started from its
previous value under the accumulate flag and from zero otherwise; every other address
holds what it held before. -/
theorem tile_at_closed_form {F : Type} (ops : F32Ops F) (ae : Bool) (unspec : Nat → F)
    (mem : Nat → F) (out_tile lhs_panel rhs_panel : Nat) (accumulate : Bool) (K M0 : Nat)
    (hM0 : M0 = 1 ∨ M0 = 2 ∨ M0 = 4 ∨ M0 = 8) :
    iree_uk_mmt4d_tile_f32f32f32_1x8x1_to_8x8x1_riscv_64_at ops ae 8 unspec mem out_tile
        lhs_panel rhs_panel accumulate K M0 =
      .ok (fun a =>
        if out_tile ≤ a ∧ a < out_tile + 8 * M0 then
          (List.range K).foldl
            (fun acc k => ops.fmacc acc (mem (lhs_panel + M0 * k + (a - out_tile) / 8))
              (mem (rhs_panel + 8 * k + (a - out_tile) % 8)))
            (if accumulate then mem a else ops.zero)
        else mem a) := by
  rcases hM0 with h | h | h | h <;> subst h
  · have ha : (ae && !(decide (1 ≥ 1) && decide (1 ≤ 8) && iree_uk_is_po2_u32 1)) = false := by
      cases ae <;> decide
    simp only [iree_uk_mmt4d_tile_f32f32f32_1x8x1_to_8x8x1_riscv_64_at, ha]
    simp only [Bool.false_eq_true, if_false, if_true,
      (by decide : (1 : Nat) ≠ 2), (by decide : (1 : Nat) ≠ 4), (by decide : (1 : Nat) ≠ 8)]
    congr 1
    funext a
    exact tileBlockAt_scalar_apply ops unspec accumulate K mem out_tile lhs_panel rhs_panel a
  · have ha : (ae && !(decide (2 ≥ 1) && decide (2 ≤ 8) && iree_uk_is_po2_u32 2)) = false := by
      cases ae <;> decide
    simp only [iree_uk_mmt4d_tile_f32f32f32_1x8x1_to_8x8x1_riscv_64_at, ha]
    simp only [Bool.false_eq_true, if_false, if_true,
      (by decide : (2 : Nat) ≠ 1), (by decide : (2 : Nat) ≠ 4), (by decide : (2 : Nat) ≠ 8)]
    congr 1
    funext a
    exact tileBlockAt_vector_apply ops unspec 2 (by decide) accumulate K mem out_tile
      lhs_panel rhs_panel a
  · have ha : (ae && !(decide (4 ≥ 1) && decide (4 ≤ 8) && iree_uk_is_po2_u32 4)) = false := by
      cases ae <;> decide
    simp only [iree_uk_mmt4d_tile_f32f32f32_1x8x1_to_8x8x1_riscv_64_at, ha]
    simp only [Bool.false_eq_true, if_false, if_true,
      (by decide : (4 : Nat) ≠ 1), (by decide : (4 : Nat) ≠ 2), (by decide : (4 : Nat) ≠ 8)]
    congr 1
    funext a
    exact tileBlockAt_vector_apply ops unspec 4 (by decide) accumulate K mem out_tile
      lhs_panel rhs_panel a
  · have ha : (ae && !(decide (8 ≥ 1) && decide (8 ≤ 8) && iree_uk_is_po2_u32 8)) = false := by
      cases ae <;> decide
    simp only [iree_uk_mmt4d_tile_f32f32f32_1x8x1_to_8x8x1_riscv_64_at, ha]
    simp only [Bool.false_eq_true, if_false, if_true,
      (by decide : (8 : Nat) ≠ 1), (by decide : (8 : Nat) ≠ 2), (by decide : (8 : Nat) ≠ 4)]
    congr 1
    funext a
    exact tileBlockAt_vector_apply ops unspec 8 (by decide) accumulate K mem out_tile
      lhs_panel rhs_panel a

/-! ## Claims about the elements the riscv64 microkernel writes -/

/-- Claim C28. With 8 f32 lanes (vlmax = 8), for every M0 in 1, 2, 4, 8, every K and
either accumulate flag, a call of the riscv64 f32 tile function on a memory in which
the elements read from the two panels, lhs[0 .. M0*K) and rhs[0 .. 8*K), lie outside
the out tile out[0 .. 8*M0) (the pointers are restrict-qualified) returns, stores a
value to each of the elements out[0 .. 8*M0), and leaves every other element of the
memory as it was: the rest of the output buffer, the lhs panel and the rhs panel. When
the accumulate flag is not set, the values written do not depend on the previous
contents of the out tile. -/
theorem tile_writes_exactly_the_out_tile {F : Type} (ops : F32Ops F) (ae : Bool)
    (unspec : Nat → F) (mem : Nat → F) (out_tile lhs_panel rhs_panel : Nat)
    (accumulate : Bool) (K M0 : Nat)
    (hM0 : M0 = 1 ∨ M0 = 2 ∨ M0 = 4 ∨ M0 = 8)
    (hlhs : ∀ i < M0 * K, lhs_panel + i < out_tile ∨ out_tile + 8 * M0 ≤ lhs_panel + i)
    (hrhs : ∀ i < 8 * K, rhs_panel + i < out_tile ∨ out_tile + 8 * M0 ≤ rhs_panel + i) :
    ∃ mem2 : Nat → F,
      iree_uk_mmt4d_tile_f32f32f32_1x8x1_to_8x8x1_riscv_64_at ops ae 8 unspec mem out_tile
        lhs_panel rhs_panel accumulate K M0 = .ok mem2 ∧
      (∀ j < 8 * M0,
        mem2 (out_tile + j) =
          (List.range K).foldl
            (fun acc k => ops.fmacc acc (mem (lhs_panel + M0 * k + j / 8))
              (mem (rhs_panel + 8 * k + j % 8)))
            (if accumulate then mem (out_tile + j) else ops.zero)) ∧
      (∀ a, a < out_tile ∨ out_tile + 8 * M0 ≤ a → mem2 a = mem a) ∧
      (∀ i < M0 * K, mem2 (lhs_panel + i) = mem (lhs_panel + i)) ∧
      (∀ i < 8 * K, mem2 (rhs_panel + i) = mem (rhs_panel + i)) ∧
      (accumulate = false → ∀ other : Nat → F,
        (∀ a, a < out_tile ∨ out_tile + 8 * M0 ≤ a → other a = mem a) →
        ∃ other2 : Nat → F,
          iree_uk_mmt4d_tile_f32f32f32_1x8x1_to_8x8x1_riscv_64_at ops ae 8 unspec other
            out_tile lhs_panel rhs_panel accumulate K M0 = .ok other2 ∧
          ∀ j < 8 * M0, other2 (out_tile + j) = mem2 (out_tile + j)) := by
  have hin : ∀ (m : Nat → F) (j : Nat), j < 8 * M0 →
      (if out_tile ≤ out_tile + j ∧ out_tile + j < out_tile + 8 * M0 then
          (List.range K).foldl
            (fun acc k => ops.fmacc acc (m (lhs_panel + M0 * k + (out_tile + j - out_tile) / 8))
              (m (rhs_panel + 8 * k + (out_tile + j - out_tile) % 8)))
            (if accumulate then m (out_tile + j) else ops.zero)
        else m (out_tile + j)) =
        (List.range K).foldl
          (fun acc k => ops.fmacc acc (m (lhs_panel + M0 * k + j / 8))
            (m (rhs_panel + 8 * k + j % 8)))
          (if accumulate then m (out_tile + j) else ops.zero) := by
    intro m j hj
    have e : out_tile + j - out_tile = j := by omega
    rw [if_pos (by omega), e]
  have hout : ∀ (m : Nat → F) (a : Nat), a < out_tile ∨ out_tile + 8 * M0 ≤ a →
      (if out_tile ≤ a ∧ a < out_tile + 8 * M0 then
          (List.range K).foldl
            (fun acc k => ops.fmacc acc (m (lhs_panel + M0 * k + (a - out_tile) / 8))
              (m (rhs_panel + 8 * k + (a - out_tile) % 8)))
            (if accumulate then m a else ops.zero)
        else m a) = m a := by
    intro m a ha
    rw [if_neg (by omega)]
  refine ⟨_, tile_at_closed_form ops ae unspec mem out_tile lhs_panel rhs_panel accumulate
    K M0 hM0, hin mem, hout mem, fun i hi => hout mem _ (hlhs i hi),
    fun i hi => hout mem _ (hrhs i hi), ?_⟩
  intro hacc other hother
  refine ⟨_, tile_at_closed_form ops ae unspec other out_tile lhs_panel rhs_panel
    accumulate K M0 hM0, ?_⟩
  intro j hj
  have h1 := hin other j hj
  have h2 := hin mem j hj
  simp only at h1 h2 ⊢
  rw [h1, h2, hacc]
  simp only [Bool.false_eq_true, if_false]
  apply foldl_range_congr
  intro k hk acc
  have hm : j / 8 < M0 := by omega
  have hkK : M0 * (k + 1) ≤ M0 * K := Nat.mul_le_mul_left M0 hk
  have hl : M0 * k + j / 8 < M0 * K := by
    have : M0 * (k + 1) = M0 * k + M0 := by ring
    omega
  have hr : 8 * k + j % 8 < 8 * K := by omega
  have e1 : other (lhs_panel + M0 * k + j / 8) = mem (lhs_panel + M0 * k + j / 8) := by
    have := hother (lhs_panel + (M0 * k + j / 8)) (hlhs _ hl)
    rw [← Nat.add_assoc] at this
    exact this
  have e2 : other (rhs_panel + 8 * k + j % 8) = mem (rhs_panel + 8 * k + j % 8) := by
    have := hother (rhs_panel + (8 * k + j % 8)) (hrhs _ hr)
    rw [← Nat.add_assoc] at this
    exact this
  rw [e1, e2]

/-- Claim C28, example with integers for floats: M0 = 2, K = 2, accumulate not set, the
memory holding `a` at address `a`, the lhs panel at 0, the rhs panel at 20 and the out
tile at 100. The call leaves every address outside 100 .. 115 as it was, and the
element of row 1 and column 1 becomes (0 + 1 * 21) + 3 * 29 = 108. -/
theorem tile_writes_exactly_the_out_tile_witness :
    ∃ mem2 : Nat → Int,
      iree_uk_mmt4d_tile_f32f32f32_1x8x1_to_8x8x1_riscv_64_at intOps true 8 (fun _ => 0)
        (fun a => (a : Int)) 100 0 20 false 2 2 = .ok mem2 ∧
      (∀ a, a < 100 ∨ 100 + 8 * 2 ≤ a → mem2 a = (a : Int)) ∧
      mem2 109 = 108 := by
  obtain ⟨mem2, h1, h2, h3, _⟩ := tile_writes_exactly_the_out_tile intOps true (fun _ => 0)
    (fun a => (a : Int)) 100 0 20 false 2 2 (Or.inr (Or.inl rfl))
    (fun i hi => Or.inl (by omega)) (fun i hi => Or.inl (by omega))
  refine ⟨mem2, h1, h3, ?_⟩
  have h := h2 9 (by decide)
  rw [show (109 : Nat) = 100 + 9 from rfl, h]
  decide

/-! ## Claims about the all-dynamic catalog -/

/-- A catalog with a dynamic component is the single all-dynamic entry, and the
encoding it is enumerated for has no narrow hint. -/
theorem enumerateMatmulTileMxNxK_dynamic_no_hint (ae : Bool) (encoding : EncodingAttr)
    (target : ExecutableTargetAttr) (cat : List TileMxNxK)
    (henum : enumerateMatmulTileMxNxK ae encoding target = .ok cat)
    (hdyn : ∃ t ∈ cat, isDynamic t.M = true ∨ isDynamic t.N = true ∨ isDynamic t.K = true) :
    cat = dynamicTiles ∧ encoding.narrowDim.toBool = false := by
  obtain ⟨hv, _⟩ := enumerateMatmulTileMxNxK_dynamic_source ae encoding target cat henum hdyn
  obtain ⟨t, ht, hd⟩ := hdyn
  have hcontra : ∀ l : List TileMxNxK,
      (∀ u ∈ l, isDynamic u.M = false ∧ isDynamic u.N = false ∧ isDynamic u.K = false) →
      cat = l → False := by
    intro l hl hcl
    have := hl t (hcl ▸ ht)
    rcases hd with h | h | h
    · rw [this.1] at h; exact Bool.noConfusion h
    · rw [this.2.1] at h; exact Bool.noConfusion h
    · rw [this.2.2] at h; exact Bool.noConfusion h
  unfold enumerateMatmulTileMxNxK at henum
  split at henum
  · cases henum; simp at ht
  · rename_i cDims _
    simp only [hv, if_true] at henum
    split_ifs at henum
    · cases henum; simp at ht
    · have hcat : cat = enumerateMatmulTilesVMVX cDims encoding target :=
        (Except.ok.inj henum).symm
      have hor : enumerateMatmulTilesVMVX cDims encoding target = dynamicTiles ∨
          enumerateMatmulTilesVMVX cDims encoding target =
            [⟨8, 8, 4⟩, ⟨4, 8, 4⟩, ⟨2, 8, 4⟩, ⟨1, 8, 4⟩] := by
        unfold enumerateMatmulTilesVMVX dynamicTiles
        dsimp only
        split_ifs <;> simp
      by_cases hn : encoding.narrowDim.toBool = true
      · exfalso
        have hst : enumerateMatmulTilesVMVX cDims encoding target =
            [⟨8, 8, 4⟩, ⟨4, 8, 4⟩, ⟨2, 8, 4⟩, ⟨1, 8, 4⟩] := by
          unfold enumerateMatmulTilesVMVX
          simp [hn]
        exact hcontra _ (by decide) (hcat.trans hst)
      · have hn' : encoding.narrowDim.toBool = false := by simpa using hn
        refine ⟨?_, hn'⟩
        rcases hor with h | h
        · exact hcat.trans h
        · exact absurd (hcat.trans h) (fun h2 => hcontra _ (by decide) h2)

/-- Claim C5, amended. For the catalog whose single entry is the all-dynamic tile,
chooseMatmulTile returns exactly that tile for every narrow hint (none, M-narrow or
N-narrow, any size) and every bounds argument (absent or any triple), including
bounds smaller than every static tile size, in a build without assertions; in a build
with assertions it does so for every hint and bounds argument other than an N-narrow
hint with absent bounds. That case is never passed by materializeEncodingForTarget: a
catalog with a dynamic entry is enumerated only for an encoding without narrow hint,
and for it the all-dynamic tile is chosen in both builds. -/
theorem dynamic_catalog_yields_dynamic_tile (ae : Bool) (dflt : TileMxNxK)
    (nd : MatmulNarrowDim) (ub : List Int) (bM bN bK : Int)
    (hub : ub = [] ∨ ub = [bM, bN, bK])
    (hcase : ae = false ∨ nd.dim ≠ Dim.N ∨ ub = [bM, bN, bK]) :
    chooseMatmulTile ae dflt dynamicTiles nd ub = .ok ⟨kDynamic, kDynamic, kDynamic⟩ ∧
    (∀ (encoding : EncodingAttr) (target : ExecutableTargetAttr) (cat : List TileMxNxK),
      enumerateMatmulTileMxNxK ae encoding target = .ok cat →
      (∃ t ∈ cat, isDynamic t.M = true ∨ isDynamic t.N = true ∨ isDynamic t.K = true) →
      cat = dynamicTiles ∧ encoding.narrowDim.toBool = false ∧
        chooseMatmulTile ae dflt cat encoding.narrowDim ub =
          .ok ⟨kDynamic, kDynamic, kDynamic⟩) := by
  have hub' : ub = [] ∨ 3 ≤ ub.length := by
    rcases hub with h | h
    · exact Or.inl h
    · exact Or.inr (by rw [h]; simp)
  constructor
  · by_cases hnd : nd.dim = Dim.N
    · rcases hub with h | h
      · subst h
        rcases hcase with hae | hne | htr
        · subst hae
          rw [chooseMatmulTile_N_absent_unchecked dflt _ nd hnd,
            chooseMatmulTile_dynamic_of_not_N false dflt _ [] (by simp) (Or.inl rfl)]
        · exact absurd hnd hne
        · simp at htr
      · subst h
        rw [chooseMatmulTile_of_N_triple ae dflt _ nd bM bN bK hnd,
          chooseMatmulTile_dynamic_of_not_N ae dflt _ [bN, bM, bK] (by simp)
            (Or.inr (by simp))]
    · exact chooseMatmulTile_dynamic_of_not_N ae dflt nd ub hnd hub'
  · intro encoding target cat henum hdyn
    obtain ⟨hcat, hn⟩ := enumerateMatmulTileMxNxK_dynamic_no_hint ae encoding target cat
      henum hdyn
    refine ⟨hcat, hn, ?_⟩
    have hnd : encoding.narrowDim.dim ≠ Dim.N := by
      intro h
      simp [MatmulNarrowDim.toBool, h] at hn
    rw [hcat]
    exact chooseMatmulTile_dynamic_of_not_N ae dflt encoding.narrowDim ub hnd hub'

/-- Claim C5, example: with assertions on, an N-narrow hint of size 1 and the bounds
(0,0,0), smaller than every static tile size, and without assertions, an N-narrow hint
of size 1 and no bounds: the all-dynamic tile is returned. -/
theorem dynamic_catalog_yields_dynamic_tile_witness :
    chooseMatmulTile true ⟨0, 0, 0⟩ dynamicTiles ⟨Dim.N, 1⟩ [0, 0, 0] =
      .ok ⟨kDynamic, kDynamic, kDynamic⟩ ∧
    chooseMatmulTile false ⟨0, 0, 0⟩ dynamicTiles ⟨Dim.N, 1⟩ [] =
      .ok ⟨kDynamic, kDynamic, kDynamic⟩ :=
  ⟨(dynamic_catalog_yields_dynamic_tile true ⟨0, 0, 0⟩ ⟨Dim.N, 1⟩ [0, 0, 0] 0 0 0
      (Or.inr rfl) (Or.inr (Or.inr rfl))).1,
    (dynamic_catalog_yields_dynamic_tile false ⟨0, 0, 0⟩ ⟨Dim.N, 1⟩ [] 0 0 0
      (Or.inl rfl) (Or.inl rfl)).1⟩

/-- Claim C5 as stated fails in a build with assertions. For the catalog whose single
entry is the all-dynamic tile, an N-narrow hint and no bounds, the N-narrow branch
(lines 324-332) runs before the dynamic-tile loop (lines 339-347), and the range check
of the accesses of line 326 to elements 0 and 1 of an empty array stops the run: no
tile is returned, for every size and every default tile. -/
theorem dynamic_catalog_narrowN_without_bounds_faults :
    chooseMatmulTile true ⟨0, 0, 0⟩ dynamicTiles ⟨Dim.N, 1⟩ [] = .error (.outOfBounds 326) ∧
    ∀ (dflt : TileMxNxK) (s : Int),
      chooseMatmulTile true dflt dynamicTiles ⟨Dim.N, s⟩ [] = .error (.outOfBounds 326) :=
  ⟨chooseMatmulTile_N_absent _ _ _ rfl, fun dflt _ => chooseMatmulTile_N_absent dflt _ _ rfl⟩

end CPUMaterializeEncodings
